import Mathlib

/-! Economy engine of the clicker game: shallow embedding of the route handlers

The handlers of `server/routes/user.js`, `server/routes/game.js` and
`server/routes/business.js` are embedded as pure functions on a value `Db`
that holds the SQL tables as lists of rows.

Conventions of the embedding

* a table is a `List` of rows; `SELECT ... WHERE` is `List.filter`, the
  JavaScript test `rows.length === 0` is a match on `[]`, `rows[0]` is the
  head, `UPDATE ... WHERE` is `List.map` over the rows that satisfy the
  condition, `INSERT` appends a row;
* currency amounts, rates and multipliers (SQL decimals read through
  `parseFloat`, JavaScript numbers) are exact rationals `ℚ`; counters are
  integers; owned levels and account levels are naturals;
* the purchase cost is computed as JavaScript computes it, in binary64:
  `toDouble` rounds a real to 53 significant bits, a tie going to the even
  significand, the range of the exponent being left unbounded, and `Math.pow`
  is taken as correctly rounded; the sums, the differences and the other
  products of the handlers are exact, among them the product under the
  `Math.floor` of the idle settlement, whose binary64 value can fall just
  below an integer that the exact product reaches;
* `Math.round x` is `⌊x + 1/2⌋`, `Math.floor` is `⌊·⌋`,
  `Math.floor (Math.sqrt x)` is the integer square root of `⌊x⌋` and is
  undefined (`NaN`) for `x < 0`;
* instants are integers: the JavaScript clock `new Date()` is in
  milliseconds, a stored timestamp and SQL `NOW()` are in seconds, and the
  two clocks show the same instant;
* `ORDER BY` is an insertion sort on the listed keys; rows with equal keys,
  whose order SQL leaves open, keep the order in which they are stored;
* every handler returns the database after the call together with its
  answer, so that what a rejected call leaves behind is part of the model;
* the statements of one handler run one after the other, uninterrupted, and
  every SQL statement succeeds, apart from the storing of a `NaN`.
-/

namespace Economy

/-! ## Data model -/

/-- Row of the table `users`. -/
structure User where
  id : ℕ
  coins : ℚ
  gems : ℤ
  level : ℕ
  experience : ℤ
  click_power : ℚ
  auto_income : ℚ
  prestige_level : ℕ
  prestige_points : ℕ
  total_clicks : ℤ
  total_earned : ℚ
  last_active : ℤ
  deriving DecidableEq

/-- Column `type` of the table `upgrades`. -/
inductive UpgradeType where
  | click_power
  | auto_income
  | other
  deriving DecidableEq

/-- Row of the table `upgrades`; `max_level = none` is SQL `NULL`. -/
structure Upgrade where
  id : ℕ
  type : UpgradeType
  base_cost : ℚ
  cost_multiplier : ℚ
  base_effect : ℚ
  max_level : Option ℕ
  deriving DecidableEq

/-- Row of the table `user_upgrades`. -/
structure UserUpgrade where
  user_id : ℕ
  upgrade_id : ℕ
  level : ℕ
  deriving DecidableEq

/-- Row of the table `businesses`. -/
structure Business where
  id : ℕ
  base_cost : ℚ
  cost_multiplier : ℚ
  base_income : ℚ
  income_time : ℤ
  unlock_level : ℕ
  deriving DecidableEq

/-- Row of the table `user_businesses`. -/
structure UserBusiness where
  user_id : ℕ
  business_id : ℕ
  level : ℕ
  last_collected : ℤ
  deriving DecidableEq

/-- Column `type` of the table `achievements`. -/
inductive AchievementType where
  | clicks
  | coins
  | level
  | other
  deriving DecidableEq

/-- Row of the table `achievements`. -/
structure Achievement where
  id : ℕ
  type : AchievementType
  requirement_value : ℚ
  reward_coins : ℚ
  reward_gems : ℤ
  deriving DecidableEq

/-- Row of the table `user_achievements`. -/
structure UserAchievement where
  user_id : ℕ
  achievement_id : ℕ
  deriving DecidableEq

/-- Column `type` of the table `transactions`. -/
inductive TransactionType where
  | click_income
  | business_income
  | purchase
  | transfer
  | reward
  deriving DecidableEq

/-- Row of the table `transactions` (the free-text description is left out). -/
structure Transaction where
  from_user_id : Option ℕ
  to_user_id : Option ℕ
  amount : ℚ
  type : TransactionType
  deriving DecidableEq

/-- The tables the handlers read and write. -/
structure Db where
  users : List User
  upgrades : List Upgrade
  user_upgrades : List UserUpgrade
  businesses : List Business
  user_businesses : List UserBusiness
  achievements : List Achievement
  user_achievements : List UserAchievement
  transactions : List Transaction
  deriving DecidableEq

/-- Answers with which a handler rejects a call (`res.status(4xx/5xx)`). -/
inductive Err where
  /-- Status 400 'Invalid transfer data' -/
  | InvalidAmount
  /-- Status 400 'Cannot transfer to yourself' -/
  | SelfTransfer
  /-- Status 400 'Insufficient coins' -/
  | InsufficientFunds
  /-- Status 404 'Recipient not found' -/
  | RecipientNotFound
  /-- Status 404 'User not found' / 'Sender not found' -/
  | AccountNotFound
  /-- Status 404 'Upgrade not found' / 'Business not found' -/
  | DefinitionNotFound
  /-- Status 400 'Maximum level reached' -/
  | MaxLevelReached
  /-- Status 400 'Business unlocks at level ...' -/
  | LockedByLevel (required : ℕ)
  /-- Status 404 'Business not owned' -/
  | NotOwned
  /-- Status 400 'Income not ready yet' with `remainingTime` -/
  | NotReady (remaining : ℤ)
  /-- Status 400 'Minimum level ... required for prestige' -/
  | PrestigeIneligible (required : ℕ)
  /-- Status 500 'Internal server error' -/
  | Internal
  deriving DecidableEq

/-- What a handler leaves behind: the database after the call and the answer. -/
structure Outcome (ρ : Type) where
  db : Db
  result : Except Err ρ

/-! ## SQL primitives -/

/-- Statement `SELECT * FROM users WHERE id = ?` -/
def selectUser (db : Db) (userId : ℕ) : List User :=
  db.users.filter (fun u => decide (u.id = userId))

/-- Statement `UPDATE users SET ... WHERE id = ?`, the assignment given as `f`. -/
def updateUser (db : Db) (userId : ℕ) (f : User → User) : Db :=
  { db with users := db.users.map (fun u => if u.id = userId then f u else u) }

/-- Statement `INSERT INTO transactions ...` -/
def insertTransaction (db : Db) (t : Transaction) : Db :=
  { db with transactions := db.transactions ++ [t] }

/-- Assignment `coins = coins - ?` of an `UPDATE users`. -/
def debitCoins (amount : ℚ) (u : User) : User := { u with coins := u.coins - amount }

/-- Assignment `coins = coins + ?` of an `UPDATE users`. -/
def creditCoins (amount : ℚ) (u : User) : User := { u with coins := u.coins + amount }

/-- Coin balance of the account `userId` (the first row with that id). -/
def coinsOf (db : Db) (userId : ℕ) : Option ℚ :=
  (selectUser db userId).head?.map (fun u => u.coins)

/-! ## `POST /user/transfer` -/

/-- Answer of a successful transfer. -/
structure TransferResponse where
  remainingCoins : ℚ
  deriving DecidableEq

/-- The statements of the transfer between `START TRANSACTION` and `COMMIT`. -/
def commitTransfer (db : Db) (userId recipientId : ℕ) (amount : ℚ) : Db :=
  let db1 := updateUser db userId (debitCoins amount)
  let db2 := updateUser db1 recipientId (creditCoins amount)
  insertTransaction db2
    { from_user_id := some userId, to_user_id := some recipientId,
      amount := amount, type := .transfer }

/-- Handler `router.post('/transfer')` of `user.js`. A missing `recipientId` or
`amount` of the request body is the falsy value `0`; the recipient id is a number, as the
client sends it (`parseInt` in `app.js`). -/
def transfer (db : Db) (userId recipientId : ℕ) (amount : ℚ) : Outcome TransferResponse :=
  if recipientId = 0 ∨ amount = 0 ∨ amount ≤ 0 then
    ⟨db, .error .InvalidAmount⟩
  else if userId = recipientId then
    ⟨db, .error .SelfTransfer⟩
  else
    match selectUser db userId with
    | [] => ⟨db, .error .AccountNotFound⟩
    | sender :: _ =>
      let senderCoins := sender.coins
      if senderCoins < amount then
        ⟨db, .error .InsufficientFunds⟩
      else
        match selectUser db recipientId with
        | [] => ⟨db, .error .RecipientNotFound⟩
        | _ :: _ =>
          ⟨commitTransfer db userId recipientId amount,
            .ok { remainingCoins := senderCoins - amount }⟩

/-! ## Numeric primitives of JavaScript and SQL -/

/-- JavaScript `Math.round`: the nearest integer, a tie going up. -/
def jsRound (x : ℚ) : ℤ := ⌊x + 1 / 2⌋

/-- Rounding to the nearest integer, a tie going to the even one: the rounding of a
binary64 significand. -/
def roundHalfEven (x : ℚ) : ℤ :=
  if x - ⌊x⌋ < 1 / 2 then ⌊x⌋
  else if 1 / 2 < x - ⌊x⌋ then ⌊x⌋ + 1
  else if ⌊x⌋ % 2 = 0 then ⌊x⌋ else ⌊x⌋ + 1

/-- The JavaScript number for the real `x`: the binary64 value nearest to `x`, with 53
significant bits, a tie going to the even significand. `Int.log 2 |x|` is the binary
exponent of `x`. The range of the exponent is left unbounded: no overflow to `Infinity`
and no subnormal numbers. -/
def toDouble (x : ℚ) : ℚ :=
  if x = 0 then 0
  else (roundHalfEven (x / 2 ^ (Int.log 2 |x| - 52)) : ℚ) * 2 ^ (Int.log 2 |x| - 52)

/-- JavaScript `a * b` on numbers: the exact product, rounded to binary64. -/
def jsMul (a b : ℚ) : ℚ := toDouble (a * b)

/-- JavaScript `Math.pow(x, n)` for a whole exponent `n ≥ 0`, taken as the exact power
rounded to binary64; for `n = 0` and `n = 1` this is `1` and `x`. -/
def jsPow (x : ℚ) (n : ℕ) : ℚ := toDouble (x ^ n)

/-- Expression `base_cost * Math.pow(cost_multiplier, currentLevel)` of the two purchase
handlers, on the JavaScript numbers that the decimal columns `base_cost` and
`cost_multiplier` become. -/
def costProduct (baseCost costMultiplier : ℚ) (currentLevel : ℕ) : ℚ :=
  jsMul (toDouble baseCost) (jsPow (toDouble costMultiplier) currentLevel)

/-- JavaScript `Math.floor (Math.sqrt x)`: `none` is `NaN`, the square root of a negative
number. -/
def jsFloorSqrt (x : ℚ) : Option ℕ :=
  if x < 0 then none else some (Nat.sqrt ⌊x⌋.toNat)

/-- SQL `ROUND(x, 2)`: two decimals, a tie going away from zero. -/
def sqlRound2 (x : ℚ) : ℚ :=
  if 0 ≤ x then (⌊x * 100 + 1 / 2⌋ : ℚ) / 100 else -((⌊-x * 100 + 1 / 2⌋ : ℚ) / 100)

/-- SQL `NOW()` at the instant at which the JavaScript clock shows `nowMs`. -/
def sqlNow (nowMs : ℤ) : ℤ := nowMs / 1000

/-! ## `POST /game/click` and the achievement check -/

/-- Argument `stats` of `checkAchievements`. -/
structure Stats where
  clicks : ℤ
  coins : ℚ
  level : ℕ
  deriving DecidableEq

/-- The `switch (achievement.type)` of `checkAchievements`. -/
def achievementEarned (a : Achievement) (stats : Stats) : Bool :=
  match a.type with
  | .clicks => decide ((stats.clicks : ℚ) ≥ a.requirement_value)
  | .coins => decide (stats.coins ≥ a.requirement_value)
  | .level => decide ((stats.level : ℚ) ≥ a.requirement_value)
  | .other => false

/-- Assignment `coins = coins + ?, gems = gems + ?` of the reward. -/
def addReward (coins : ℚ) (gems : ℤ) (u : User) : User :=
  { u with coins := u.coins + coins, gems := u.gems + gems }

/-- Body of the loop of `checkAchievements` for one achievement. -/
def awardAchievement (userId : ℕ) (stats : Stats) (db : Db) (a : Achievement) : Db :=
  if achievementEarned a stats then
    let db1 : Db :=
      { db with user_achievements :=
          db.user_achievements ++ [{ user_id := userId, achievement_id := a.id }] }
    if a.reward_coins > 0 ∨ a.reward_gems > 0 then
      updateUser db1 userId
        (addReward a.reward_coins a.reward_gems)
    else db1
  else db

/-- The `SELECT` of `checkAchievements`: the achievements without a row in
`user_achievements` for this user. -/
def pendingAchievements (db : Db) (userId : ℕ) : List Achievement :=
  db.achievements.filter (fun a =>
    (db.user_achievements.filter (fun ua =>
      decide (a.id = ua.achievement_id ∧ ua.user_id = userId))).isEmpty)

/-- Function `checkAchievements` of `game.js`: each achievement not yet earned
is awarded when its metric is met. -/
def checkAchievements (db : Db) (userId : ℕ) (stats : Stats) : Db :=
  (pendingAchievements db userId).foldl (awardAchievement userId stats) db

/-- Answer of a click. -/
structure ClickResponse where
  earnedCoins : ℚ
  newLevel : Option ℕ
  totalCoins : ℚ
  experience : ℤ
  level : ℕ
  deriving DecidableEq

/-- The assignments `coins = coins + ?, experience = ?, level = ?, total_clicks = ?,
total_earned = ?, last_active = NOW()` of the click. -/
def clickAssign (earnedCoins : ℚ) (newExperience : ℤ) (newLevel : ℕ)
    (newTotalClicks : ℤ) (newTotalEarned : ℚ) (nowMs : ℤ) (u : User) : User :=
  { u with coins := u.coins + earnedCoins, experience := newExperience, level := newLevel,
           total_clicks := newTotalClicks, total_earned := newTotalEarned,
           last_active := sqlNow nowMs }

/-- The `UPDATE users SET ... WHERE id = ?` of the click. -/
def clickUpdate (db : Db) (userId : ℕ) (earnedCoins : ℚ) (newExperience : ℤ) (newLevel : ℕ)
    (newTotalClicks : ℤ) (newTotalEarned : ℚ) (nowMs : ℤ) : Db :=
  updateUser db userId
    (clickAssign earnedCoins newExperience newLevel newTotalClicks newTotalEarned nowMs)

/-- Expression `newLevel = Math.floor(Math.sqrt(newExperience / 100)) + 1`; `none` is `NaN`. -/
def levelOfExperience (newExperience : ℤ) : Option ℕ :=
  (jsFloorSqrt ((newExperience : ℚ) / 100)).map (fun r => r + 1)

/-- Handler `router.post('/click')` of `game.js`; `clicks` is the click count of
the request body. A level that is `NaN` cannot be stored: the call ends in the
`catch` branch. -/
def click (db : Db) (userId : ℕ) (clicks : ℤ) (nowMs : ℤ) : Outcome ClickResponse :=
  match selectUser db userId with
  | [] => ⟨db, .error .AccountNotFound⟩
  | user :: _ =>
    let earnedCoins := user.click_power * clicks
    let newExperience := user.experience + clicks
    match levelOfExperience newExperience with
    | none => ⟨db, .error .Internal⟩
    | some newLevel =>
      let newTotalClicks := user.total_clicks + clicks
      let newTotalEarned := user.total_earned + earnedCoins
      let db1 := clickUpdate db userId earnedCoins newExperience newLevel newTotalClicks
        newTotalEarned nowMs
      let db2 := insertTransaction db1
        { from_user_id := none, to_user_id := some userId, amount := earnedCoins,
          type := .click_income }
      let db3 := checkAchievements db2 userId
        { clicks := newTotalClicks, coins := user.coins + earnedCoins, level := newLevel }
      ⟨db3, .ok
        { earnedCoins := earnedCoins
          newLevel := if newLevel > user.level then some newLevel else none
          totalCoins := user.coins + earnedCoins
          experience := newExperience
          level := newLevel }⟩

/-- The click count of a request body: `const { clicks = 1 } = req.body`. -/
def clicksOfBody (clicks : Option ℤ) : ℤ := clicks.getD 1

/-! ## Experience bar of the client (`updateUI` of `public/app.js`) -/

/-- Constant `expForCurrentLevel`, with `currentLevel = this.user.level || 1`. -/
def expForCurrentLevel (level : ℕ) : ℤ :=
  let currentLevel : ℤ := if level = 0 then 1 else level
  (currentLevel - 1) ^ 2 * 100

/-- Constant `expForNextLevel`, with `currentLevel = this.user.level || 1`. -/
def expForNextLevel (level : ℕ) : ℤ :=
  let currentLevel : ℤ := if level = 0 then 1 else level
  currentLevel ^ 2 * 100

/-! ## Upgrades: `GET /game/upgrades` and `POST /game/upgrade/:upgradeId` -/

/-- Row returned by `GET /game/upgrades`. -/
structure UpgradeListing where
  upgrade : Upgrade
  user_level : ℕ
  current_cost : ℚ
  deriving DecidableEq

/-- Rows of the `LEFT JOIN` of one upgrade with the user's `user_upgrades`. -/
def upgradeRows (db : Db) (userId : ℕ) (u : Upgrade) : List UpgradeListing :=
  match db.user_upgrades.filter (fun uu => decide (u.id = uu.upgrade_id ∧ uu.user_id = userId)) with
  | [] => [{ upgrade := u, user_level := 0,
             current_cost := sqlRound2 (u.base_cost * u.cost_multiplier ^ 0) }]
  | rows => rows.map (fun uu =>
      { upgrade := u, user_level := uu.level,
        current_cost := sqlRound2 (u.base_cost * u.cost_multiplier ^ uu.level) })

/-- Handler `router.get('/upgrades')` of `game.js`. -/
def listUpgrades (db : Db) (userId : ℕ) : List UpgradeListing :=
  ((db.upgrades.map (upgradeRows db userId)).flatten).insertionSort
    (fun a b => a.upgrade.id ≤ b.upgrade.id)

/-- Answer of a successful purchase of an upgrade or of a business. -/
structure PurchaseResponse where
  newLevel : ℕ
  cost : ℤ
  income : Option ℚ
  remainingCoins : ℚ
  deriving DecidableEq

/-- The test `upgrade.max_level && currentLevel >= upgrade.max_level`. -/
def maxLevelReached (max_level : Option ℕ) (currentLevel : ℕ) : Bool :=
  match max_level with
  | none => false
  | some m => decide (m ≠ 0 ∧ currentLevel ≥ m)

/-- Statement `SELECT * FROM user_upgrades WHERE user_id = ? AND upgrade_id = ?` -/
def selectUserUpgrades (db : Db) (userId upgradeId : ℕ) : List UserUpgrade :=
  db.user_upgrades.filter (fun r => decide (r.user_id = userId ∧ r.upgrade_id = upgradeId))

/-- Expression `currentLevel = userUpgrades.length > 0 ? userUpgrades[0].level : 0` -/
def upgradeLevel (db : Db) (userId upgradeId : ℕ) : ℕ :=
  match selectUserUpgrades db userId upgradeId with
  | [] => 0
  | r :: _ => r.level

/-- Expression `cost = Math.round(upgrade.base_cost * Math.pow(upgrade.cost_multiplier, currentLevel))` -/
def upgradeCost (upgrade : Upgrade) (currentLevel : ℕ) : ℤ :=
  jsRound (costProduct upgrade.base_cost upgrade.cost_multiplier currentLevel)

/-- The `UPDATE user_upgrades SET level = level + 1` or the `INSERT` of level 1. -/
def raiseUpgrade (db : Db) (userId upgradeId : ℕ) (userUpgrades : List UserUpgrade) : Db :=
  if userUpgrades.length > 0 then
    { db with user_upgrades := db.user_upgrades.map (fun r =>
        if r.user_id = userId ∧ r.upgrade_id = upgradeId
        then { r with level := r.level + 1 } else r) }
  else
    { db with user_upgrades := db.user_upgrades ++
        [{ user_id := userId, upgrade_id := upgradeId, level := 1 }] }

/-- Assignment `click_power = click_power + ?`. -/
def addClickPower (effect : ℚ) (u : User) : User :=
  { u with click_power := u.click_power + effect }

/-- Assignment `auto_income = auto_income + ?`. -/
def addAutoIncome (effect : ℚ) (u : User) : User :=
  { u with auto_income := u.auto_income + effect }

/-- The update of the user stats by the type of the upgrade. -/
def applyUpgradeEffect (db : Db) (userId : ℕ) (upgrade : Upgrade) : Db :=
  match upgrade.type with
  | .click_power => updateUser db userId (addClickPower upgrade.base_effect)
  | .auto_income => updateUser db userId (addAutoIncome upgrade.base_effect)
  | .other => db

/-- The statements of the upgrade purchase between `START TRANSACTION` and
`COMMIT`; `userUpgrades` are the rows read before the block. -/
def commitUpgradePurchase (db : Db) (userId upgradeId : ℕ) (upgrade : Upgrade)
    (userUpgrades : List UserUpgrade) (cost : ℤ) : Db :=
  let db1 := updateUser db userId (debitCoins cost)
  let db2 := raiseUpgrade db1 userId upgradeId userUpgrades
  let db3 := applyUpgradeEffect db2 userId upgrade
  insertTransaction db3
    { from_user_id := some userId, to_user_id := none, amount := cost, type := .purchase }

/-- Handler `router.post('/upgrade/:upgradeId')` of `game.js`. -/
def purchaseUpgrade (db : Db) (userId upgradeId : ℕ) : Outcome PurchaseResponse :=
  match db.upgrades.filter (fun g => decide (g.id = upgradeId)) with
  | [] => ⟨db, .error .DefinitionNotFound⟩
  | upgrade :: _ =>
    let currentLevel := upgradeLevel db userId upgradeId
    if maxLevelReached upgrade.max_level currentLevel then
      ⟨db, .error .MaxLevelReached⟩
    else
      let cost := upgradeCost upgrade currentLevel
      match selectUser db userId with
      | [] => ⟨db, .error .AccountNotFound⟩
      | user :: _ =>
        let userCoins := user.coins
        if userCoins < cost then
          ⟨db, .error .InsufficientFunds⟩
        else
          ⟨commitUpgradePurchase db userId upgradeId upgrade
              (selectUserUpgrades db userId upgradeId) cost,
            .ok { newLevel := currentLevel + 1, cost := cost, income := none,
                  remainingCoins := userCoins - cost }⟩

/-! ## Businesses: `GET /business` and `POST /business/:businessId/purchase` -/

/-- Row returned by `GET /business`. -/
structure BusinessListing where
  business : Business
  user_level : ℕ
  current_cost : ℚ
  current_income : ℚ
  last_collected : Option ℤ
  unlocked : Bool
  deriving DecidableEq

/-- Rows of the `LEFT JOIN` of one business with the user's `user_businesses`. -/
def businessRows (db : Db) (userId userLevel : ℕ) (b : Business) : List BusinessListing :=
  match db.user_businesses.filter
      (fun ub => decide (b.id = ub.business_id ∧ ub.user_id = userId)) with
  | [] => [{ business := b, user_level := 0,
             current_cost := sqlRound2 (b.base_cost * b.cost_multiplier ^ 0),
             current_income := sqlRound2 (b.base_income * (0 : ℕ)),
             last_collected := none,
             unlocked := decide (b.unlock_level ≤ userLevel) }]
  | rows => rows.map (fun ub =>
      { business := b, user_level := ub.level,
        current_cost := sqlRound2 (b.base_cost * b.cost_multiplier ^ ub.level),
        current_income := sqlRound2 (b.base_income * ub.level),
        last_collected := some ub.last_collected,
        unlocked := decide (b.unlock_level ≤ userLevel) })

/-- Handler `router.get('/')` of `business.js`. -/
def listBusinesses (db : Db) (userId : ℕ) : Except Err (List BusinessListing) :=
  match selectUser db userId with
  | [] => .error .AccountNotFound
  | user :: _ =>
    let userLevel := user.level
    .ok (((db.businesses.map (businessRows db userId userLevel)).flatten).insertionSort
      (fun a b => a.business.unlock_level < b.business.unlock_level ∨
        (a.business.unlock_level = b.business.unlock_level ∧ a.business.id ≤ b.business.id)))

/-- Statement `SELECT * FROM user_businesses WHERE user_id = ? AND business_id = ?` -/
def selectUserBusinesses (db : Db) (userId businessId : ℕ) : List UserBusiness :=
  db.user_businesses.filter (fun r => decide (r.user_id = userId ∧ r.business_id = businessId))

/-- Expression `currentLevel = userBusinesses.length > 0 ? userBusinesses[0].level : 0` -/
def businessLevel (db : Db) (userId businessId : ℕ) : ℕ :=
  match selectUserBusinesses db userId businessId with
  | [] => 0
  | r :: _ => r.level

/-- Expression `cost = Math.round(business.base_cost * Math.pow(business.cost_multiplier, currentLevel))` -/
def businessCost (business : Business) (currentLevel : ℕ) : ℤ :=
  jsRound (costProduct business.base_cost business.cost_multiplier currentLevel)

/-- The `UPDATE user_businesses SET level = level + 1` or the `INSERT` of level
1. The `INSERT` names no `last_collected`: the row gets the default of that
column, `defaultCollected`, declared in the schema. -/
def raiseBusiness (db : Db) (userId businessId : ℕ) (userBusinesses : List UserBusiness)
    (defaultCollected : ℤ) : Db :=
  if userBusinesses.length > 0 then
    { db with user_businesses := db.user_businesses.map (fun r =>
        if r.user_id = userId ∧ r.business_id = businessId
        then { r with level := r.level + 1 } else r) }
  else
    { db with user_businesses := db.user_businesses ++
        [{ user_id := userId, business_id := businessId, level := 1,
           last_collected := defaultCollected }] }

/-- The statements of the business purchase between `START TRANSACTION` and
`COMMIT`; `userBusinesses` are the rows read before the block. -/
def commitBusinessPurchase (db : Db) (userId businessId : ℕ)
    (userBusinesses : List UserBusiness) (defaultCollected : ℤ) (cost : ℤ) : Db :=
  let db1 := updateUser db userId (debitCoins cost)
  let db2 := raiseBusiness db1 userId businessId userBusinesses defaultCollected
  insertTransaction db2
    { from_user_id := some userId, to_user_id := none, amount := cost, type := .purchase }

/-- Handler `router.post('/:businessId/purchase')` of `business.js`. -/
def purchaseBusiness (db : Db) (userId businessId : ℕ) (defaultCollected : ℤ) :
    Outcome PurchaseResponse :=
  match db.businesses.filter (fun b => decide (b.id = businessId)) with
  | [] => ⟨db, .error .DefinitionNotFound⟩
  | business :: _ =>
    match selectUser db userId with
    | [] => ⟨db, .error .AccountNotFound⟩
    | user :: _ =>
      if user.level < business.unlock_level then
        ⟨db, .error (.LockedByLevel business.unlock_level)⟩
      else
        let currentLevel := businessLevel db userId businessId
        let cost := businessCost business currentLevel
        if user.coins < cost then
          ⟨db, .error .InsufficientFunds⟩
        else
          let newIncome := business.base_income * (currentLevel + 1 : ℕ)
          ⟨commitBusinessPurchase db userId businessId
              (selectUserBusinesses db userId businessId) defaultCollected cost,
            .ok { newLevel := currentLevel + 1, cost := cost, income := some newIncome,
                  remainingCoins := user.coins - cost }⟩

/-! ## `POST /user/prestige` -/

/-- The `bonuses` of the answer of a prestige. -/
structure PrestigeBonuses where
  clickPower : ℚ
  autoIncome : ℚ
  startingCoins : ℚ
  deriving DecidableEq

/-- Answer of a successful prestige. The handler selects only `level`,
`prestige_level` and `coins`, so `user.prestige_points` is `undefined` and the
sum it returns as `prestigePoints` is `NaN`, here `none`. -/
structure PrestigeResponse where
  prestigeLevel : ℕ
  prestigePoints : Option ℕ
  bonuses : PrestigeBonuses
  deriving DecidableEq

/-- The `UPDATE users SET coins = 1000, level = 1, ...` of the prestige; the
assignments are evaluated from left to right, so `click_power` and
`auto_income` read the `prestige_level` of before the statement. -/
def prestigeUpdate (prestigePoints : ℕ) (u : User) : User :=
  { u with coins := 1000, level := 1, experience := 0,
           click_power := 1 + (u.prestige_level * 2 : ℕ),
           auto_income := (u.prestige_level * 5 : ℕ),
           prestige_level := u.prestige_level + 1,
           prestige_points := u.prestige_points + prestigePoints }

/-- The statements of the prestige between `START TRANSACTION` and `COMMIT`. -/
def commitPrestige (db : Db) (userId : ℕ) (prestigePoints : ℕ) : Db :=
  let db1 := updateUser db userId (prestigeUpdate prestigePoints)
  let db2 : Db :=
    { db1 with user_upgrades := db1.user_upgrades.filter (fun r => decide (r.user_id ≠ userId)) }
  let db3 : Db :=
    { db2 with user_businesses :=
        db2.user_businesses.filter (fun r => decide (r.user_id ≠ userId)) }
  insertTransaction db3
    { from_user_id := none, to_user_id := some userId, amount := 1000, type := .reward }

/-- Handler `router.post('/prestige')` of `user.js`. -/
def prestige (db : Db) (userId : ℕ) : Outcome PrestigeResponse :=
  match selectUser db userId with
  | [] => ⟨db, .error .AccountNotFound⟩
  | user :: _ =>
    let minLevelForPrestige := 50
    if user.level < minLevelForPrestige then
      ⟨db, .error (.PrestigeIneligible minLevelForPrestige)⟩
    else
      let prestigePoints := user.level / 10
      ⟨commitPrestige db userId prestigePoints, .ok
        { prestigeLevel := user.prestige_level + 1
          prestigePoints := none
          bonuses :=
            { clickPower := 1 + ((user.prestige_level + 1) * 2 : ℕ)
              autoIncome := ((user.prestige_level + 1) * 5 : ℕ)
              startingCoins := 1000 } }⟩

/-! ## `POST /game/collect-auto` -/

/-- Answer of the collection of auto income; the early answer for an account
without auto income has no `hoursOffline`. -/
structure CollectAutoResponse where
  earned : ℤ
  hoursOffline : Option ℤ
  deriving DecidableEq

/-- Expression `timeDiff`: whole seconds from the stored `last_active` to the JavaScript
clock. -/
def timeDiff (nowMs lastActive : ℤ) : ℤ :=
  ⌊((nowMs - lastActive * 1000 : ℤ) : ℚ) / 1000⌋

/-- Expression `cappedTime = Math.min(timeDiff, maxHours * 3600)` with `maxHours = 24`. -/
def cappedTime (nowMs lastActive : ℤ) : ℤ :=
  let maxHours := 24
  min (timeDiff nowMs lastActive) (maxHours * 3600)

/-- Expression `earned = Math.floor(autoIncome * (cappedTime / 3600))`. -/
def autoEarned (autoIncome : ℚ) (nowMs lastActive : ℤ) : ℤ :=
  ⌊autoIncome * ((cappedTime nowMs lastActive : ℚ) / 3600)⌋

/-- Assignment `coins = coins + ?, last_active = NOW()` of the settlement. -/
def settleAssign (earned : ℤ) (nowMs : ℤ) (u : User) : User :=
  { u with coins := u.coins + earned, last_active := sqlNow nowMs }

/-- Handler `router.post('/collect-auto')` of `game.js`, called when the
JavaScript clock shows `nowMs`. -/
def collectAuto (db : Db) (userId : ℕ) (nowMs : ℤ) : Outcome CollectAutoResponse :=
  match selectUser db userId with
  | [] => ⟨db, .error .AccountNotFound⟩
  | user :: _ =>
    let autoIncome := user.auto_income
    if autoIncome ≤ 0 then
      ⟨db, .ok { earned := 0, hoursOffline := none }⟩
    else
      let earned := autoEarned autoIncome nowMs user.last_active
      let db' :=
        if earned > 0 then
          insertTransaction (updateUser db userId (settleAssign earned nowMs))
            { from_user_id := none, to_user_id := some userId, amount := earned,
              type := .business_income }
        else db
      ⟨db', .ok { earned := earned,
                  hoursOffline := some ⌊(cappedTime nowMs user.last_active : ℚ) / 3600⌋ }⟩

/-! ## `POST /business/:businessId/collect` -/

/-- Answer of a successful collection of business income. -/
structure CollectResponse where
  income : ℚ
  deriving DecidableEq

/-- Statement `SELECT ub.*, b.base_income, b.income_time, b.name FROM user_businesses ub
JOIN businesses b ON ub.business_id = b.id WHERE ub.user_id = ? AND ub.business_id = ?
AND ub.level > 0`: each owned row with each catalog row of its business. -/
def selectOwnedBusiness (db : Db) (userId businessId : ℕ) : List (UserBusiness × Business) :=
  ((db.user_businesses.filter (fun ub =>
      decide (ub.user_id = userId ∧ ub.business_id = businessId ∧ ub.level > 0))).map
    (fun ub => (db.businesses.filter (fun b => decide (ub.business_id = b.id))).map
      (fun b => (ub, b)))).flatten

/-- Statement `UPDATE user_businesses SET last_collected = NOW() WHERE user_id = ? AND
business_id = ?` on one row. -/
def markCollected (userId businessId : ℕ) (nowMs : ℤ) (r : UserBusiness) : UserBusiness :=
  if r.user_id = userId ∧ r.business_id = businessId then
    { r with last_collected := sqlNow nowMs }
  else r

/-- The statements of the collection between `START TRANSACTION` and `COMMIT`. -/
def commitCollect (db : Db) (userId businessId : ℕ) (income : ℚ) (nowMs : ℤ) : Db :=
  let db1 := updateUser db userId (creditCoins income)
  let db2 : Db :=
    { db1 with user_businesses := db1.user_businesses.map (markCollected userId businessId nowMs) }
  insertTransaction db2
    { from_user_id := none, to_user_id := some userId, amount := income,
      type := .business_income }

/-- Handler `router.post('/:businessId/collect')` of `business.js`, called when the
JavaScript clock shows `nowMs`. -/
def collectBusiness (db : Db) (userId businessId : ℕ) (nowMs : ℤ) : Outcome CollectResponse :=
  match selectOwnedBusiness db userId businessId with
  | [] => ⟨db, .error .NotOwned⟩
  | (userBusiness, business) :: _ =>
    let elapsed := timeDiff nowMs userBusiness.last_collected
    if elapsed < business.income_time then
      let remainingTime := business.income_time - elapsed
      ⟨db, .error (.NotReady remainingTime)⟩
    else
      let income := business.base_income * userBusiness.level
      ⟨commitCollect db userId businessId income nowMs, .ok { income := income }⟩

/-! ## `GET /leaderboard/coins` -/

/-- Row of the coins leaderboard (the names of the account are left out). -/
structure LeaderboardRow where
  id : ℕ
  coins : ℚ
  level : ℕ
  prestige_level : ℕ
  rank : ℕ
  deriving DecidableEq

/-- Statement `SELECT id, ..., ROW_NUMBER() OVER (ORDER BY coins DESC) as rank FROM users
WHERE coins > 0`. The only sort key is `coins`; SQL leaves the order of rows with equal
keys open, here they keep the order in which they are stored. -/
def rankedByCoins (db : Db) : List LeaderboardRow :=
  (((db.users.filter (fun u => decide (u.coins > 0))).insertionSort
      (fun a b => a.coins ≥ b.coins)).enum).map
    (fun p => { id := p.2.id, coins := p.2.coins, level := p.2.level,
                prestige_level := p.2.prestige_level, rank := p.1 + 1 })

/-- Answer of the coins leaderboard. -/
structure CoinsLeaderboard where
  leaderboard : List LeaderboardRow
  userRank : Option ℕ
  deriving DecidableEq

/-- Handler `router.get('/coins')` of `leaderboard.js`; `limit` is `parseInt(limit)`. -/
def coinsLeaderboard (db : Db) (userId : ℕ) (limit : ℕ) : CoinsLeaderboard :=
  let leaderboard :=
    ((rankedByCoins db).insertionSort (fun a b => a.coins ≥ b.coins)).take limit
  let userRank := (rankedByCoins db).filter (fun r => decide (r.id = userId))
  { leaderboard := leaderboard
    userRank := match userRank with
      | [] => none
      | r :: _ => some r.rank }

/-! ## Sequences of balance-spending operations -/

/-- A call of one of the handlers that debit or reset a balance. -/
inductive Op where
  | purchaseUpgrade (userId upgradeId : ℕ)
  | purchaseBusiness (userId businessId : ℕ) (defaultCollected : ℤ)
  | transfer (userId recipientId : ℕ) (amount : ℚ)
  | prestige (userId : ℕ)

/-- The database after the call `op`, accepted or rejected. -/
def Op.run (db : Db) : Op → Db
  | .purchaseUpgrade userId upgradeId => (Economy.purchaseUpgrade db userId upgradeId).db
  | .purchaseBusiness userId businessId d => (Economy.purchaseBusiness db userId businessId d).db
  | .transfer userId recipientId amount => (Economy.transfer db userId recipientId amount).db
  | .prestige userId => (Economy.prestige db userId).db

/-- The database after a sequence of calls. -/
def runOps (db : Db) (ops : List Op) : Db := ops.foldl Op.run db

/-- Primary key of `users`: no two rows share an `id`. -/
def UniqueIds (db : Db) : Prop := (db.users.map (fun u => u.id)).Nodup

/-- Every account has a non-negative balance. -/
def NonNegBalances (db : Db) : Prop := ∀ u ∈ db.users, 0 ≤ u.coins

/-- The two together: the state of the accounts kept by the handlers. -/
def AccountsOk (db : Db) : Prop := UniqueIds db ∧ NonNegBalances db

/-! ## Sequences of requests to every handler that writes -/

/-- A request to one of the handlers that write the tables, with the reading of the clock
where the handler uses one. -/
inductive Request where
  | click (userId : ℕ) (clicks : ℤ) (nowMs : ℤ)
  | purchaseUpgrade (userId upgradeId : ℕ)
  | purchaseBusiness (userId businessId : ℕ) (defaultCollected : ℤ)
  | collectAuto (userId : ℕ) (nowMs : ℤ)
  | collectBusiness (userId businessId : ℕ) (nowMs : ℤ)
  | transfer (userId recipientId : ℕ) (amount : ℚ)
  | prestige (userId : ℕ)

/-- The database after the request, accepted or rejected. -/
def Request.run (db : Db) : Request → Db
  | .click userId clicks nowMs => (Economy.click db userId clicks nowMs).db
  | .purchaseUpgrade userId upgradeId => (Economy.purchaseUpgrade db userId upgradeId).db
  | .purchaseBusiness userId businessId d => (Economy.purchaseBusiness db userId businessId d).db
  | .collectAuto userId nowMs => (Economy.collectAuto db userId nowMs).db
  | .collectBusiness userId businessId nowMs =>
    (Economy.collectBusiness db userId businessId nowMs).db
  | .transfer userId recipientId amount => (Economy.transfer db userId recipientId amount).db
  | .prestige userId => (Economy.prestige db userId).db

/-- The database after a sequence of requests. -/
def runRequests (db : Db) (rs : List Request) : Db := rs.foldl Request.run db

/-- The click count of a click request is a positive integer; the other requests carry
none. -/
def Request.PositiveClicks : Request → Prop
  | .click _ clicks _ => 0 < clicks
  | _ => True

/-- Every stored level is the level of the stored experience. -/
def LevelsFollowExperience (db : Db) : Prop :=
  ∀ u ∈ db.users, levelOfExperience u.experience = some u.level

/-- The same with the experience non-negative, as a click with a positive count and a
prestige keep it. -/
def LevelsOk (db : Db) : Prop :=
  ∀ u ∈ db.users, 0 ≤ u.experience ∧ levelOfExperience u.experience = some u.level

/-! ## Two requests to `POST /user/transfer` served at the same time

The handler is an `async` function: at each `await` the server may go on with another
request. A request is followed here from one storage access to the next. The statements
from `START TRANSACTION` to `COMMIT` are taken as one step, the most that the transaction
can give. -/

/-- Body of a request to `/transfer`, with the account of the token. -/
structure TransferRequest where
  userId : ℕ
  recipientId : ℕ
  amount : ℚ

/-- Where the handler of a request to `/transfer` stands. -/
inductive TransferTask where
  /-- Nothing is read yet. -/
  | start
  /-- The balance of the sender is read into `senderCoins` and covers the amount. -/
  | senderRead (senderCoins : ℚ)
  /-- The recipient is read too: the writes come next. -/
  | recipientRead (senderCoins : ℚ)
  /-- The answer is sent. -/
  | done (result : Except Err TransferResponse)

/-- The handler of `/transfer` from one storage access to the next. -/
def TransferTask.step (req : TransferRequest) (db : Db) : TransferTask → Db × TransferTask
  | .start =>
    if req.recipientId = 0 ∨ req.amount = 0 ∨ req.amount ≤ 0 then
      (db, .done (.error .InvalidAmount))
    else if req.userId = req.recipientId then
      (db, .done (.error .SelfTransfer))
    else
      match selectUser db req.userId with
      | [] => (db, .done (.error .AccountNotFound))
      | sender :: _ =>
        if sender.coins < req.amount then (db, .done (.error .InsufficientFunds))
        else (db, .senderRead sender.coins)
  | .senderRead senderCoins =>
    match selectUser db req.recipientId with
    | [] => (db, .done (.error .RecipientNotFound))
    | _ :: _ => (db, .recipientRead senderCoins)
  | .recipientRead senderCoins =>
    (commitTransfer db req.userId req.recipientId req.amount,
      .done (.ok { remainingCoins := senderCoins - req.amount }))
  | .done result => (db, .done result)

/-- The storage and the two handlers that share it. -/
structure Race where
  db : Db
  first : TransferTask
  second : TransferTask

/-- The server goes on with one of the two requests: `false` the first, `true` the
second. -/
def Race.step (reqA reqB : TransferRequest) (s : Race) (who : Bool) : Race :=
  if who then
    let r := TransferTask.step reqB s.db s.second
    { s with db := r.1, second := r.2 }
  else
    let r := TransferTask.step reqA s.db s.first
    { s with db := r.1, first := r.2 }

/-- The two requests served in the order `schedule`. -/
def runSchedule (reqA reqB : TransferRequest) (db : Db) (schedule : List Bool) : Race :=
  schedule.foldl (Race.step reqA reqB) { db := db, first := .start, second := .start }

/-- The answer of a handler that is through. -/
def TransferTask.result? : TransferTask → Option (Except Err TransferResponse)
  | .done result => some result
  | _ => none

/-! ## Concrete accounts and catalog entries used to evaluate the handlers -/

/-- An account with 100 coins, level 1 and no income. -/
def alice : User :=
  { id := 1, coins := 100, gems := 0, level := 1, experience := 0, click_power := 1,
    auto_income := 0, prestige_level := 0, prestige_points := 0, total_clicks := 0,
    total_earned := 0, last_active := 0 }

/-- An account with 5 coins. -/
def bob : User := { alice with id := 2, coins := 5 }

/-- An upgrade of base cost 15 that grows by 15 percent per level. -/
def cursor : Upgrade :=
  { id := 1, type := .click_power, base_cost := 15, cost_multiplier := 23 / 20,
    base_effect := 1, max_level := none }

/-- A business of base cost 15 that grows by 15 percent per level. -/
def stand : Business :=
  { id := 1, base_cost := 15, cost_multiplier := 23 / 20, base_income := 10,
    income_time := 3600, unlock_level := 1 }

/-- A database with the two accounts and the two catalog entries, nothing owned. -/
def sampleDb : Db :=
  { users := [alice, bob], upgrades := [cursor], user_upgrades := [],
    businesses := [stand], user_businesses := [], achievements := [],
    user_achievements := [], transactions := [] }

/-- The same database once account 1 owns the upgrade and the business at level 1. -/
def ownedDb : Db :=
  { sampleDb with
    user_upgrades := [{ user_id := 1, upgrade_id := 1, level := 1 }]
    user_businesses := [{ user_id := 1, business_id := 1, level := 1, last_collected := 0 }] }

/-- An account of level 9 with 9900 experience and click power 1. -/
def veteran : User := { alice with id := 3, level := 9, experience := 9900 }

/-- A database with that account alone and an empty catalog. -/
def veteranDb : Db :=
  { users := [veteran], upgrades := [], user_upgrades := [], businesses := [],
    user_businesses := [], achievements := [], user_achievements := [], transactions := [] }

/-- An account with an auto income of 3.5 coins per hour, last active at second 0. -/
def investor : User := { alice with id := 4, auto_income := 7 / 2 }

/-- A database with that account alone. -/
def idleDb : Db :=
  { users := [investor], upgrades := [], user_upgrades := [], businesses := [],
    user_businesses := [], achievements := [], user_achievements := [], transactions := [] }

/-- The same account with a `last_active` of second 2: two seconds after the instant 0
at which the handler is called. -/
def aheadInvestor : User := { investor with last_active := 2 }

/-- A database with that account alone. -/
def aheadDb : Db := { idleDb with users := [aheadInvestor] }

/-- Account 1 owns the business at level 3, last collected at second 0. -/
def shopDb : Db :=
  { sampleDb with
    user_businesses := [{ user_id := 1, business_id := 1, level := 3, last_collected := 0 }] }

/-- The upgrade `cursor` with a maximum level of 2. -/
def cappedCursor : Upgrade := { cursor with max_level := some 2 }

/-- Account 1 owns that upgrade at its maximum level. -/
def cappedDb : Db :=
  { sampleDb with
    upgrades := [cappedCursor]
    user_upgrades := [{ user_id := 1, upgrade_id := 1, level := 2 }] }

/-- A business that unlocks at level 5. -/
def factory : Business :=
  { id := 2, base_cost := 500, cost_multiplier := 6 / 5, base_income := 100,
    income_time := 7200, unlock_level := 5 }

/-- The sample database with both businesses in the catalog. -/
def lockedDb : Db := { sampleDb with businesses := [stand, factory] }

/-- An account of level 50 that has never prestiged. -/
def champion : User :=
  { id := 5, coins := 5000, gems := 0, level := 50, experience := 240100, click_power := 7,
    auto_income := 3, prestige_level := 0, prestige_points := 0, total_clicks := 240100,
    total_earned := 900000, last_active := 0 }

/-- A database in which that account and account 1 own upgrades and businesses. -/
def championDb : Db :=
  { users := [alice, champion], upgrades := [cursor],
    user_upgrades := [{ user_id := 5, upgrade_id := 1, level := 6 },
                      { user_id := 1, upgrade_id := 1, level := 1 }],
    businesses := [stand],
    user_businesses := [{ user_id := 5, business_id := 1, level := 2, last_collected := 0 }],
    achievements := [], user_achievements := [], transactions := [] }

/-- An account with the same 100 coins as `alice`. -/
def carol : User := { alice with id := 6 }

/-- Two accounts with equal balances, `alice` stored first. -/
def tieDb : Db := { sampleDb with users := [alice, carol] }

/-- The same two accounts, `carol` stored first. -/
def tieDbSwapped : Db := { sampleDb with users := [carol, alice] }

/-- The accounts of `sampleDb` stored in the other order. -/
def sampleDbSwapped : Db := { sampleDb with users := [bob, alice] }

/-- An achievement for a first click, rewarded with 50 coins and 1 gem. -/
def firstClick : Achievement :=
  { id := 1, type := .clicks, requirement_value := 1, reward_coins := 50, reward_gems := 1 }

/-- The account `alice` alone, with that achievement not yet earned. -/
def rewardDb : Db :=
  { users := [alice], upgrades := [], user_upgrades := [], businesses := [],
    user_businesses := [], achievements := [firstClick], user_achievements := [],
    transactions := [] }

/-- An achievement for holding 1000 coins, without reward. -/
def thousandCoins : Achievement :=
  { id := 2, type := .coins, requirement_value := 1000, reward_coins := 0, reward_gems := 0 }

/-- An account of level 50 with 10 coins. -/
def spender : User := { champion with id := 7, coins := 10 }

/-- That account alone, with the achievement `thousandCoins` not yet earned. -/
def spenderDb : Db :=
  { users := [spender], upgrades := [], user_upgrades := [], businesses := [],
    user_businesses := [], achievements := [thousandCoins], user_achievements := [],
    transactions := [] }

/-- An achievement for holding 150 coins, without reward. -/
def rich : Achievement :=
  { id := 3, type := .coins, requirement_value := 150, reward_coins := 0, reward_gems := 0 }

/-- The account `alice` with the achievements `firstClick` and `rich` not yet earned. -/
def chainDb : Db := { rewardDb with achievements := [firstClick, rich] }

/-- An upgrade of base cost 50 that grows by 15 percent per level. -/
def drill : Upgrade :=
  { id := 2, type := .click_power, base_cost := 50, cost_multiplier := 23 / 20,
    base_effect := 1, max_level := none }

/-- A business of base cost 50 that grows by 15 percent per level. -/
def bakery : Business :=
  { id := 3, base_cost := 50, cost_multiplier := 23 / 20, base_income := 10,
    income_time := 3600, unlock_level := 1 }

/-- Account 1 owns that upgrade and that business at level 1. -/
def drillDb : Db :=
  { sampleDb with
    upgrades := [cursor, drill]
    businesses := [stand, bakery]
    user_upgrades := [{ user_id := 1, upgrade_id := 2, level := 1 }]
    user_businesses := [{ user_id := 1, business_id := 3, level := 1, last_collected := 0 }] }

/-! ## Idle settlement in the words of the specification -/

/-- Formula `elapsedSeconds = clamp(now - lastSettlement, 0, maxWindowSeconds)` with a window of
24 hours, both instants in seconds. -/
def specElapsedSeconds (now lastSettlement : ℤ) : ℤ :=
  max 0 (min (now - lastSettlement) 86400)

/-- Formula `earned = floor(autoIncomeRatePerHour * elapsedSeconds / 3600)` -/
def specEarned (autoIncomeRatePerHour : ℚ) (now lastSettlement : ℤ) : ℤ :=
  ⌊autoIncomeRatePerHour * (specElapsedSeconds now lastSettlement : ℚ) / 3600⌋

/-! ## Rewards credited by the achievement check -/

/-- Whether the loop of `checkAchievements` runs the reward `UPDATE` for `a`. -/
def rewarded (a : Achievement) (stats : Stats) : Bool :=
  achievementEarned a stats && decide (a.reward_coins > 0 ∨ a.reward_gems > 0)

/-- Coins the reward `UPDATE`s of the achievements `as` add to the account. -/
def rewardCoins (as : List Achievement) (stats : Stats) : ℚ :=
  ((as.filter (fun a => rewarded a stats)).map (fun a => a.reward_coins)).sum

/-- Gems the reward `UPDATE`s of the achievements `as` add to the account. -/
def rewardGems (as : List Achievement) (stats : Stats) : ℤ :=
  ((as.filter (fun a => rewarded a stats)).map (fun a => a.reward_gems)).sum

/-! ## The cost curve in the words of the specification -/

/-- Rounding half-up of the specification: `n` is the integer nearest to `x`, the upper
one when `x` lies halfway between two integers. -/
def IsRoundHalfUp (x : ℚ) (n : ℤ) : Prop := (n : ℚ) - 1 / 2 ≤ x ∧ x < (n : ℚ) + 1 / 2

/-! # Theorems -/

/-! ## Lemmas on the SQL primitives -/

theorem selectUser_updateUser (db : Db) (userId k : ℕ) (f : User → User)
    (hf : ∀ u, (f u).id = u.id) :
    selectUser (updateUser db userId f) k
      = (selectUser db k).map (fun u => if u.id = userId then f u else u) := by
  unfold selectUser updateUser
  simp only
  rw [List.filter_map]
  congr 1
  apply List.filter_congr
  intro u _
  by_cases hu : u.id = userId <;> simp [Function.comp, hu, hf]

theorem selectUser_updateUser_of_ne (db : Db) (userId k : ℕ) (f : User → User)
    (hf : ∀ u, (f u).id = u.id) (hk : k ≠ userId) :
    selectUser (updateUser db userId f) k = selectUser db k := by
  rw [selectUser_updateUser db userId k f hf]
  have hmem : ∀ u ∈ selectUser db k, u.id = k := by
    intro u hu
    simpa [selectUser] using (List.mem_filter.mp hu).2
  calc (selectUser db k).map (fun u => if u.id = userId then f u else u)
      = (selectUser db k).map id := by
        apply List.map_congr_left
        intro u hu
        have : u.id ≠ userId := by rw [hmem u hu]; exact hk
        simp [this]
    _ = selectUser db k := List.map_id _

theorem selectUser_updateUser_self (db : Db) (userId : ℕ) (f : User → User)
    (hf : ∀ u, (f u).id = u.id) :
    selectUser (updateUser db userId f) userId = (selectUser db userId).map f := by
  rw [selectUser_updateUser db userId userId f hf]
  apply List.map_congr_left
  intro u hu
  have : u.id = userId := by simpa [selectUser] using (List.mem_filter.mp hu).2
  simp [this]

theorem selectUser_insertTransaction (db : Db) (t : Transaction) (k : ℕ) :
    selectUser (insertTransaction db t) k = selectUser db k := rfl

/-! ## Transfers -/

theorem transfer_ok_inv (db : Db) (userId recipientId : ℕ) (amount : ℚ) (r : TransferResponse)
    (h : (transfer db userId recipientId amount).result = .ok r) :
    recipientId ≠ 0 ∧ 0 < amount ∧ userId ≠ recipientId ∧
    (∃ sender rest, selectUser db userId = sender :: rest ∧ amount ≤ sender.coins ∧
      r = { remainingCoins := sender.coins - amount }) ∧
    (∃ recipient rest, selectUser db recipientId = recipient :: rest) ∧
    (transfer db userId recipientId amount).db = commitTransfer db userId recipientId amount := by
  by_cases h1 : recipientId = 0 ∨ amount = 0 ∨ amount ≤ 0
  · rw [transfer, if_pos h1] at h
    simp at h
  by_cases h2 : userId = recipientId
  · rw [transfer, if_neg h1, if_pos h2] at h
    simp at h
  rw [transfer, if_neg h1, if_neg h2] at h ⊢
  push_neg at h1
  obtain ⟨hr, -, ha⟩ := h1
  cases hs : selectUser db userId with
  | nil => simp [hs] at h
  | cons sender rest =>
    by_cases h3 : sender.coins < amount
    · simp [hs, h3] at h
    cases hrc : selectUser db recipientId with
    | nil => simp [hs, h3, hrc] at h
    | cons recipient rest2 =>
      simp only [hs, h3, hrc, if_false, Except.ok.injEq] at h
      refine ⟨hr, ha, h2, ⟨sender, rest, rfl, not_lt.mp h3, h.symm⟩, ⟨recipient, rest2, rfl⟩, ?_⟩
      simp [h3, commitTransfer]

theorem coinsOf_commitTransfer_sender (db : Db) (userId recipientId : ℕ) (amount : ℚ)
    (hne : userId ≠ recipientId) :
    coinsOf (commitTransfer db userId recipientId amount) userId
      = (coinsOf db userId).map (fun c => c - amount) := by
  unfold coinsOf commitTransfer
  rw [selectUser_insertTransaction,
    selectUser_updateUser_of_ne _ _ _ (creditCoins amount) (fun _ => rfl) hne,
    selectUser_updateUser_self _ _ (debitCoins amount) (fun _ => rfl)]
  cases selectUser db userId <;> simp [debitCoins]

theorem coinsOf_commitTransfer_recipient (db : Db) (userId recipientId : ℕ) (amount : ℚ)
    (hne : userId ≠ recipientId) :
    coinsOf (commitTransfer db userId recipientId amount) recipientId
      = (coinsOf db recipientId).map (fun c => c + amount) := by
  unfold coinsOf commitTransfer
  rw [selectUser_insertTransaction,
    selectUser_updateUser_self _ _ (creditCoins amount) (fun _ => rfl),
    selectUser_updateUser_of_ne _ _ _ (debitCoins amount) (fun _ => rfl) (Ne.symm hne)]
  cases selectUser db recipientId <;> simp [creditCoins]

theorem selectUser_commitTransfer_other (db : Db) (userId recipientId k : ℕ) (amount : ℚ)
    (h1 : k ≠ userId) (h2 : k ≠ recipientId) :
    selectUser (commitTransfer db userId recipientId amount) k = selectUser db k := by
  unfold commitTransfer
  rw [selectUser_insertTransaction,
    selectUser_updateUser_of_ne _ _ _ (creditCoins amount) (fun _ => rfl) h2,
    selectUser_updateUser_of_ne _ _ _ (debitCoins amount) (fun _ => rfl) h1]

/-- C1: a successful transfer of `amount` from `userId` to `recipientId` (which is then
another, existing account) lowers the sender's balance by exactly `amount`, raises the
recipient's balance by exactly `amount`, keeps the sum of the two balances, and leaves
the rows of every other account as they were. -/
theorem transfer_conserves (db : Db) (userId recipientId : ℕ) (amount : ℚ)
    (r : TransferResponse)
    (h : (transfer db userId recipientId amount).result = .ok r) :
    userId ≠ recipientId ∧
    ∃ senderBefore recipientBefore senderAfter recipientAfter : ℚ,
      coinsOf db userId = some senderBefore ∧
      coinsOf db recipientId = some recipientBefore ∧
      coinsOf (transfer db userId recipientId amount).db userId = some senderAfter ∧
      coinsOf (transfer db userId recipientId amount).db recipientId = some recipientAfter ∧
      senderAfter = senderBefore - amount ∧
      recipientAfter = recipientBefore + amount ∧
      senderBefore + recipientBefore = senderAfter + recipientAfter ∧
      ∀ k, k ≠ userId → k ≠ recipientId →
        selectUser (transfer db userId recipientId amount).db k = selectUser db k := by
  obtain ⟨-, -, hne, ⟨sender, rest, hs, -, -⟩, ⟨recipient, rest2, hrc⟩, hdb⟩ :=
    transfer_ok_inv db userId recipientId amount r h
  refine ⟨hne, sender.coins, recipient.coins, sender.coins - amount,
    recipient.coins + amount, ?_, ?_, ?_, ?_, rfl, rfl, by ring, ?_⟩
  · simp [coinsOf, hs]
  · simp [coinsOf, hrc]
  · rw [hdb, coinsOf_commitTransfer_sender _ _ _ _ hne]
    simp [coinsOf, hs]
  · rw [hdb, coinsOf_commitTransfer_recipient _ _ _ _ hne]
    simp [coinsOf, hrc]
  · intro k h1 h2
    rw [hdb]
    exact selectUser_commitTransfer_other db userId recipientId k amount h1 h2

theorem transfer_sample_ok :
    (transfer sampleDb 1 2 30).result = .ok { remainingCoins := 70 } := by
  simp [transfer, sampleDb, selectUser, alice, bob]
  norm_num

theorem transfer_conserves_witness :
    (transfer sampleDb 1 2 30).result = .ok { remainingCoins := 70 } ∧
    ∃ senderBefore recipientBefore senderAfter recipientAfter : ℚ,
      coinsOf sampleDb 1 = some senderBefore ∧
      coinsOf sampleDb 2 = some recipientBefore ∧
      coinsOf (transfer sampleDb 1 2 30).db 1 = some senderAfter ∧
      coinsOf (transfer sampleDb 1 2 30).db 2 = some recipientAfter ∧
      senderAfter = senderBefore - 30 ∧
      recipientAfter = recipientBefore + 30 ∧
      senderBefore + recipientBefore = senderAfter + recipientAfter ∧
      ∀ k, k ≠ 1 → k ≠ 2 → selectUser (transfer sampleDb 1 2 30).db k = selectUser sampleDb k :=
  ⟨transfer_sample_ok, (transfer_conserves sampleDb 1 2 30 _ transfer_sample_ok).2⟩

/-- C2: a transfer succeeds exactly when `amount > 0`, sender and recipient differ, the
sender has at least `amount` coins and the recipient exists (a recipient id being given and
the sender being an existing account). It is rejected with `InvalidAmount` when
`amount ≤ 0`, with `SelfTransfer` when sender and recipient are the same, with
`InsufficientFunds` when the balance of the sender is below `amount`, and with
`RecipientNotFound` when the recipient does not exist: the handler makes these checks in
this order, the order of the claim, and each rejection is stated for a request that has
passed the checks before it. A request without recipient id is answered `InvalidAmount`,
one of an account that does not exist `AccountNotFound`. -/
theorem transfer_result_by_first_failing_check (db : Db) (userId recipientId : ℕ)
    (amount : ℚ) :
    ((recipientId = 0 ∨ amount ≤ 0) →
      (transfer db userId recipientId amount).result = .error .InvalidAmount) ∧
    (recipientId ≠ 0 → 0 < amount → userId = recipientId →
      (transfer db userId recipientId amount).result = .error .SelfTransfer) ∧
    (recipientId ≠ 0 → 0 < amount → userId ≠ recipientId → selectUser db userId = [] →
      (transfer db userId recipientId amount).result = .error .AccountNotFound) ∧
    (∀ sender rest, recipientId ≠ 0 → 0 < amount → userId ≠ recipientId →
      selectUser db userId = sender :: rest → sender.coins < amount →
      (transfer db userId recipientId amount).result = .error .InsufficientFunds) ∧
    (∀ sender rest, recipientId ≠ 0 → 0 < amount → userId ≠ recipientId →
      selectUser db userId = sender :: rest → amount ≤ sender.coins →
      selectUser db recipientId = [] →
      (transfer db userId recipientId amount).result = .error .RecipientNotFound) ∧
    ((∃ r, (transfer db userId recipientId amount).result = .ok r) ↔
      (recipientId ≠ 0 ∧ 0 < amount ∧ userId ≠ recipientId ∧
        (∃ sender rest, selectUser db userId = sender :: rest ∧ amount ≤ sender.coins) ∧
        selectUser db recipientId ≠ [])) := by
  have key : ∀ {recipientId : ℕ} {amount : ℚ}, recipientId ≠ 0 → 0 < amount →
      ¬ (recipientId = 0 ∨ amount = 0 ∨ amount ≤ 0) := by
    intro _ _ hr ha hc
    rcases hc with hc | hc | hc
    · exact hr hc
    · exact (ne_of_gt ha) hc
    · exact (not_le.mpr ha) hc
  refine ⟨?_, ?_, ?_, ?_, ?_, ?_, ?_⟩
  · intro h
    have hc : recipientId = 0 ∨ amount = 0 ∨ amount ≤ 0 := by
      rcases h with h | h
      · exact Or.inl h
      · exact Or.inr (Or.inr h)
    rw [transfer, if_pos hc]
  · intro hr ha hu
    rw [transfer, if_neg (key hr ha), if_pos hu]
  · intro hr ha hu hs
    rw [transfer, if_neg (key hr ha), if_neg hu]
    simp [hs]
  · intro sender rest hr ha hu hs hlt
    rw [transfer, if_neg (key hr ha), if_neg hu]
    simp [hs, hlt]
  · intro sender rest hr ha hu hs hle hrc
    rw [transfer, if_neg (key hr ha), if_neg hu]
    simp [hs, not_lt.mpr hle, hrc]
  · rintro ⟨r, h⟩
    obtain ⟨hr, ha, hne, ⟨sender, rest, hs, hle, -⟩, ⟨recipient, rest2, hrc⟩, -⟩ :=
      transfer_ok_inv db userId recipientId amount r h
    exact ⟨hr, ha, hne, ⟨sender, rest, hs, hle⟩, by simp [hrc]⟩
  · rintro ⟨hr, ha, hne, ⟨sender, rest, hs, hle⟩, hrc⟩
    rw [transfer, if_neg (key hr ha), if_neg hne]
    cases hrc' : selectUser db recipientId with
    | nil => exact absurd hrc' hrc
    | cons recipient rest2 =>
      exact ⟨{ remainingCoins := sender.coins - amount }, by simp [hs, not_lt.mpr hle]⟩

theorem transfer_result_by_first_failing_check_witness :
    (transfer sampleDb 1 2 0).result = .error .InvalidAmount ∧
    (transfer sampleDb 1 1 5).result = .error .SelfTransfer ∧
    (transfer sampleDb 7 2 5).result = .error .AccountNotFound ∧
    (transfer sampleDb 2 1 50).result = .error .InsufficientFunds ∧
    (transfer sampleDb 1 9 5).result = .error .RecipientNotFound ∧
    (∃ r, (transfer sampleDb 1 2 30).result = .ok r) := by
  have s1 : selectUser sampleDb 1 = [alice] := by simp [selectUser, sampleDb, alice, bob]
  have s2 : selectUser sampleDb 2 = [bob] := by simp [selectUser, sampleDb, alice, bob]
  have s7 : selectUser sampleDb 7 = [] := by simp [selectUser, sampleDb, alice, bob]
  have s9 : selectUser sampleDb 9 = [] := by simp [selectUser, sampleDb, alice, bob]
  refine ⟨?_, ?_, ?_, ?_, ?_, ?_⟩
  · exact (transfer_result_by_first_failing_check sampleDb 1 2 0).1 (Or.inr le_rfl)
  · exact (transfer_result_by_first_failing_check sampleDb 1 1 5).2.1
      (by decide) (by norm_num) rfl
  · exact (transfer_result_by_first_failing_check sampleDb 7 2 5).2.2.1
      (by decide) (by norm_num) (by decide) s7
  · exact (transfer_result_by_first_failing_check sampleDb 2 1 50).2.2.2.1 bob []
      (by decide) (by norm_num) (by decide) s2 (by norm_num [bob])
  · exact (transfer_result_by_first_failing_check sampleDb 1 9 5).2.2.2.2.1 alice []
      (by decide) (by norm_num) (by decide) s1 (by norm_num [alice]) s9
  · exact (transfer_result_by_first_failing_check sampleDb 1 2 30).2.2.2.2.2.mpr
      ⟨by decide, by norm_num, by decide, ⟨alice, [], s1, by norm_num [alice]⟩, by simp [s2]⟩

/-! ## Non-negative balances -/

theorem accountsOk_of_users_eq {db db' : Db} (h : db'.users = db.users) (hok : AccountsOk db) :
    AccountsOk db' := by
  unfold AccountsOk UniqueIds NonNegBalances at *
  rw [h]
  exact hok

theorem accountsOk_updateUser (db : Db) (userId : ℕ) (f : User → User)
    (hid : ∀ u, (f u).id = u.id)
    (hf : ∀ u ∈ db.users, u.id = userId → 0 ≤ (f u).coins) (hok : AccountsOk db) :
    AccountsOk (updateUser db userId f) := by
  obtain ⟨hu, hn⟩ := hok
  constructor
  · unfold UniqueIds updateUser at *
    simp only [List.map_map]
    have : ((fun u : User => u.id) ∘ fun u => if u.id = userId then f u else u)
        = fun u => u.id := by
      funext u
      by_cases h : u.id = userId <;> simp [h, hid]
    rw [this]
    exact hu
  · intro u hmem
    unfold updateUser at hmem
    simp only [List.mem_map] at hmem
    obtain ⟨v, hv, rfl⟩ := hmem
    by_cases h : v.id = userId
    · simp only [h, if_true]
      exact hf v hv h
    · simp only [h, if_false]
      exact hn v hv

theorem eq_head_of_selectUser (db : Db) (userId : ℕ) (user : User) (rest : List User)
    (hu : UniqueIds db) (hs : selectUser db userId = user :: rest) :
    ∀ u ∈ db.users, u.id = userId → u = user := by
  intro u hmem hid
  have hmem' : user ∈ selectUser db userId := by rw [hs]; exact List.mem_cons_self _ _
  unfold selectUser at hmem'
  obtain ⟨hm, hd⟩ := List.mem_filter.mp hmem'
  have hid' : user.id = userId := by simpa using hd
  exact List.inj_on_of_nodup_map hu hmem hm (by rw [hid, hid'])

theorem accountsOk_debit (db : Db) (userId : ℕ) (user : User) (rest : List User) (cost : ℚ)
    (hs : selectUser db userId = user :: rest) (hc : ¬ user.coins < cost)
    (hok : AccountsOk db) : AccountsOk (updateUser db userId (debitCoins cost)) := by
  apply accountsOk_updateUser db userId (debitCoins cost) (fun _ => rfl) _ hok
  intro u hmem hid
  rw [eq_head_of_selectUser db userId user rest hok.1 hs u hmem hid]
  simp only [debitCoins]
  linarith [not_lt.mp hc]

theorem accountsOk_keep_coins (db : Db) (userId : ℕ) (f : User → User)
    (hid : ∀ u, (f u).id = u.id) (hc : ∀ u, (f u).coins = u.coins) (hok : AccountsOk db) :
    AccountsOk (updateUser db userId f) := by
  apply accountsOk_updateUser db userId f hid _ hok
  intro u hmem _
  rw [hc]
  exact hok.2 u hmem

/-- What `purchaseUpgrade` leaves behind: the database as it was, or the committed
purchase of an upgrade the account could pay. -/
theorem purchaseUpgrade_db (db : Db) (userId upgradeId : ℕ) :
    (purchaseUpgrade db userId upgradeId).db = db ∨
    ∃ upgrade user rest,
      selectUser db userId = user :: rest ∧
      ¬ user.coins < upgradeCost upgrade (upgradeLevel db userId upgradeId) ∧
      (purchaseUpgrade db userId upgradeId).db =
        commitUpgradePurchase db userId upgradeId upgrade
          (selectUserUpgrades db userId upgradeId)
          (upgradeCost upgrade (upgradeLevel db userId upgradeId)) := by
  unfold purchaseUpgrade
  cases hg : db.upgrades.filter (fun g => decide (g.id = upgradeId)) with
  | nil => exact Or.inl rfl
  | cons upgrade gs =>
    by_cases hm : maxLevelReached upgrade.max_level (upgradeLevel db userId upgradeId) = true
    · simp [hm]
    cases hs : selectUser db userId with
    | nil => simp [hm]
    | cons user rest =>
      by_cases hc : user.coins < upgradeCost upgrade (upgradeLevel db userId upgradeId)
      · simp [hm, hc]
      · right
        exact ⟨upgrade, user, rest, rfl, hc, by simp [hm, hc]⟩

theorem purchaseBusiness_db (db : Db) (userId businessId : ℕ) (d : ℤ) :
    (purchaseBusiness db userId businessId d).db = db ∨
    ∃ business user rest,
      selectUser db userId = user :: rest ∧
      ¬ user.coins < businessCost business (businessLevel db userId businessId) ∧
      (purchaseBusiness db userId businessId d).db =
        commitBusinessPurchase db userId businessId
          (selectUserBusinesses db userId businessId) d
          (businessCost business (businessLevel db userId businessId)) := by
  unfold purchaseBusiness
  cases hg : db.businesses.filter (fun b => decide (b.id = businessId)) with
  | nil => exact Or.inl rfl
  | cons business gs =>
    cases hs : selectUser db userId with
    | nil => simp
    | cons user rest =>
      by_cases hl : user.level < business.unlock_level
      · simp [hl]
      by_cases hc : user.coins < businessCost business (businessLevel db userId businessId)
      · simp [hl, hc]
      · right
        exact ⟨business, user, rest, rfl, hc, by simp [hl, hc]⟩

theorem prestige_db (db : Db) (userId : ℕ) :
    (prestige db userId).db = db ∨
    ∃ user rest, selectUser db userId = user :: rest ∧
      (prestige db userId).db = commitPrestige db userId (user.level / 10) := by
  unfold prestige
  cases hs : selectUser db userId with
  | nil => exact Or.inl rfl
  | cons user rest =>
    by_cases hl : user.level < 50
    · simp [hl]
    · right
      exact ⟨user, rest, rfl, by simp [hl]⟩

theorem transfer_db (db : Db) (userId recipientId : ℕ) (amount : ℚ) :
    (transfer db userId recipientId amount).db = db ∨
    ∃ sender rest, 0 < amount ∧ selectUser db userId = sender :: rest ∧
      ¬ sender.coins < amount ∧
      (transfer db userId recipientId amount).db = commitTransfer db userId recipientId amount := by
  by_cases h1 : recipientId = 0 ∨ amount = 0 ∨ amount ≤ 0
  · rw [transfer, if_pos h1]; exact Or.inl rfl
  by_cases h2 : userId = recipientId
  · rw [transfer, if_neg h1, if_pos h2]; exact Or.inl rfl
  rw [transfer, if_neg h1, if_neg h2]
  push_neg at h1
  cases hs : selectUser db userId with
  | nil => exact Or.inl rfl
  | cons sender rest =>
    by_cases h3 : sender.coins < amount
    · simp [h3]
    cases hrc : selectUser db recipientId with
    | nil => simp [h3]
    | cons recipient rest2 =>
      right
      exact ⟨sender, rest, h1.2.2, rfl, h3, by simp [h3]⟩

theorem accountsOk_insertTransaction (db : Db) (t : Transaction) (hok : AccountsOk db) :
    AccountsOk (insertTransaction db t) :=
  accountsOk_of_users_eq rfl hok

theorem raiseUpgrade_users (db : Db) (userId upgradeId : ℕ) (rows : List UserUpgrade) :
    (raiseUpgrade db userId upgradeId rows).users = db.users := by
  unfold raiseUpgrade
  split_ifs <;> rfl

theorem raiseBusiness_users (db : Db) (userId businessId : ℕ) (rows : List UserBusiness)
    (d : ℤ) : (raiseBusiness db userId businessId rows d).users = db.users := by
  unfold raiseBusiness
  split_ifs <;> rfl

theorem accountsOk_applyUpgradeEffect (db : Db) (userId : ℕ) (upgrade : Upgrade)
    (hok : AccountsOk db) : AccountsOk (applyUpgradeEffect db userId upgrade) := by
  unfold applyUpgradeEffect
  split
  · exact accountsOk_keep_coins db userId _ (fun _ => rfl) (fun _ => rfl) hok
  · exact accountsOk_keep_coins db userId _ (fun _ => rfl) (fun _ => rfl) hok
  · exact hok

theorem accountsOk_commitUpgradePurchase (db : Db) (userId upgradeId : ℕ) (upgrade : Upgrade)
    (rows : List UserUpgrade) (cost : ℤ) (user : User) (rest : List User)
    (hs : selectUser db userId = user :: rest) (hc : ¬ user.coins < cost)
    (hok : AccountsOk db) :
    AccountsOk (commitUpgradePurchase db userId upgradeId upgrade rows cost) := by
  unfold commitUpgradePurchase
  apply accountsOk_insertTransaction
  apply accountsOk_applyUpgradeEffect
  exact accountsOk_of_users_eq (raiseUpgrade_users _ userId upgradeId rows)
    (accountsOk_debit db userId user rest cost hs hc hok)

theorem accountsOk_commitBusinessPurchase (db : Db) (userId businessId : ℕ)
    (rows : List UserBusiness) (d : ℤ) (cost : ℤ) (user : User) (rest : List User)
    (hs : selectUser db userId = user :: rest) (hc : ¬ user.coins < cost)
    (hok : AccountsOk db) :
    AccountsOk (commitBusinessPurchase db userId businessId rows d cost) := by
  unfold commitBusinessPurchase
  apply accountsOk_insertTransaction
  exact accountsOk_of_users_eq (raiseBusiness_users _ userId businessId rows d)
    (accountsOk_debit db userId user rest cost hs hc hok)

theorem accountsOk_commitPrestige (db : Db) (userId : ℕ) (points : ℕ) (hok : AccountsOk db) :
    AccountsOk (commitPrestige db userId points) := by
  unfold commitPrestige
  apply accountsOk_insertTransaction
  have h1 : AccountsOk (updateUser db userId (prestigeUpdate points)) := by
    apply accountsOk_updateUser db userId (prestigeUpdate points) (fun _ => rfl) _ hok
    intro u _ _
    simp [prestigeUpdate]
  exact accountsOk_of_users_eq rfl h1

theorem accountsOk_commitTransfer (db : Db) (userId recipientId : ℕ) (amount : ℚ)
    (sender : User) (rest : List User) (ha : 0 < amount)
    (hs : selectUser db userId = sender :: rest) (hc : ¬ sender.coins < amount)
    (hok : AccountsOk db) : AccountsOk (commitTransfer db userId recipientId amount) := by
  unfold commitTransfer
  apply accountsOk_insertTransaction
  have h1 := accountsOk_debit db userId sender rest amount hs hc hok
  apply accountsOk_updateUser _ recipientId (creditCoins amount) (fun _ => rfl) _ h1
  intro u hmem _
  have := h1.2 u hmem
  simp only [creditCoins]
  linarith

theorem accountsOk_run (db : Db) (op : Op) (hok : AccountsOk db) : AccountsOk (op.run db) := by
  cases op with
  | purchaseUpgrade userId upgradeId =>
    rcases purchaseUpgrade_db db userId upgradeId with h | ⟨g, user, rest, hs, hc, h⟩
    · exact accountsOk_of_users_eq (by rw [Op.run, h]) hok
    · rw [Op.run, h]
      exact accountsOk_commitUpgradePurchase db userId upgradeId g _ _ user rest hs hc hok
  | purchaseBusiness userId businessId d =>
    rcases purchaseBusiness_db db userId businessId d with h | ⟨b, user, rest, hs, hc, h⟩
    · exact accountsOk_of_users_eq (by rw [Op.run, h]) hok
    · rw [Op.run, h]
      exact accountsOk_commitBusinessPurchase db userId businessId _ d _ user rest hs hc hok
  | transfer userId recipientId amount =>
    rcases transfer_db db userId recipientId amount with h | ⟨sender, rest, ha, hs, hc, h⟩
    · exact accountsOk_of_users_eq (by rw [Op.run, h]) hok
    · rw [Op.run, h]
      exact accountsOk_commitTransfer db userId recipientId amount sender rest ha hs hc hok
  | prestige userId =>
    rcases prestige_db db userId with h | ⟨user, rest, -, h⟩
    · exact accountsOk_of_users_eq (by rw [Op.run, h]) hok
    · rw [Op.run, h]
      exact accountsOk_commitPrestige db userId _ hok

theorem accountsOk_runOps (ops : List Op) : ∀ db : Db, AccountsOk db → AccountsOk (runOps db ops) := by
  induction ops with
  | nil => intro db h; exact h
  | cons op ops ih =>
    intro db h
    exact ih (op.run db) (accountsOk_run db op h)

/-- C3: from a state in which the account ids are unique (the primary key of `users`)
and every balance is non-negative, every sequence of `purchaseUpgrade`,
`purchaseBusiness`, `transfer` and `prestige` calls, each one accepted or rejected, ends
in a state in which every balance is non-negative. The costs of the catalog play no
part: the statement holds for every catalog. -/
theorem balances_stay_nonnegative (db : Db) (ops : List Op) (hkey : UniqueIds db)
    (h0 : NonNegBalances db) : NonNegBalances (runOps db ops) :=
  (accountsOk_runOps ops db ⟨hkey, h0⟩).2

theorem balances_stay_nonnegative_witness :
    UniqueIds sampleDb ∧ NonNegBalances sampleDb ∧
    NonNegBalances (runOps sampleDb
      [.transfer 1 2 30, .purchaseUpgrade 1 1, .purchaseBusiness 2 1 0, .transfer 2 1 500,
       .prestige 1]) :=
  have hkey : UniqueIds sampleDb := by
    simp [UniqueIds, sampleDb, alice, bob]
  have h0 : NonNegBalances sampleDb := by
    intro u hu
    simp only [sampleDb, List.mem_cons, List.mem_singleton, List.not_mem_nil, or_false] at hu
    rcases hu with rfl | rfl <;> simp [alice, bob]
  ⟨hkey, h0, balances_stay_nonnegative sampleDb _ hkey h0⟩

/-! ## Binary64 rounding -/

theorem roundHalfEven_bounds (x : ℚ) :
    x - 1 / 2 ≤ (roundHalfEven x : ℚ) ∧ (roundHalfEven x : ℚ) ≤ x + 1 / 2 := by
  have h1 := Int.floor_le x
  have h2 := Int.lt_floor_add_one x
  unfold roundHalfEven
  split_ifs <;> push_cast <;> constructor <;> linarith

theorem roundHalfEven_intCast (n : ℤ) : roundHalfEven (n : ℚ) = n := by
  unfold roundHalfEven
  simp

theorem roundHalfEven_mono {x y : ℚ} (h : x ≤ y) : roundHalfEven x ≤ roundHalfEven y := by
  by_contra hlt
  push_neg at hlt
  have h1 : ((roundHalfEven y : ℤ) : ℚ) + 1 ≤ (roundHalfEven x : ℚ) := by
    exact_mod_cast Int.add_one_le_iff.mpr hlt
  have hx := (roundHalfEven_bounds x).2
  have hy := (roundHalfEven_bounds y).1
  have hxy : x = y := by linarith
  rw [hxy] at hlt
  exact lt_irrefl _ hlt

theorem log_of_binade (r : ℚ) (e : ℤ) (h1 : (2 : ℚ) ^ e ≤ r) (h2 : r < (2 : ℚ) ^ (e + 1)) :
    Int.log 2 r = e := by
  have hr : 0 < r := lt_of_lt_of_le (by positivity) h1
  have a : e ≤ Int.log 2 r := (Int.zpow_le_iff_le_log (by norm_num) hr).mp (by exact_mod_cast h1)
  have b : Int.log 2 r < e + 1 :=
    (Int.lt_zpow_iff_log_lt (by norm_num) hr).mp (by exact_mod_cast h2)
  omega

theorem toDouble_of_binade (x : ℚ) (e : ℤ) (h1 : (2 : ℚ) ^ e ≤ |x|)
    (h2 : |x| < (2 : ℚ) ^ (e + 1)) :
    toDouble x = (roundHalfEven (x / 2 ^ (e - 52)) : ℚ) * 2 ^ (e - 52) := by
  have hx : x ≠ 0 := by
    intro h
    rw [h, abs_zero] at h1
    exact absurd h1 (not_le.mpr (by positivity))
  rw [toDouble, if_neg hx, log_of_binade |x| e h1 h2]

theorem binade_of_pos (x : ℚ) (hx : 0 < x) :
    (2 : ℚ) ^ Int.log 2 x ≤ x ∧ x < (2 : ℚ) ^ (Int.log 2 x + 1) := by
  have a := @Int.zpow_log_le_self ℚ _ _ 2 x (by norm_num) hx
  have b := @Int.lt_zpow_succ_log_self ℚ _ _ 2 (by norm_num) x
  exact ⟨by exact_mod_cast a, by exact_mod_cast b⟩

theorem toDouble_pos_bounds (x : ℚ) (hx : 0 < x) :
    (2 : ℚ) ^ Int.log 2 x ≤ toDouble x ∧ toDouble x ≤ (2 : ℚ) ^ (Int.log 2 x + 1) := by
  obtain ⟨hlo, hhi⟩ := binade_of_pos x hx
  have habs : |x| = x := abs_of_pos hx
  rw [toDouble, if_neg (ne_of_gt hx), habs]
  have hu : (0 : ℚ) < 2 ^ (Int.log 2 x - 52) := by positivity
  have e1 : (2 : ℚ) ^ Int.log 2 x = ((2 ^ 52 : ℤ) : ℚ) * 2 ^ (Int.log 2 x - 52) := by
    have : Int.log 2 x = 52 + (Int.log 2 x - 52) := by ring
    conv_lhs => rw [this, zpow_add₀ (by norm_num : (2 : ℚ) ≠ 0)]
    norm_num
  have e2 : (2 : ℚ) ^ (Int.log 2 x + 1) = ((2 ^ 53 : ℤ) : ℚ) * 2 ^ (Int.log 2 x - 52) := by
    have : Int.log 2 x + 1 = 53 + (Int.log 2 x - 52) := by ring
    conv_lhs => rw [this, zpow_add₀ (by norm_num : (2 : ℚ) ≠ 0)]
    norm_num
  have q1 : ((2 ^ 52 : ℤ) : ℚ) ≤ x / 2 ^ (Int.log 2 x - 52) := by
    rw [le_div_iff₀ hu, ← e1]
    exact hlo
  have q2 : x / 2 ^ (Int.log 2 x - 52) ≤ ((2 ^ 53 : ℤ) : ℚ) := by
    rw [div_le_iff₀ hu, ← e2]
    exact le_of_lt hhi
  have r1 := roundHalfEven_mono q1
  have r2 := roundHalfEven_mono q2
  rw [roundHalfEven_intCast] at r1 r2
  have c1 : ((2 ^ 52 : ℤ) : ℚ) ≤ (roundHalfEven (x / 2 ^ (Int.log 2 x - 52)) : ℚ) := by
    exact_mod_cast r1
  have c2 : (roundHalfEven (x / 2 ^ (Int.log 2 x - 52)) : ℚ) ≤ ((2 ^ 53 : ℤ) : ℚ) := by
    exact_mod_cast r2
  rw [e1, e2]
  exact ⟨mul_le_mul_of_nonneg_right c1 (le_of_lt hu), mul_le_mul_of_nonneg_right c2 (le_of_lt hu)⟩

theorem toDouble_nonneg (x : ℚ) (hx : 0 ≤ x) : 0 ≤ toDouble x := by
  rcases eq_or_lt_of_le hx with h | h
  · rw [← h, toDouble, if_pos rfl]
  · exact le_trans (by positivity) (toDouble_pos_bounds x h).1

theorem toDouble_mono_of_nonneg {x y : ℚ} (hx : 0 ≤ x) (h : x ≤ y) :
    toDouble x ≤ toDouble y := by
  rcases eq_or_lt_of_le hx with h0 | h0
  · rw [← h0, toDouble, if_pos rfl]
    exact toDouble_nonneg y (le_trans hx h)
  · have hy : 0 < y := lt_of_lt_of_le h0 h
    have hlog : Int.log 2 x ≤ Int.log 2 y := Int.log_mono_right h0 h
    rcases eq_or_lt_of_le hlog with he | he
    · rw [toDouble, if_neg (ne_of_gt h0), toDouble, if_neg (ne_of_gt hy), abs_of_pos h0,
        abs_of_pos hy, he]
      have hu : (0 : ℚ) < 2 ^ (Int.log 2 y - 52) := by positivity
      have hq : x / 2 ^ (Int.log 2 y - 52) ≤ y / 2 ^ (Int.log 2 y - 52) :=
        div_le_div_of_nonneg_right h (le_of_lt hu)
      have hr : (roundHalfEven (x / 2 ^ (Int.log 2 y - 52)) : ℚ)
          ≤ (roundHalfEven (y / 2 ^ (Int.log 2 y - 52)) : ℚ) := by
        exact_mod_cast roundHalfEven_mono hq
      exact mul_le_mul_of_nonneg_right hr (le_of_lt hu)
    · have a := (toDouble_pos_bounds x h0).2
      have b := (toDouble_pos_bounds y hy).1
      have c : (2 : ℚ) ^ (Int.log 2 x + 1) ≤ 2 ^ Int.log 2 y :=
        zpow_le_zpow_right₀ (by norm_num) (by omega)
      linarith

theorem toDouble_one : toDouble 1 = 1 := by
  rw [toDouble_of_binade 1 0 (by norm_num) (by norm_num)]
  have h : (1 : ℚ) / 2 ^ ((0 : ℤ) - 52) = ((2 ^ 52 : ℤ) : ℚ) := by norm_num
  rw [h, roundHalfEven_intCast]
  norm_num

theorem costProduct_mono (base mult : ℚ) (L : ℕ) (hb : 0 ≤ base) (hm : 1 ≤ mult) :
    costProduct base mult L ≤ costProduct base mult (L + 1) := by
  have hm1 : 1 ≤ toDouble mult := by
    have := toDouble_mono_of_nonneg (by norm_num : (0 : ℚ) ≤ 1) hm
    rwa [toDouble_one] at this
  have hb0 := toDouble_nonneg base hb
  have hp0 : (0 : ℚ) ≤ toDouble mult ^ L := pow_nonneg (by linarith) L
  have hp : toDouble mult ^ L ≤ toDouble mult ^ (L + 1) := by
    rw [pow_succ]
    nlinarith
  have hj0 : 0 ≤ jsPow (toDouble mult) L := toDouble_nonneg _ hp0
  have hj : jsPow (toDouble mult) L ≤ jsPow (toDouble mult) (L + 1) :=
    toDouble_mono_of_nonneg hp0 hp
  unfold costProduct jsMul
  exact toDouble_mono_of_nonneg (mul_nonneg hb0 hj0) (mul_le_mul_of_nonneg_left hj hb0)

theorem toDouble_of_pos_binade (x : ℚ) (e : ℤ) (h1 : (2 : ℚ) ^ e ≤ x)
    (h2 : x < (2 : ℚ) ^ (e + 1)) :
    toDouble x = (roundHalfEven (x / 2 ^ (e - 52)) : ℚ) * 2 ^ (e - 52) := by
  have hx : 0 < x := lt_of_lt_of_le (by positivity) h1
  have ha : |x| = x := abs_of_pos hx
  exact toDouble_of_binade x e (by rw [ha]; exact h1) (by rw [ha]; exact h2)

theorem roundHalfEven_of_lt (x : ℚ) (n : ℤ) (h1 : (n : ℚ) ≤ x) (h2 : x < (n : ℚ) + 1 / 2) :
    roundHalfEven x = n := by
  have hf : ⌊x⌋ = n := by
    rw [Int.floor_eq_iff]
    constructor <;> linarith
  unfold roundHalfEven
  rw [hf, if_pos (by linarith)]

theorem roundHalfEven_of_gt (x : ℚ) (n : ℤ) (h1 : (n : ℚ) + 1 / 2 < x) (h2 : x < (n : ℚ) + 1) :
    roundHalfEven x = n + 1 := by
  have hf : ⌊x⌋ = n := by
    rw [Int.floor_eq_iff]
    constructor <;> linarith
  unfold roundHalfEven
  rw [hf, if_neg (by linarith), if_pos (by linarith)]

theorem toDouble_15 : toDouble 15 = 15 := by
  rw [toDouble_of_pos_binade 15 3 (by norm_num) (by norm_num),
    roundHalfEven_of_lt _ 8444249301319680 (by norm_num) (by norm_num)]
  norm_num

theorem toDouble_50 : toDouble 50 = 50 := by
  rw [toDouble_of_pos_binade 50 5 (by norm_num) (by norm_num),
    roundHalfEven_of_lt _ 7036874417766400 (by norm_num) (by norm_num)]
  norm_num

/-- The JavaScript number `1.15`. -/
theorem toDouble_23_20 : toDouble (23 / 20) = 2589569785738035 / 2251799813685248 := by
  rw [toDouble_of_pos_binade (23 / 20) 0 (by norm_num) (by norm_num),
    roundHalfEven_of_lt _ 5179139571476070 (by norm_num) (by norm_num)]
  norm_num

theorem jsPow_23_20_one :
    jsPow (toDouble (23 / 20)) 1 = 2589569785738035 / 2251799813685248 := by
  rw [jsPow, toDouble_23_20, pow_one,
    toDouble_of_pos_binade _ 0 (by norm_num) (by norm_num),
    roundHalfEven_of_lt _ 5179139571476070 (by norm_num) (by norm_num)]
  norm_num

/-- In binary64 `15 * 1.15` is `17.25`. -/
theorem costProduct_15 : costProduct 15 (23 / 20) 1 = 69 / 4 := by
  rw [costProduct, jsMul, toDouble_15, jsPow_23_20_one,
    toDouble_of_pos_binade _ 4 (by norm_num) (by norm_num),
    roundHalfEven_of_gt _ 4855443348258815 (by norm_num) (by norm_num)]
  norm_num

/-- In binary64 `50 * 1.15` is `57.49999999999999`, below the exact `57.5`. -/
theorem costProduct_50 :
    costProduct 50 (23 / 20) 1 = 8092405580431359 / 140737488355328 := by
  rw [costProduct, jsMul, toDouble_50, jsPow_23_20_one,
    toDouble_of_pos_binade _ 5 (by norm_num) (by norm_num),
    roundHalfEven_of_lt _ 8092405580431359 (by norm_num) (by norm_num)]
  norm_num

/-! ## Purchases -/

theorem jsRound_isRoundHalfUp (x : ℚ) : IsRoundHalfUp x (jsRound x) := by
  unfold IsRoundHalfUp jsRound
  have h1 := Int.floor_le (x + 1 / 2)
  have h2 := Int.lt_floor_add_one (x + 1 / 2)
  constructor <;> linarith

theorem isRoundHalfUp_unique (x : ℚ) (n m : ℤ) (hn : IsRoundHalfUp x n) (hm : IsRoundHalfUp x m) :
    n = m := by
  obtain ⟨h1, h2⟩ := hn
  obtain ⟨h3, h4⟩ := hm
  have a : (n : ℚ) < m + 1 := by linarith
  have b : (m : ℚ) < n + 1 := by linarith
  have a' : n < m + 1 := by exact_mod_cast a
  have b' : m < n + 1 := by exact_mod_cast b
  omega

theorem selectUser_congr {db db' : Db} (h : db'.users = db.users) (k : ℕ) :
    selectUser db' k = selectUser db k := by
  unfold selectUser
  rw [h]

theorem coinsOf_congr {db db' : Db} (h : db'.users = db.users) (k : ℕ) :
    coinsOf db' k = coinsOf db k := by
  unfold coinsOf
  rw [selectUser_congr h]

theorem coinsOf_insertTransaction (db : Db) (t : Transaction) (k : ℕ) :
    coinsOf (insertTransaction db t) k = coinsOf db k := rfl

theorem coinsOf_updateUser_keep (db : Db) (userId k : ℕ) (f : User → User)
    (hid : ∀ u, (f u).id = u.id) (hc : ∀ u, (f u).coins = u.coins) :
    coinsOf (updateUser db userId f) k = coinsOf db k := by
  unfold coinsOf
  rw [selectUser_updateUser db userId k f hid]
  cases selectUser db k with
  | nil => rfl
  | cons u us =>
    by_cases h : u.id = userId <;> simp [h, hc]

theorem coinsOf_debit (db : Db) (userId : ℕ) (cost : ℚ) :
    coinsOf (updateUser db userId (debitCoins cost)) userId
      = (coinsOf db userId).map (fun c => c - cost) := by
  unfold coinsOf
  rw [selectUser_updateUser_self db userId (debitCoins cost) (fun _ => rfl)]
  cases selectUser db userId <;> simp [debitCoins]

theorem coinsOf_applyUpgradeEffect (db : Db) (userId k : ℕ) (upgrade : Upgrade) :
    coinsOf (applyUpgradeEffect db userId upgrade) k = coinsOf db k := by
  unfold applyUpgradeEffect
  split
  · exact coinsOf_updateUser_keep db userId k _ (fun _ => rfl) (fun _ => rfl)
  · exact coinsOf_updateUser_keep db userId k _ (fun _ => rfl) (fun _ => rfl)
  · rfl

theorem coinsOf_commitUpgradePurchase (db : Db) (userId upgradeId : ℕ) (upgrade : Upgrade)
    (rows : List UserUpgrade) (cost : ℤ) :
    coinsOf (commitUpgradePurchase db userId upgradeId upgrade rows cost) userId
      = (coinsOf db userId).map (fun c : ℚ => c - (cost : ℚ)) := by
  unfold commitUpgradePurchase
  simp only
  rw [coinsOf_insertTransaction, coinsOf_applyUpgradeEffect,
    coinsOf_congr (raiseUpgrade_users _ userId upgradeId rows), coinsOf_debit]

theorem coinsOf_commitBusinessPurchase (db : Db) (userId businessId : ℕ)
    (rows : List UserBusiness) (d : ℤ) (cost : ℤ) :
    coinsOf (commitBusinessPurchase db userId businessId rows d cost) userId
      = (coinsOf db userId).map (fun c : ℚ => c - (cost : ℚ)) := by
  unfold commitBusinessPurchase
  simp only
  rw [coinsOf_insertTransaction, coinsOf_congr (raiseBusiness_users _ userId businessId rows d), coinsOf_debit]

theorem purchaseUpgrade_ok_inv (db : Db) (userId upgradeId : ℕ) (r : PurchaseResponse)
    (h : (purchaseUpgrade db userId upgradeId).result = .ok r) :
    ∃ upgrade gs user rest,
      db.upgrades.filter (fun g => decide (g.id = upgradeId)) = upgrade :: gs ∧
      maxLevelReached upgrade.max_level (upgradeLevel db userId upgradeId) = false ∧
      selectUser db userId = user :: rest ∧
      ¬ user.coins < upgradeCost upgrade (upgradeLevel db userId upgradeId) ∧
      r = { newLevel := upgradeLevel db userId upgradeId + 1,
            cost := upgradeCost upgrade (upgradeLevel db userId upgradeId),
            income := none,
            remainingCoins :=
              user.coins - upgradeCost upgrade (upgradeLevel db userId upgradeId) } ∧
      (purchaseUpgrade db userId upgradeId).db =
        commitUpgradePurchase db userId upgradeId upgrade
          (selectUserUpgrades db userId upgradeId)
          (upgradeCost upgrade (upgradeLevel db userId upgradeId)) := by
  unfold purchaseUpgrade at h ⊢
  cases hg : db.upgrades.filter (fun g => decide (g.id = upgradeId)) with
  | nil => simp [hg] at h
  | cons upgrade gs =>
    by_cases hm : maxLevelReached upgrade.max_level (upgradeLevel db userId upgradeId) = true
    · simp [hg, hm] at h
    cases hs : selectUser db userId with
    | nil => simp [hg, hm, hs] at h
    | cons user rest =>
      by_cases hc : user.coins < upgradeCost upgrade (upgradeLevel db userId upgradeId)
      · simp [hg, hm, hs, hc] at h
      · simp [hg, hm, hs, hc] at h
        exact ⟨upgrade, gs, user, rest, rfl, by simpa using hm, rfl, hc, h.symm,
          by simp [hm, hc]⟩

theorem purchaseBusiness_ok_inv (db : Db) (userId businessId : ℕ) (d : ℤ)
    (r : PurchaseResponse)
    (h : (purchaseBusiness db userId businessId d).result = .ok r) :
    ∃ business bs user rest,
      db.businesses.filter (fun b => decide (b.id = businessId)) = business :: bs ∧
      selectUser db userId = user :: rest ∧
      ¬ user.level < business.unlock_level ∧
      ¬ user.coins < businessCost business (businessLevel db userId businessId) ∧
      r = { newLevel := businessLevel db userId businessId + 1,
            cost := businessCost business (businessLevel db userId businessId),
            income := some (business.base_income *
              (businessLevel db userId businessId + 1 : ℕ)),
            remainingCoins :=
              user.coins - businessCost business (businessLevel db userId businessId) } ∧
      (purchaseBusiness db userId businessId d).db =
        commitBusinessPurchase db userId businessId
          (selectUserBusinesses db userId businessId) d
          (businessCost business (businessLevel db userId businessId)) := by
  unfold purchaseBusiness at h ⊢
  cases hg : db.businesses.filter (fun b => decide (b.id = businessId)) with
  | nil => simp [hg] at h
  | cons business bs =>
    cases hs : selectUser db userId with
    | nil => simp [hg, hs] at h
    | cons user rest =>
      by_cases hl : user.level < business.unlock_level
      · simp [hg, hs, hl] at h
      by_cases hc : user.coins < businessCost business (businessLevel db userId businessId)
      · simp [hg, hs, hl, hc] at h
      · simp only [hg, hs, hl, hc, if_false, Except.ok.injEq] at h
        exact ⟨business, bs, user, rest, rfl, rfl, hl, hc, h.symm, by simp [hl, hc]⟩

theorem jsRound_sample : jsRound (69 / 4) = 17 := by
  rw [jsRound, Int.floor_eq_iff]
  norm_num

theorem sqlRound2_sample : sqlRound2 (69 / 4) = 69 / 4 := by
  have h : ⌊(69 / 4 : ℚ) * 100 + 1 / 2⌋ = 1725 := by
    rw [Int.floor_eq_iff]
    norm_num
  rw [sqlRound2, if_pos (by norm_num), h]
  norm_num

theorem purchaseUpgrade_owned :
    (purchaseUpgrade ownedDb 1 1).result
      = .ok { newLevel := 2, cost := 17, income := none, remainingCoins := 83 } := by
  simp [purchaseUpgrade, ownedDb, sampleDb, cursor, alice, bob, selectUser, upgradeLevel,
    selectUserUpgrades, maxLevelReached, upgradeCost, costProduct_15]
  norm_num [jsRound_sample]

theorem purchaseBusiness_owned :
    (purchaseBusiness ownedDb 1 1 0).result
      = .ok { newLevel := 2, cost := 17, income := some 20, remainingCoins := 83 } := by
  simp [purchaseBusiness, ownedDb, sampleDb, stand, alice, bob, selectUser, businessLevel,
    selectUserBusinesses, businessCost, costProduct_15]
  norm_num [jsRound_sample]

/-- C4, evaluated where it fails: for an upgrade and a business of base cost 15 and
multiplier 1.15 owned at level 1, the listing shows the current cost 17.25 (SQL
`ROUND(…, 2)`), and the purchase made in that state debits 17 (`Math.round`): the
balance goes from 100 to 83. -/
theorem listed_cost_differs_from_debited_cost :
    listUpgrades ownedDb 1
      = [{ upgrade := cursor, user_level := 1, current_cost := 69 / 4 }] ∧
    (purchaseUpgrade ownedDb 1 1).result
      = .ok { newLevel := 2, cost := 17, income := none, remainingCoins := 83 } ∧
    coinsOf ownedDb 1 = some 100 ∧
    coinsOf (purchaseUpgrade ownedDb 1 1).db 1 = some 83 ∧
    listBusinesses ownedDb 1
      = .ok [{ business := stand, user_level := 1, current_cost := 69 / 4,
               current_income := 10, last_collected := some 0, unlocked := true }] ∧
    (purchaseBusiness ownedDb 1 1 0).result
      = .ok { newLevel := 2, cost := 17, income := some 20, remainingCoins := 83 } ∧
    coinsOf (purchaseBusiness ownedDb 1 1 0).db 1 = some 83 := by
  have hc : coinsOf ownedDb 1 = some 100 := by
    simp [coinsOf, selectUser, ownedDb, sampleDb, alice, bob]
  have h10 : sqlRound2 10 = 10 := by
    have h : ⌊(10 : ℚ) * 100 + 1 / 2⌋ = 1000 := by
      rw [Int.floor_eq_iff]
      norm_num
    rw [sqlRound2, if_pos (by norm_num), h]
    norm_num
  refine ⟨?_, purchaseUpgrade_owned, hc, ?_, ?_, purchaseBusiness_owned, ?_⟩
  · simp [listUpgrades, upgradeRows, ownedDb, sampleDb, cursor]
    norm_num [sqlRound2_sample]
  · obtain ⟨g, gs, u, us, -, -, -, -, hr, hdb⟩ :=
      purchaseUpgrade_ok_inv ownedDb 1 1 _ purchaseUpgrade_owned
    have hcost : upgradeCost g (upgradeLevel ownedDb 1 1) = 17 := by
      have := congrArg PurchaseResponse.cost hr
      simpa using this.symm
    rw [hdb, coinsOf_commitUpgradePurchase, hc, hcost]
    norm_num
  · simp [listBusinesses, businessRows, selectUser, ownedDb, sampleDb, stand, alice, bob, h10]
    norm_num [sqlRound2_sample]
  · obtain ⟨g, gs, u, us, -, -, -, -, hr, hdb⟩ :=
      purchaseBusiness_ok_inv ownedDb 1 1 0 _ purchaseBusiness_owned
    have hcost : businessCost g (businessLevel ownedDb 1 1) = 17 := by
      have := congrArg PurchaseResponse.cost hr
      simpa using this.symm
    rw [hdb, coinsOf_commitBusinessPurchase, hc, hcost]
    norm_num

theorem jsRound_double_sample : jsRound (8092405580431359 / 140737488355328) = 57 := by
  rw [jsRound, Int.floor_eq_iff]
  norm_num

theorem purchaseUpgrade_drill :
    (purchaseUpgrade drillDb 1 2).result
      = .ok { newLevel := 2, cost := 57, income := none, remainingCoins := 43 } := by
  simp [purchaseUpgrade, drillDb, sampleDb, cursor, drill, alice, bob, selectUser, upgradeLevel,
    selectUserUpgrades, maxLevelReached, upgradeCost, costProduct_50]
  norm_num [jsRound_double_sample]

theorem purchaseBusiness_bakery :
    (purchaseBusiness drillDb 1 3 0).result
      = .ok { newLevel := 2, cost := 57, income := some 20, remainingCoins := 43 } := by
  simp [purchaseBusiness, drillDb, sampleDb, stand, bakery, alice, bob, selectUser,
    businessLevel, selectUserBusinesses, businessCost, costProduct_50]
  norm_num [jsRound_double_sample]

/-- C5, evaluated where it fails: the handlers round the product that JavaScript computes
in binary64, not the exact one. An upgrade and a business of base cost 50 and multiplier
1.15 are owned at level 1 by an account with 100 coins. The exact product `50 * 1.15 ^ 1`
is `57.5`, whose rounding half-up is 58 and not 57; the binary64 product is
`57.49999999999999`, and the purchases debit 57: the balance goes from 100 to 43. The
listing shows the current cost `57.5` for the same upgrade. -/
theorem purchase_debits_rounding_of_binary64_product :
    upgradeLevel drillDb 1 2 = 1 ∧ businessLevel drillDb 1 3 = 1 ∧
    drill.base_cost * drill.cost_multiplier ^ 1 = 115 / 2 ∧
    bakery.base_cost * bakery.cost_multiplier ^ 1 = 115 / 2 ∧
    IsRoundHalfUp (115 / 2) 58 ∧ ¬ IsRoundHalfUp (115 / 2) 57 ∧
    costProduct 50 (23 / 20) 1 = 8092405580431359 / 140737488355328 ∧
    (purchaseUpgrade drillDb 1 2).result
      = .ok { newLevel := 2, cost := 57, income := none, remainingCoins := 43 } ∧
    (purchaseBusiness drillDb 1 3 0).result
      = .ok { newLevel := 2, cost := 57, income := some 20, remainingCoins := 43 } ∧
    coinsOf drillDb 1 = some 100 ∧
    coinsOf (purchaseUpgrade drillDb 1 2).db 1 = some 43 ∧
    coinsOf (purchaseBusiness drillDb 1 3 0).db 1 = some 43 ∧
    listUpgrades drillDb 1
      = [{ upgrade := cursor, user_level := 0, current_cost := 15 },
         { upgrade := drill, user_level := 1, current_cost := 115 / 2 }] := by
  have hc : coinsOf drillDb 1 = some 100 := by
    simp [coinsOf, selectUser, drillDb, sampleDb, alice, bob]
  have h15 : sqlRound2 15 = 15 := by
    have h : ⌊(15 : ℚ) * 100 + 1 / 2⌋ = 1500 := by
      rw [Int.floor_eq_iff]
      norm_num
    rw [sqlRound2, if_pos (by norm_num), h]
    norm_num
  have h57 : sqlRound2 (115 / 2) = 115 / 2 := by
    have h : ⌊(115 / 2 : ℚ) * 100 + 1 / 2⌋ = 5750 := by
      rw [Int.floor_eq_iff]
      norm_num
    rw [sqlRound2, if_pos (by norm_num), h]
    norm_num
  refine ⟨?_, ?_, ?_, ?_, ?_, ?_, costProduct_50, purchaseUpgrade_drill,
    purchaseBusiness_bakery, hc, ?_, ?_, ?_⟩
  · simp [upgradeLevel, selectUserUpgrades, drillDb]
  · simp [businessLevel, selectUserBusinesses, drillDb]
  · norm_num [drill]
  · norm_num [bakery]
  · unfold IsRoundHalfUp
    norm_num
  · unfold IsRoundHalfUp
    norm_num
  · obtain ⟨g, gs, u, us, -, -, -, -, hr, hdb⟩ :=
      purchaseUpgrade_ok_inv drillDb 1 2 _ purchaseUpgrade_drill
    have hcost : upgradeCost g (upgradeLevel drillDb 1 2) = 57 := by
      have := congrArg PurchaseResponse.cost hr
      simpa using this.symm
    rw [hdb, coinsOf_commitUpgradePurchase, hc, hcost]
    norm_num
  · obtain ⟨g, gs, u, us, -, -, -, -, hr, hdb⟩ :=
      purchaseBusiness_ok_inv drillDb 1 3 0 _ purchaseBusiness_bakery
    have hcost : businessCost g (businessLevel drillDb 1 3) = 57 := by
      have := congrArg PurchaseResponse.cost hr
      simpa using this.symm
    rw [hdb, coinsOf_commitBusinessPurchase, hc, hcost]
    norm_num
  · simp [listUpgrades, upgradeRows, drillDb, sampleDb, cursor, drill, h15]
    norm_num [h57]

/-- What a purchase debits, for every catalog entry and every account: the rounding
half-up to an integer of the binary64 value of `base_cost * Math.pow(cost_multiplier, L)`,
where `L` is the level owned before the purchase: the level of the owned record, `0` when
there is none, and one less than the level the purchase answers. -/
theorem purchase_debits_binary64_cost_at_owned_level (db : Db) (userId itemId : ℕ) (d : ℤ) :
    (∀ r, (purchaseUpgrade db userId itemId).result = .ok r →
      ∃ upgrade rest before L,
        db.upgrades.filter (fun g => decide (g.id = itemId)) = upgrade :: rest ∧
        (selectUserUpgrades db userId itemId = [] → L = 0) ∧
        (∀ row rows, selectUserUpgrades db userId itemId = row :: rows → L = row.level) ∧
        r.newLevel = L + 1 ∧
        IsRoundHalfUp (costProduct upgrade.base_cost upgrade.cost_multiplier L) r.cost ∧
        coinsOf db userId = some before ∧
        coinsOf (purchaseUpgrade db userId itemId).db userId = some (before - r.cost)) ∧
    (∀ r, (purchaseBusiness db userId itemId d).result = .ok r →
      ∃ business rest before L,
        db.businesses.filter (fun b => decide (b.id = itemId)) = business :: rest ∧
        (selectUserBusinesses db userId itemId = [] → L = 0) ∧
        (∀ row rows, selectUserBusinesses db userId itemId = row :: rows → L = row.level) ∧
        r.newLevel = L + 1 ∧
        IsRoundHalfUp (costProduct business.base_cost business.cost_multiplier L) r.cost ∧
        coinsOf db userId = some before ∧
        coinsOf (purchaseBusiness db userId itemId d).db userId = some (before - r.cost)) := by
  constructor
  · intro r h
    obtain ⟨g, gs, u, us, hg, -, hs, -, hr, hdb⟩ := purchaseUpgrade_ok_inv db userId itemId r h
    have hb : coinsOf db userId = some u.coins := by simp [coinsOf, hs]
    refine ⟨g, gs, u.coins, upgradeLevel db userId itemId, hg, ?_, ?_, ?_, ?_, hb, ?_⟩
    · intro h0; simp [upgradeLevel, h0]
    · intro row rows h1; simp [upgradeLevel, h1]
    · rw [hr]
    · rw [hr]; exact jsRound_isRoundHalfUp _
    · rw [hdb, coinsOf_commitUpgradePurchase, hb, hr]; rfl
  · intro r h
    obtain ⟨b, bs, u, us, hg, hs, -, -, hr, hdb⟩ :=
      purchaseBusiness_ok_inv db userId itemId d r h
    have hb : coinsOf db userId = some u.coins := by simp [coinsOf, hs]
    refine ⟨b, bs, u.coins, businessLevel db userId itemId, hg, ?_, ?_, ?_, ?_, hb, ?_⟩
    · intro h0; simp [businessLevel, h0]
    · intro row rows h1; simp [businessLevel, h1]
    · rw [hr]
    · rw [hr]; exact jsRound_isRoundHalfUp _
    · rw [hdb, coinsOf_commitBusinessPurchase, hb, hr]; rfl

theorem purchase_debits_binary64_cost_at_owned_level_witness :
    (purchaseUpgrade drillDb 1 2).result
      = .ok { newLevel := 2, cost := 57, income := none, remainingCoins := 43 } ∧
    (purchaseBusiness ownedDb 1 1 0).result
      = .ok { newLevel := 2, cost := 17, income := some 20, remainingCoins := 83 } ∧
    (∃ upgrade rest before L,
        drillDb.upgrades.filter (fun g => decide (g.id = 2)) = upgrade :: rest ∧
        (selectUserUpgrades drillDb 1 2 = [] → L = 0) ∧
        (∀ row rows, selectUserUpgrades drillDb 1 2 = row :: rows → L = row.level) ∧
        (2 : ℕ) = L + 1 ∧
        IsRoundHalfUp (costProduct upgrade.base_cost upgrade.cost_multiplier L) 57 ∧
        coinsOf drillDb 1 = some before ∧
        coinsOf (purchaseUpgrade drillDb 1 2).db 1 = some (before - (57 : ℤ))) ∧
    (∃ business rest before L,
        ownedDb.businesses.filter (fun b => decide (b.id = 1)) = business :: rest ∧
        (selectUserBusinesses ownedDb 1 1 = [] → L = 0) ∧
        (∀ row rows, selectUserBusinesses ownedDb 1 1 = row :: rows → L = row.level) ∧
        (2 : ℕ) = L + 1 ∧
        IsRoundHalfUp (costProduct business.base_cost business.cost_multiplier L) 17 ∧
        coinsOf ownedDb 1 = some before ∧
        coinsOf (purchaseBusiness ownedDb 1 1 0).db 1 = some (before - (17 : ℤ))) :=
  ⟨purchaseUpgrade_drill, purchaseBusiness_owned,
    (purchase_debits_binary64_cost_at_owned_level drillDb 1 2 0).1 _ purchaseUpgrade_drill,
    (purchase_debits_binary64_cost_at_owned_level ownedDb 1 1 0).2 _ purchaseBusiness_owned⟩

/-! ## Clicks -/

theorem addReward_zero (u : User) : addReward 0 0 u = u := by
  simp [addReward]

theorem map_addReward_zero (l : List User) : l.map (addReward 0 0) = l := by
  have : addReward 0 0 = id := funext addReward_zero
  rw [this, List.map_id]

theorem addReward_addReward (c1 c2 : ℚ) (g1 g2 : ℤ) (u : User) :
    addReward c2 g2 (addReward c1 g1 u) = addReward (c1 + c2) (g1 + g2) u := by
  simp [addReward, add_assoc]

theorem selectUser_awardAchievement (userId : ℕ) (stats : Stats) (db : Db) (a : Achievement) :
    selectUser (awardAchievement userId stats db a) userId
      = (selectUser db userId).map
          (addReward (rewardCoins [a] stats) (rewardGems [a] stats)) := by
  unfold awardAchievement
  by_cases he : achievementEarned a stats = true
  · by_cases hr : a.reward_coins > 0 ∨ a.reward_gems > 0
    · have hrw : rewarded a stats = true := by simp [rewarded, he, hr]
      simp only [he, hr, if_true]
      rw [selectUser_updateUser_self _ userId (addReward a.reward_coins a.reward_gems)
        (fun _ => rfl)]
      simp [rewardCoins, rewardGems, hrw, selectUser]
    · have hrw : rewarded a stats = false := by simp [rewarded, he, hr]
      simp only [he, hr, if_true, if_false]
      simp [rewardCoins, rewardGems, hrw, selectUser, map_addReward_zero]
  · have hrw : rewarded a stats = false := by simp [rewarded, he]
    simp only [he, if_false]
    simp [rewardCoins, rewardGems, hrw, map_addReward_zero]

theorem awardAchievement_transactions (userId : ℕ) (stats : Stats) (db : Db) (a : Achievement) :
    (awardAchievement userId stats db a).transactions = db.transactions := by
  unfold awardAchievement
  split_ifs <;> rfl

theorem selectUser_foldl_award (userId : ℕ) (stats : Stats) (as : List Achievement) :
    ∀ db : Db, selectUser (as.foldl (awardAchievement userId stats) db) userId
      = (selectUser db userId).map (addReward (rewardCoins as stats) (rewardGems as stats)) := by
  induction as with
  | nil =>
    intro db
    simp [rewardCoins, rewardGems, map_addReward_zero]
  | cons a as ih =>
    intro db
    rw [List.foldl_cons, ih, selectUser_awardAchievement, List.map_map]
    congr 1
    funext u
    simp only [Function.comp, addReward_addReward]
    congr 1
    · by_cases h : rewarded a stats = true <;> simp [rewardCoins, h]
    · by_cases h : rewarded a stats = true <;> simp [rewardGems, h]

theorem foldl_award_transactions (userId : ℕ) (stats : Stats) (as : List Achievement) :
    ∀ db : Db, (as.foldl (awardAchievement userId stats) db).transactions = db.transactions := by
  induction as with
  | nil => intro db; rfl
  | cons a as ih =>
    intro db
    rw [List.foldl_cons, ih, awardAchievement_transactions]

theorem jsFloorSqrt_of_nonneg (x : ℚ) (hx : 0 ≤ x) :
    ∃ k : ℕ, jsFloorSqrt x = some k ∧ (k : ℚ) ^ 2 ≤ x ∧ x < ((k : ℚ) + 1) ^ 2 := by
  refine ⟨Nat.sqrt ⌊x⌋.toNat, by simp [jsFloorSqrt, not_lt.mpr hx], ?_, ?_⟩
  · have h0 : (0 : ℤ) ≤ ⌊x⌋ := Int.floor_nonneg.mpr hx
    have h1 : (Nat.sqrt ⌊x⌋.toNat) ^ 2 ≤ ⌊x⌋.toNat := Nat.sqrt_le' _
    have h2 : ((⌊x⌋.toNat : ℤ) : ℚ) = (⌊x⌋ : ℚ) := by rw [Int.toNat_of_nonneg h0]
    have h3 : ((Nat.sqrt ⌊x⌋.toNat : ℕ) : ℚ) ^ 2 ≤ ((⌊x⌋.toNat : ℕ) : ℚ) := by exact_mod_cast h1
    have h4 : ((⌊x⌋.toNat : ℕ) : ℚ) = (⌊x⌋ : ℚ) := by exact_mod_cast h2
    calc ((Nat.sqrt ⌊x⌋.toNat : ℕ) : ℚ) ^ 2 ≤ (⌊x⌋ : ℚ) := by rw [← h4]; exact h3
      _ ≤ x := Int.floor_le x
  · have h0 : (0 : ℤ) ≤ ⌊x⌋ := Int.floor_nonneg.mpr hx
    have h1 : ⌊x⌋.toNat < (Nat.sqrt ⌊x⌋.toNat + 1) ^ 2 := Nat.lt_succ_sqrt' _
    have h2 : ((⌊x⌋.toNat : ℤ) : ℚ) = (⌊x⌋ : ℚ) := by rw [Int.toNat_of_nonneg h0]
    have h4 : ((⌊x⌋.toNat : ℕ) : ℚ) = (⌊x⌋ : ℚ) := by exact_mod_cast h2
    have h5 : ⌊x⌋.toNat + 1 ≤ (Nat.sqrt ⌊x⌋.toNat + 1) ^ 2 := h1
    have h6 : ((⌊x⌋.toNat : ℕ) : ℚ) + 1 ≤ (((Nat.sqrt ⌊x⌋.toNat : ℕ) : ℚ) + 1) ^ 2 := by
      exact_mod_cast h5
    calc x < (⌊x⌋ : ℚ) + 1 := Int.lt_floor_add_one x
      _ = ((⌊x⌋.toNat : ℕ) : ℚ) + 1 := by rw [h4]
      _ ≤ _ := h6

/-- The level stored for a non-negative experience `xp` is the `L ≥ 1` with
`100 (L - 1)² ≤ xp < 100 L²`. -/
theorem levelOfExperience_spec (xp : ℤ) (h : 0 ≤ xp) :
    ∃ L : ℕ, levelOfExperience xp = some L ∧ 1 ≤ L ∧
      100 * ((L : ℤ) - 1) ^ 2 ≤ xp ∧ xp < 100 * (L : ℤ) ^ 2 := by
  have hx : (0 : ℚ) ≤ (xp : ℚ) / 100 := by
    have : (0 : ℚ) ≤ (xp : ℚ) := by exact_mod_cast h
    positivity
  obtain ⟨k, hk, h1, h2⟩ := jsFloorSqrt_of_nonneg _ hx
  refine ⟨k + 1, by simp [levelOfExperience, hk], Nat.le_add_left 1 k, ?_, ?_⟩
  · have : (100 : ℚ) * (k : ℚ) ^ 2 ≤ (xp : ℚ) := by linarith
    have h' : ((100 * (k : ℤ) ^ 2 : ℤ) : ℚ) ≤ (xp : ℚ) := by push_cast; exact this
    have h'' : 100 * (k : ℤ) ^ 2 ≤ xp := by exact_mod_cast h'
    simpa using h''
  · have : (xp : ℚ) < 100 * ((k : ℚ) + 1) ^ 2 := by linarith
    have h' : (xp : ℚ) < ((100 * ((k : ℤ) + 1) ^ 2 : ℤ) : ℚ) := by push_cast; exact this
    have h'' : xp < 100 * ((k : ℤ) + 1) ^ 2 := by exact_mod_cast h'
    simpa using h''

theorem levelOfExperience_of_neg (xp : ℤ) (h : xp < 0) : levelOfExperience xp = none := by
  have hx : (xp : ℚ) / 100 < 0 := by
    have : (xp : ℚ) < 0 := by exact_mod_cast h
    exact div_neg_of_neg_of_pos this (by norm_num)
  simp [levelOfExperience, jsFloorSqrt, hx]

/-- A level is determined by the bracket its experience lies in. -/
theorem level_unique (xp : ℤ) (L M : ℕ) (hL : 1 ≤ L) (hM : 1 ≤ M)
    (h1 : 100 * ((L : ℤ) - 1) ^ 2 ≤ xp) (h2 : xp < 100 * (L : ℤ) ^ 2)
    (h3 : 100 * ((M : ℤ) - 1) ^ 2 ≤ xp) (h4 : xp < 100 * (M : ℤ) ^ 2) : L = M := by
  have key : ∀ A B : ℕ, 1 ≤ A → 100 * ((A : ℤ) - 1) ^ 2 ≤ xp → xp < 100 * (B : ℤ) ^ 2 →
      A ≤ B := by
    intro A B hA ha hb
    by_contra hlt
    push_neg at hlt
    have h5 : (B : ℤ) ≤ (A : ℤ) - 1 := by omega
    have h6 : (0 : ℤ) ≤ (B : ℤ) := Int.ofNat_nonneg B
    have h7 : (B : ℤ) ^ 2 ≤ ((A : ℤ) - 1) ^ 2 := by nlinarith
    linarith
  exact le_antisymm (key L M hL h1 h4) (key M L hM h3 h2)

theorem click_of_level (db : Db) (userId : ℕ) (n nowMs : ℤ) (user : User) (rest : List User)
    (L : ℕ) (hs : selectUser db userId = user :: rest)
    (hL : levelOfExperience (user.experience + n) = some L) :
    click db userId n nowMs =
      ⟨checkAchievements
          (insertTransaction
            (clickUpdate db userId (user.click_power * n) (user.experience + n) L
              (user.total_clicks + n) (user.total_earned + user.click_power * n) nowMs)
            { from_user_id := none, to_user_id := some userId,
              amount := user.click_power * n, type := .click_income })
          userId
          { clicks := user.total_clicks + n, coins := user.coins + user.click_power * n,
            level := L },
        .ok { earnedCoins := user.click_power * n
              newLevel := if L > user.level then some L else none
              totalCoins := user.coins + user.click_power * n
              experience := user.experience + n
              level := L }⟩ := by
  unfold click
  simp only [hs, hL]

theorem selectUser_click (db : Db) (userId : ℕ) (n nowMs : ℤ) (user : User) (rest : List User)
    (L : ℕ) (hs : selectUser db userId = user :: rest)
    (hL : levelOfExperience (user.experience + n) = some L) :
    (selectUser (click db userId n nowMs).db userId).head? = some
      (addReward
        (rewardCoins (pendingAchievements db userId)
          { clicks := user.total_clicks + n, coins := user.coins + user.click_power * n,
            level := L })
        (rewardGems (pendingAchievements db userId)
          { clicks := user.total_clicks + n, coins := user.coins + user.click_power * n,
            level := L })
        { user with coins := user.coins + user.click_power * n
                    experience := user.experience + n
                    level := L
                    total_clicks := user.total_clicks + n
                    total_earned := user.total_earned + user.click_power * n
                    last_active := sqlNow nowMs }) := by
  rw [click_of_level db userId n nowMs user rest L hs hL]
  simp only [checkAchievements]
  rw [selectUser_foldl_award, selectUser_insertTransaction]
  unfold clickUpdate
  rw [selectUser_updateUser_self db userId
    (clickAssign (user.click_power * n) (user.experience + n) L (user.total_clicks + n)
      (user.total_earned + user.click_power * n) nowMs) (fun _ => rfl), hs]
  rfl

/-- C6: for an account `user` and a click count `n` (with `experience + n ≥ 0`, so that
the square root is defined), the click answers `earnedCoins = click_power * n`, logs a
`click_income` of that amount, sets the experience to `experience + n` and stores the
level `L = floor(sqrt(newExperience / 100)) + 1`, that is the `L ≥ 1` with
`100 (L-1)² ≤ newExperience < 100 L²`. The stored balance is the old one plus
`click_power * n`, plus the reward coins of the achievements the same call awards. -/
theorem click_credits_and_recomputes_level (db : Db) (userId : ℕ) (n nowMs : ℤ)
    (user : User) (rest : List User) (hs : selectUser db userId = user :: rest)
    (hx : 0 ≤ user.experience + n) :
    ∃ (resp : ClickResponse) (stored : User) (L : ℕ),
      (click db userId n nowMs).result = .ok resp ∧
      (selectUser (click db userId n nowMs).db userId).head? = some stored ∧
      levelOfExperience (user.experience + n) = some L ∧
      1 ≤ L ∧ 100 * ((L : ℤ) - 1) ^ 2 ≤ user.experience + n ∧
      user.experience + n < 100 * (L : ℤ) ^ 2 ∧
      resp.earnedCoins = user.click_power * n ∧
      resp.experience = user.experience + n ∧
      resp.level = L ∧
      stored.experience = user.experience + n ∧
      stored.level = L ∧
      stored.coins = user.coins + user.click_power * n +
        rewardCoins (pendingAchievements db userId)
          { clicks := user.total_clicks + n, coins := user.coins + user.click_power * n,
            level := L } ∧
      (click db userId n nowMs).db.transactions = db.transactions ++
        [{ from_user_id := none, to_user_id := some userId,
           amount := user.click_power * n, type := .click_income }] := by
  obtain ⟨L, hL, h1, h2, h3⟩ := levelOfExperience_spec (user.experience + n) hx
  have hsel := selectUser_click db userId n nowMs user rest L hs hL
  have hclick := click_of_level db userId n nowMs user rest L hs hL
  refine ⟨{ earnedCoins := user.click_power * n
            newLevel := if L > user.level then some L else none
            totalCoins := user.coins + user.click_power * n
            experience := user.experience + n
            level := L }, _, L, ?_, hsel, hL, h1, h2, h3, rfl, rfl, rfl, rfl, rfl, rfl, ?_⟩
  · rw [hclick]
  · rw [hclick]
    simp only [checkAchievements]
    rw [foldl_award_transactions]
    rfl

theorem levelOfExperience_sample : levelOfExperience 9901 = some 10 := by
  have h1 : ¬ ((9901 : ℚ) / 100 < 0) := by norm_num
  have h2 : ⌊(9901 : ℚ) / 100⌋ = 99 := by
    rw [Int.floor_eq_iff]
    norm_num
  have h3 : Nat.sqrt 99 = 9 := (Nat.eq_sqrt.mpr ⟨by norm_num, by norm_num⟩).symm
  simp [levelOfExperience, jsFloorSqrt, h1, h2, h3]

theorem click_credits_and_recomputes_level_witness :
    selectUser veteranDb 3 = [veteran] ∧ veteran.click_power = 1 ∧
    veteran.experience = 9900 ∧
    ∃ (resp : ClickResponse) (stored : User),
      (click veteranDb 3 1 0).result = .ok resp ∧
      (selectUser (click veteranDb 3 1 0).db 3).head? = some stored ∧
      resp.earnedCoins = 1 ∧ resp.experience = 9901 ∧ resp.level = 10 ∧
      stored.experience = 9901 ∧ stored.level = 10 := by
  have hs : selectUser veteranDb 3 = [veteran] := by
    simp [selectUser, veteranDb, veteran, alice]
  obtain ⟨resp, stored, L, h1, h2, h3, -, -, -, h4, h5, h6, h7, h8, -, -⟩ :=
    click_credits_and_recomputes_level veteranDb 3 1 0 veteran [] hs
      (by simp [veteran, alice])
  have hL : L = 10 := by
    have h9 : levelOfExperience (veteran.experience + 1) = some 10 := by
      have : veteran.experience + 1 = 9901 := by simp [veteran, alice]
      rw [this]
      exact levelOfExperience_sample
    rw [h9] at h3
    exact (Option.some.inj h3).symm
  refine ⟨hs, rfl, rfl, resp, stored, h1, h2, ?_, ?_, ?_, ?_, ?_⟩
  · rw [h4]; simp [veteran, alice]
  · rw [h5]; simp [veteran, alice]
  · rw [h6, hL]
  · rw [h7]; simp [veteran, alice]
  · rw [h8, hL]

theorem levelOfExperience_eq_iff (y : ℕ) (L : ℕ) (hL : 1 ≤ L) :
    levelOfExperience (y : ℤ) = some L ↔
      100 * ((L : ℤ) - 1) ^ 2 ≤ (y : ℤ) ∧ (y : ℤ) < 100 * (L : ℤ) ^ 2 := by
  obtain ⟨M, hM, hM1, h1, h2⟩ := levelOfExperience_spec (y : ℤ) (Int.ofNat_nonneg y)
  constructor
  · intro h
    rw [hM] at h
    have : M = L := Option.some.inj h
    subst this
    exact ⟨h1, h2⟩
  · rintro ⟨h3, h4⟩
    rw [hM, level_unique (y : ℤ) M L hM1 hL h1 h2 h3 h4]

/-- C7: for every non-negative integer experience `xp` the level
`L = floor(sqrt(xp / 100)) + 1` is defined, at least 1, and satisfies
`100 (L-1)² ≤ xp < 100 L²`; the bounds `(L-1)² * 100` and `L² * 100` the client computes
for its progress bar bracket `xp`; the experience values of level `L` are exactly those
of the interval `[100 (L-1)², 100 L²)`, which has `100 (L² - (L-1)²)` elements. -/
theorem level_brackets_experience (xp : ℕ) :
    ∃ L : ℕ, levelOfExperience (xp : ℤ) = some L ∧ 1 ≤ L ∧
      100 * (L - 1) ^ 2 ≤ xp ∧ xp < 100 * L ^ 2 ∧
      expForCurrentLevel L ≤ (xp : ℤ) ∧ (xp : ℤ) < expForNextLevel L ∧
      (∀ y : ℕ, levelOfExperience (y : ℤ) = some L ↔
        y ∈ Finset.Ico (100 * (L - 1) ^ 2) (100 * L ^ 2)) ∧
      (Finset.Ico (100 * (L - 1) ^ 2) (100 * L ^ 2)).card = 100 * (L ^ 2 - (L - 1) ^ 2) := by
  obtain ⟨L, hL, hL1, h1, h2⟩ := levelOfExperience_spec (xp : ℤ) (Int.ofNat_nonneg xp)
  have hcast : ((L - 1 : ℕ) : ℤ) = (L : ℤ) - 1 := by
    rw [Nat.cast_sub hL1]
    simp
  have hL0 : L ≠ 0 := by omega
  have nat_bounds : ∀ y : ℕ,
      (100 * ((L : ℤ) - 1) ^ 2 ≤ (y : ℤ) ∧ (y : ℤ) < 100 * (L : ℤ) ^ 2) ↔
      (100 * (L - 1) ^ 2 ≤ y ∧ y < 100 * L ^ 2) := by
    intro y
    rw [← hcast]
    constructor
    · rintro ⟨a, b⟩
      exact ⟨by exact_mod_cast a, by exact_mod_cast b⟩
    · rintro ⟨a, b⟩
      exact ⟨by exact_mod_cast a, by exact_mod_cast b⟩
  have hb := (nat_bounds xp).mp ⟨h1, h2⟩
  refine ⟨L, hL, hL1, hb.1, hb.2, ?_, ?_, ?_, ?_⟩
  · simp only [expForCurrentLevel, hL0, if_false]
    linarith
  · simp only [expForNextLevel, hL0, if_false]
    linarith
  · intro y
    rw [levelOfExperience_eq_iff y L hL1, nat_bounds y, Finset.mem_Ico]
  · rw [Nat.card_Ico, Nat.mul_sub]

/-! ## Idle settlement -/

theorem collectAuto_of_pos (db : Db) (userId : ℕ) (nowMs : ℤ) (user : User) (rest : List User)
    (hs : selectUser db userId = user :: rest) (hr : 0 < user.auto_income) :
    collectAuto db userId nowMs =
      ⟨if autoEarned user.auto_income nowMs user.last_active > 0 then
          insertTransaction
            (updateUser db userId
              (settleAssign (autoEarned user.auto_income nowMs user.last_active) nowMs))
            { from_user_id := none, to_user_id := some userId,
              amount := autoEarned user.auto_income nowMs user.last_active,
              type := .business_income }
        else db,
        .ok { earned := autoEarned user.auto_income nowMs user.last_active
              hoursOffline := some ⌊(cappedTime nowMs user.last_active : ℚ) / 3600⌋ }⟩ := by
  unfold collectAuto
  simp only [hs, not_le.mpr hr, if_false]

theorem collectAuto_of_nonpos (db : Db) (userId : ℕ) (nowMs : ℤ) (user : User)
    (rest : List User) (hs : selectUser db userId = user :: rest)
    (hr : user.auto_income ≤ 0) :
    collectAuto db userId nowMs = ⟨db, .ok { earned := 0, hoursOffline := none }⟩ := by
  unfold collectAuto
  simp only [hs, hr, if_true]

theorem timeDiff_eq (nowMs lastActive : ℤ) :
    timeDiff nowMs lastActive = (nowMs - lastActive * 1000) / 1000 := by
  unfold timeDiff
  exact Rat.floor_intCast_div_natCast (nowMs - lastActive * 1000) 1000

theorem cappedTime_le (nowMs lastActive : ℤ) : cappedTime nowMs lastActive ≤ 86400 := by
  unfold cappedTime
  exact min_le_right _ _

theorem cappedTime_of_day (nowMs lastActive : ℤ) (h : 86400000 ≤ nowMs - lastActive * 1000) :
    cappedTime nowMs lastActive = 86400 := by
  unfold cappedTime
  rw [timeDiff_eq]
  have : 86400 ≤ (nowMs - lastActive * 1000) / 1000 := by omega
  simpa using this

theorem autoEarned_le (r : ℚ) (hr : 0 < r) (nowMs lastActive : ℤ) :
    autoEarned r nowMs lastActive ≤ ⌊24 * r⌋ := by
  unfold autoEarned
  apply Int.floor_le_floor
  have h : (cappedTime nowMs lastActive : ℚ) ≤ 86400 := by
    exact_mod_cast cappedTime_le nowMs lastActive
  have : (cappedTime nowMs lastActive : ℚ) / 3600 ≤ 24 := by linarith
  nlinarith

theorem autoEarned_of_day (r : ℚ) (nowMs lastActive : ℤ)
    (h : 86400000 ≤ nowMs - lastActive * 1000) :
    autoEarned r nowMs lastActive = ⌊24 * r⌋ := by
  unfold autoEarned
  rw [cappedTime_of_day nowMs lastActive h]
  congr 1
  push_cast
  ring

theorem coinsOf_collectAuto (db : Db) (userId : ℕ) (nowMs : ℤ) (user : User) (rest : List User)
    (hs : selectUser db userId = user :: rest) (hr : 0 < user.auto_income) :
    coinsOf (collectAuto db userId nowMs).db userId
      = some (user.coins + max (autoEarned user.auto_income nowMs user.last_active) 0) := by
  rw [collectAuto_of_pos db userId nowMs user rest hs hr]
  by_cases he : autoEarned user.auto_income nowMs user.last_active > 0
  · simp only [he, if_true]
    rw [coinsOf_insertTransaction]
    unfold coinsOf
    rw [selectUser_updateUser_self db userId
      (settleAssign (autoEarned user.auto_income nowMs user.last_active) nowMs)
      (fun _ => rfl), hs]
    simp [settleAssign, max_eq_left (le_of_lt he)]
  · simp only [he, if_false]
    simp [coinsOf, hs, max_eq_right (not_lt.mp he)]

/-- C8: for an account with auto income `r > 0` the settlement answers an `earned` of at
most `floor(24 r)` whatever time has elapsed, and credits it when it is positive; when
at least 24 hours have elapsed since `last_active` it answers and credits exactly
`floor(24 r)`. -/
theorem idle_income_capped_at_one_day (db : Db) (userId : ℕ) (nowMs : ℤ) (user : User)
    (rest : List User) (hs : selectUser db userId = user :: rest)
    (hr : 0 < user.auto_income) :
    ∃ resp, (collectAuto db userId nowMs).result = .ok resp ∧
      resp.earned ≤ ⌊24 * user.auto_income⌋ ∧
      coinsOf (collectAuto db userId nowMs).db userId
        = some (user.coins + max resp.earned 0) ∧
      (86400000 ≤ nowMs - user.last_active * 1000 →
        resp.earned = ⌊24 * user.auto_income⌋ ∧
        coinsOf (collectAuto db userId nowMs).db userId
          = some (user.coins + ⌊24 * user.auto_income⌋)) := by
  refine ⟨{ earned := autoEarned user.auto_income nowMs user.last_active
            hoursOffline := some ⌊(cappedTime nowMs user.last_active : ℚ) / 3600⌋ },
    ?_, autoEarned_le _ hr _ _, coinsOf_collectAuto db userId nowMs user rest hs hr, ?_⟩
  · rw [collectAuto_of_pos db userId nowMs user rest hs hr]
  · intro hday
    have he := autoEarned_of_day user.auto_income nowMs user.last_active hday
    refine ⟨he, ?_⟩
    rw [coinsOf_collectAuto db userId nowMs user rest hs hr, he]
    have h0 : (0 : ℤ) ≤ ⌊24 * user.auto_income⌋ := Int.floor_nonneg.mpr (by linarith)
    rw [max_eq_left h0]

theorem idle_income_capped_at_one_day_witness :
    selectUser idleDb 4 = [investor] ∧ 0 < investor.auto_income ∧
    (86400000 : ℤ) ≤ 1000 * 3600 * 1000 - investor.last_active * 1000 ∧
    ∃ resp, (collectAuto idleDb 4 (1000 * 3600 * 1000)).result = .ok resp ∧
      resp.earned = 84 ∧
      coinsOf (collectAuto idleDb 4 (1000 * 3600 * 1000)).db 4 = some 184 := by
  have hs : selectUser idleDb 4 = [investor] := by
    simp [selectUser, idleDb, investor, alice]
  have hr : 0 < investor.auto_income := by simp [investor]
  have hd : (86400000 : ℤ) ≤ 1000 * 3600 * 1000 - investor.last_active * 1000 := by
    simp [investor, alice]
  have hf : ⌊24 * investor.auto_income⌋ = 84 := by
    rw [Int.floor_eq_iff]
    norm_num [investor]
  obtain ⟨resp, h1, -, -, h2⟩ :=
    idle_income_capped_at_one_day idleDb 4 (1000 * 3600 * 1000) investor [] hs hr
  obtain ⟨h3, h4⟩ := h2 hd
  refine ⟨hs, hr, hd, resp, h1, by rw [h3, hf], ?_⟩
  rw [h4, hf]
  norm_num [investor, alice]

theorem timeDiff_of_seconds (nowMs lastActive : ℤ) :
    timeDiff nowMs lastActive = sqlNow nowMs - lastActive := by
  rw [timeDiff_eq, sqlNow]
  omega

/-- Where `last_active` is not later than the instant of the call, the handler computes
the `earned` of the specification. -/
theorem autoEarned_eq_specEarned (r : ℚ) (nowMs lastActive : ℤ)
    (h : lastActive ≤ sqlNow nowMs) :
    autoEarned r nowMs lastActive = specEarned r (sqlNow nowMs) lastActive := by
  unfold autoEarned specEarned specElapsedSeconds cappedTime
  rw [timeDiff_of_seconds]
  have h0 : (0 : ℤ) ≤ min (sqlNow nowMs - lastActive) 86400 := by
    apply le_min
    · omega
    · norm_num
  rw [max_eq_right h0]
  congr 1
  norm_num
  ring

theorem aheadDb_select : selectUser aheadDb 4 = [aheadInvestor] := by
  simp [selectUser, aheadDb, idleDb, aheadInvestor, investor, alice]

theorem autoEarned_ahead : autoEarned (7 / 2) 0 2 = -1 := by
  have h1 : cappedTime 0 2 = -2 := by
    unfold cappedTime
    rw [timeDiff_eq]
    norm_num
  unfold autoEarned
  rw [h1, Int.floor_eq_iff]
  norm_num

theorem collectAuto_ahead :
    collectAuto aheadDb 4 0 = ⟨aheadDb, .ok { earned := -1, hoursOffline := some (-1) }⟩ := by
  have h3 : aheadInvestor.auto_income = 7 / 2 := rfl
  have h4 : aheadInvestor.last_active = 2 := rfl
  have hr : (0 : ℚ) < aheadInvestor.auto_income := by rw [h3]; norm_num
  have h1 : cappedTime 0 2 = -2 := by
    unfold cappedTime
    rw [timeDiff_eq]
    norm_num
  have h2 : ⌊((-2 : ℤ) : ℚ) / 3600⌋ = -1 := by
    rw [Int.floor_eq_iff]
    norm_num
  rw [collectAuto_of_pos aheadDb 4 0 aheadInvestor [] aheadDb_select hr, h3, h4,
    autoEarned_ahead, h1, h2]
  simp

/-- C9, evaluated where it fails: an account with an auto income of 3.5 per hour whose
`last_active` is two seconds later than the instant of the call is answered
`earned = -1`, where the formula of the claim, with the elapsed time clamped below at 0,
gives 0. -/
theorem idle_income_negative_when_settlement_is_later :
    (collectAuto aheadDb 4 0).result = .ok { earned := -1, hoursOffline := some (-1) } ∧
    specEarned (7 / 2) 0 2 = 0 := by
  constructor
  · rw [collectAuto_ahead]
  · unfold specEarned specElapsedSeconds
    rw [Int.floor_eq_iff]
    norm_num

/-- C10, evaluated where it fails: for the same account the second of two settlements at
the same instant answers `earned = -1`, not 0; neither call changes the database. -/
theorem second_settlement_negative_when_settlement_is_later :
    (collectAuto (collectAuto aheadDb 4 0).db 4 0).result
      = .ok { earned := -1, hoursOffline := some (-1) } ∧
    (collectAuto (collectAuto aheadDb 4 0).db 4 0).db = aheadDb := by
  have h : (collectAuto aheadDb 4 0).db = aheadDb := by rw [collectAuto_ahead]
  rw [h, collectAuto_ahead]
  exact ⟨rfl, rfl⟩

theorem autoEarned_same_instant (r : ℚ) (nowMs : ℤ) : autoEarned r nowMs (sqlNow nowMs) = 0 := by
  have h1 : cappedTime nowMs (sqlNow nowMs) = 0 := by
    unfold cappedTime
    rw [timeDiff_of_seconds]
    simp
  unfold autoEarned
  rw [h1]
  simp

theorem autoEarned_nonneg (r : ℚ) (hr : 0 < r) (nowMs lastActive : ℤ)
    (h : lastActive ≤ sqlNow nowMs) : 0 ≤ autoEarned r nowMs lastActive := by
  unfold autoEarned cappedTime
  rw [timeDiff_of_seconds]
  apply Int.floor_nonneg.mpr
  have h0 : (0 : ℤ) ≤ min (sqlNow nowMs - lastActive) (24 * 3600) := by
    apply le_min
    · omega
    · norm_num
  have h1 : (0 : ℚ) ≤ ((min (sqlNow nowMs - lastActive) (24 * 3600) : ℤ) : ℚ) := by
    exact_mod_cast h0
  positivity

/-- Two settlements at the same instant: the second one never changes the database, and
where `last_active` is not later than the instant of the calls it answers `earned = 0`. -/
theorem collectAuto_twice (db : Db) (userId : ℕ) (nowMs : ℤ) (user : User) (rest : List User)
    (hs : selectUser db userId = user :: rest) :
    (collectAuto (collectAuto db userId nowMs).db userId nowMs).db
      = (collectAuto db userId nowMs).db ∧
    (user.last_active ≤ sqlNow nowMs →
      ∃ resp, (collectAuto (collectAuto db userId nowMs).db userId nowMs).result = .ok resp ∧
        resp.earned = 0) := by
  by_cases hr : 0 < user.auto_income
  · by_cases he : autoEarned user.auto_income nowMs user.last_active > 0
    · have h1 : (collectAuto db userId nowMs).db =
          insertTransaction
            (updateUser db userId
              (settleAssign (autoEarned user.auto_income nowMs user.last_active) nowMs))
            { from_user_id := none, to_user_id := some userId,
              amount := autoEarned user.auto_income nowMs user.last_active,
              type := .business_income } := by
        rw [collectAuto_of_pos db userId nowMs user rest hs hr]
        simp only [he, if_true]
      have hs' : selectUser (collectAuto db userId nowMs).db userId =
          settleAssign (autoEarned user.auto_income nowMs user.last_active) nowMs user ::
            rest.map (settleAssign (autoEarned user.auto_income nowMs user.last_active) nowMs) := by
        rw [h1, selectUser_insertTransaction,
          selectUser_updateUser_self db userId
            (settleAssign (autoEarned user.auto_income nowMs user.last_active) nowMs)
            (fun _ => rfl), hs]
        rfl
      have hr' : 0 < (settleAssign (autoEarned user.auto_income nowMs user.last_active)
          nowMs user).auto_income := hr
      rw [collectAuto_of_pos _ userId nowMs _ _ hs' hr']
      have h0 : autoEarned
          (settleAssign (autoEarned user.auto_income nowMs user.last_active) nowMs
            user).auto_income nowMs
          (settleAssign (autoEarned user.auto_income nowMs user.last_active) nowMs
            user).last_active = 0 := autoEarned_same_instant _ nowMs
      rw [h0]
      exact ⟨by simp, fun _ => ⟨_, rfl, rfl⟩⟩
    · have h1 : (collectAuto db userId nowMs).db = db := by
        rw [collectAuto_of_pos db userId nowMs user rest hs hr]
        simp only [he, if_false]
      rw [h1]
      refine ⟨h1, fun hle =>
        ⟨{ earned := autoEarned user.auto_income nowMs user.last_active
           hoursOffline := some ⌊(cappedTime nowMs user.last_active : ℚ) / 3600⌋ }, ?_, ?_⟩⟩
      · rw [collectAuto_of_pos db userId nowMs user rest hs hr]
      · have h2 := autoEarned_nonneg user.auto_income hr nowMs user.last_active hle
        exact le_antisymm (not_lt.mp he) h2
  · have hr' : user.auto_income ≤ 0 := not_lt.mp hr
    have h1 : (collectAuto db userId nowMs).db = db := by
      rw [collectAuto_of_nonpos db userId nowMs user rest hs hr']
    rw [h1]
    refine ⟨h1, fun _ => ⟨{ earned := 0, hoursOffline := none }, ?_, rfl⟩⟩
    rw [collectAuto_of_nonpos db userId nowMs user rest hs hr']

theorem level_brackets_experience_witness :
    ∃ L : ℕ, levelOfExperience ((9901 : ℕ) : ℤ) = some L ∧ 1 ≤ L ∧
      100 * (L - 1) ^ 2 ≤ 9901 ∧ 9901 < 100 * L ^ 2 ∧
      expForCurrentLevel L ≤ ((9901 : ℕ) : ℤ) ∧ ((9901 : ℕ) : ℤ) < expForNextLevel L ∧
      (∀ y : ℕ, levelOfExperience (y : ℤ) = some L ↔
        y ∈ Finset.Ico (100 * (L - 1) ^ 2) (100 * L ^ 2)) ∧
      (Finset.Ico (100 * (L - 1) ^ 2) (100 * L ^ 2)).card = 100 * (L ^ 2 - (L - 1) ^ 2) :=
  level_brackets_experience 9901

/-! ## Collection of business income -/

theorem mem_selectOwnedBusiness (db : Db) (userId businessId : ℕ) (ub : UserBusiness)
    (b : Business) (h : (ub, b) ∈ selectOwnedBusiness db userId businessId) :
    ub ∈ db.user_businesses ∧ b ∈ db.businesses ∧ ub.user_id = userId ∧
      ub.business_id = businessId ∧ 0 < ub.level ∧ b.id = businessId := by
  unfold selectOwnedBusiness at h
  simp only [List.mem_flatten, List.mem_map, List.mem_filter, decide_eq_true_eq] at h
  obtain ⟨l, ⟨r, ⟨hr, h1, h2, h3⟩, rfl⟩, hmem⟩ := h
  simp only [List.mem_map, List.mem_filter, decide_eq_true_eq, Prod.mk.injEq] at hmem
  obtain ⟨c, ⟨hc, hid⟩, rfl, rfl⟩ := hmem
  exact ⟨hr, hc, h1, h2, h3, by rw [← hid, h2]⟩

theorem collectBusiness_of_rows (db : Db) (userId businessId : ℕ) (nowMs : ℤ)
    (ub : UserBusiness) (b : Business) (rest : List (UserBusiness × Business))
    (hs : selectOwnedBusiness db userId businessId = (ub, b) :: rest) :
    collectBusiness db userId businessId nowMs =
      if timeDiff nowMs ub.last_collected < b.income_time then
        ⟨db, .error (.NotReady (b.income_time - timeDiff nowMs ub.last_collected))⟩
      else
        ⟨commitCollect db userId businessId (b.base_income * ub.level) nowMs,
          .ok { income := b.base_income * ub.level }⟩ := by
  unfold collectBusiness
  simp only [hs]

/-- C11: for an owned business (a row of level `> 0` of the account, joined with its
catalog entry of interval `T`) and `e` the whole seconds elapsed since its last
collection, the collection fails with `NotReady(T - e)` when `e < T` and succeeds
otherwise, so it fails with `NotReady` if and only if `e < T`. -/
theorem collect_not_ready_iff (db : Db) (userId businessId : ℕ) (nowMs : ℤ)
    (ub : UserBusiness) (b : Business) (rest : List (UserBusiness × Business))
    (hs : selectOwnedBusiness db userId businessId = (ub, b) :: rest) :
    0 < ub.level ∧
    timeDiff nowMs ub.last_collected = sqlNow nowMs - ub.last_collected ∧
    (timeDiff nowMs ub.last_collected < b.income_time →
      (collectBusiness db userId businessId nowMs).result
        = .error (.NotReady (b.income_time - timeDiff nowMs ub.last_collected))) ∧
    (¬ timeDiff nowMs ub.last_collected < b.income_time →
      ∃ r, (collectBusiness db userId businessId nowMs).result = .ok r) ∧
    ((∃ x, (collectBusiness db userId businessId nowMs).result = .error (.NotReady x)) ↔
      timeDiff nowMs ub.last_collected < b.income_time) := by
  have hmem : (ub, b) ∈ selectOwnedBusiness db userId businessId := by
    rw [hs]; exact List.mem_cons_self _ _
  have hlevel := (mem_selectOwnedBusiness db userId businessId ub b hmem).2.2.2.2.1
  have hc := collectBusiness_of_rows db userId businessId nowMs ub b rest hs
  refine ⟨hlevel, timeDiff_of_seconds _ _, ?_, ?_, ?_⟩
  · intro h
    rw [hc, if_pos h]
  · intro h
    rw [hc, if_neg h]
    exact ⟨_, rfl⟩
  · constructor
    · rintro ⟨x, hx⟩
      by_contra h
      rw [hc, if_neg h] at hx
      simp at hx
    · intro h
      rw [hc, if_pos h]
      exact ⟨_, rfl⟩

theorem shopDb_rows :
    selectOwnedBusiness shopDb 1 1
      = [({ user_id := 1, business_id := 1, level := 3, last_collected := 0 }, stand)] := by
  simp [selectOwnedBusiness, shopDb, sampleDb, stand]

theorem collect_not_ready_iff_witness :
    selectOwnedBusiness shopDb 1 1
      = [({ user_id := 1, business_id := 1, level := 3, last_collected := 0 }, stand)] ∧
    stand.income_time = 3600 ∧ timeDiff 1800000 0 = 1800 ∧
    (collectBusiness shopDb 1 1 1800000).result = .error (.NotReady 1800) := by
  have ht : timeDiff 1800000 0 = 1800 := by
    rw [timeDiff_eq]
    norm_num
  have h := (collect_not_ready_iff shopDb 1 1 1800000 _ stand [] shopDb_rows).2.2.1
    (by rw [ht]; norm_num [stand])
  refine ⟨shopDb_rows, rfl, ht, ?_⟩
  rw [h, ht]
  norm_num [stand]

theorem joined_rows_markCollected (userId businessId : ℕ) (nowMs : ℤ) (bs : List Business)
    (l : List UserBusiness) :
    (((l.map (markCollected userId businessId nowMs)).filter (fun ub =>
        decide (ub.user_id = userId ∧ ub.business_id = businessId ∧ ub.level > 0))).map
      (fun ub => (bs.filter (fun b => decide (ub.business_id = b.id))).map
        (fun b => (ub, b)))).flatten
    = ((((l.filter (fun ub =>
        decide (ub.user_id = userId ∧ ub.business_id = businessId ∧ ub.level > 0))).map
      (fun ub => (bs.filter (fun b => decide (ub.business_id = b.id))).map
        (fun b => (ub, b)))).flatten).map
      (fun p => (markCollected userId businessId nowMs p.1, p.2))) := by
  induction l with
  | nil => rfl
  | cons r l ih =>
    have hu : (markCollected userId businessId nowMs r).user_id = r.user_id := by
      unfold markCollected; split_ifs <;> rfl
    have hb : (markCollected userId businessId nowMs r).business_id = r.business_id := by
      unfold markCollected; split_ifs <;> rfl
    have hl : (markCollected userId businessId nowMs r).level = r.level := by
      unfold markCollected; split_ifs <;> rfl
    by_cases hp : r.user_id = userId ∧ r.business_id = businessId ∧ r.level > 0
    · have hp' : (markCollected userId businessId nowMs r).user_id = userId ∧
          (markCollected userId businessId nowMs r).business_id = businessId ∧
          (markCollected userId businessId nowMs r).level > 0 := by
        rw [hu, hb, hl]; exact hp
      rw [List.map_cons, List.filter_cons_of_pos (by simpa using hp'),
        List.filter_cons_of_pos (by simpa using hp), List.map_cons, List.map_cons,
        List.flatten_cons, List.flatten_cons, List.map_append, ih, hb]
      congr 1
      rw [List.map_map]
      rfl
    · have hp' : ¬ ((markCollected userId businessId nowMs r).user_id = userId ∧
          (markCollected userId businessId nowMs r).business_id = businessId ∧
          (markCollected userId businessId nowMs r).level > 0) := by
        rw [hu, hb, hl]; exact hp
      rw [List.map_cons, List.filter_cons_of_neg (by simpa using hp'),
        List.filter_cons_of_neg (by simpa using hp), ih]

theorem selectOwnedBusiness_commitCollect (db : Db) (userId businessId : ℕ) (income : ℚ)
    (nowMs : ℤ) :
    selectOwnedBusiness (commitCollect db userId businessId income nowMs) userId businessId
      = (selectOwnedBusiness db userId businessId).map
          (fun p => (markCollected userId businessId nowMs p.1, p.2)) :=
  joined_rows_markCollected userId businessId nowMs db.businesses db.user_businesses

theorem coinsOf_credit (db : Db) (userId : ℕ) (amount : ℚ) :
    coinsOf (updateUser db userId (creditCoins amount)) userId
      = (coinsOf db userId).map (fun c => c + amount) := by
  unfold coinsOf
  rw [selectUser_updateUser_self db userId (creditCoins amount) (fun _ => rfl)]
  cases selectUser db userId <;> simp [creditCoins]

theorem coinsOf_commitCollect (db : Db) (userId businessId : ℕ) (income : ℚ) (nowMs : ℤ) :
    coinsOf (commitCollect db userId businessId income nowMs) userId
      = (coinsOf db userId).map (fun c => c + income) := by
  unfold commitCollect
  simp only
  rw [coinsOf_insertTransaction]
  exact (@coinsOf_congr (updateUser db userId (creditCoins income)) _ rfl userId).trans
    (coinsOf_credit db userId income)

theorem commitCollect_user_businesses (db : Db) (userId businessId : ℕ) (income : ℚ)
    (nowMs : ℤ) :
    (commitCollect db userId businessId income nowMs).user_businesses
      = db.user_businesses.map (markCollected userId businessId nowMs) := rfl

/-- C12: the collection of an owned business (level `L ≥ 1`) whose interval has elapsed
succeeds with the income `base_income * L`, whatever the time elapsed beyond the
interval; it adds exactly that income to the balance and sets `last_collected` of the
business to `NOW()`; a collection repeated at the same instant then fails with
`NotReady` when the interval is positive. -/
theorem collect_credits_income (db : Db) (userId businessId : ℕ) (nowMs : ℤ)
    (ub : UserBusiness) (b : Business) (rest : List (UserBusiness × Business))
    (hs : selectOwnedBusiness db userId businessId = (ub, b) :: rest)
    (hready : ¬ timeDiff nowMs ub.last_collected < b.income_time) :
    1 ≤ ub.level ∧
    (collectBusiness db userId businessId nowMs).result
      = .ok { income := b.base_income * ub.level } ∧
    coinsOf (collectBusiness db userId businessId nowMs).db userId
      = (coinsOf db userId).map (fun c => c + b.base_income * ub.level) ∧
    (∀ r ∈ (collectBusiness db userId businessId nowMs).db.user_businesses,
      r.user_id = userId → r.business_id = businessId → r.last_collected = sqlNow nowMs) ∧
    (selectOwnedBusiness (collectBusiness db userId businessId nowMs).db userId
        businessId).head? = some ({ ub with last_collected := sqlNow nowMs }, b) ∧
    (0 < b.income_time →
      (collectBusiness (collectBusiness db userId businessId nowMs).db userId businessId
        nowMs).result = .error (.NotReady b.income_time)) := by
  have hmem : (ub, b) ∈ selectOwnedBusiness db userId businessId := by
    rw [hs]; exact List.mem_cons_self _ _
  obtain ⟨-, -, hu, hb, hlevel, -⟩ := mem_selectOwnedBusiness db userId businessId ub b hmem
  have hc := collectBusiness_of_rows db userId businessId nowMs ub b rest hs
  rw [if_neg hready] at hc
  have hmark : markCollected userId businessId nowMs ub
      = { ub with last_collected := sqlNow nowMs } := by
    unfold markCollected
    rw [if_pos ⟨hu, hb⟩]
  have hrows : selectOwnedBusiness (collectBusiness db userId businessId nowMs).db userId
      businessId = ({ ub with last_collected := sqlNow nowMs }, b) ::
        rest.map (fun p => (markCollected userId businessId nowMs p.1, p.2)) := by
    rw [hc, selectOwnedBusiness_commitCollect, hs, List.map_cons, hmark]
  refine ⟨hlevel, by rw [hc], ?_, ?_, by rw [hrows]; rfl, ?_⟩
  · rw [hc]
    exact coinsOf_commitCollect db userId businessId _ nowMs
  · intro r hr h1 h2
    rw [hc, commitCollect_user_businesses, List.mem_map] at hr
    obtain ⟨r0, -, rfl⟩ := hr
    unfold markCollected at h1 h2 ⊢
    by_cases h : r0.user_id = userId ∧ r0.business_id = businessId
    · simp only [h, and_self, if_true]
    · simp only [h, if_false] at h1 h2
      exact absurd ⟨h1, h2⟩ h
  · intro hT
    rw [collectBusiness_of_rows _ userId businessId nowMs _ b _ hrows]
    have h0 : timeDiff nowMs (sqlNow nowMs) = 0 := by
      rw [timeDiff_of_seconds]; simp
    simp only [h0, hT, if_true, sub_zero]

theorem collect_credits_income_witness :
    selectOwnedBusiness shopDb 1 1
      = [({ user_id := 1, business_id := 1, level := 3, last_collected := 0 }, stand)] ∧
    ¬ timeDiff 7200000 0 < stand.income_time ∧
    (collectBusiness shopDb 1 1 7200000).result = .ok { income := 30 } ∧
    coinsOf (collectBusiness shopDb 1 1 7200000).db 1 = some 130 ∧
    (collectBusiness (collectBusiness shopDb 1 1 7200000).db 1 1 7200000).result
      = .error (.NotReady 3600) := by
  have ht : ¬ timeDiff 7200000 0 < stand.income_time := by
    rw [timeDiff_eq]
    norm_num [stand]
  obtain ⟨-, h1, h2, -, -, h3⟩ :=
    collect_credits_income shopDb 1 1 7200000 _ stand [] shopDb_rows ht
  refine ⟨shopDb_rows, ht, ?_, ?_, h3 (by norm_num [stand])⟩
  · rw [h1]
    norm_num [stand]
  · rw [h2]
    simp [coinsOf, selectUser, shopDb, sampleDb, alice, bob, stand]
    norm_num

/-! ## Effects of an upgrade purchase -/

theorem applyUpgradeEffect_user_upgrades (db : Db) (userId : ℕ) (upgrade : Upgrade) :
    (applyUpgradeEffect db userId upgrade).user_upgrades = db.user_upgrades := by
  unfold applyUpgradeEffect
  split <;> rfl

theorem commitUpgradePurchase_user_upgrades (db : Db) (userId upgradeId : ℕ)
    (upgrade : Upgrade) (rows : List UserUpgrade) (cost : ℤ) :
    (commitUpgradePurchase db userId upgradeId upgrade rows cost).user_upgrades
      = (raiseUpgrade db userId upgradeId rows).user_upgrades := by
  unfold commitUpgradePurchase
  simp only
  have h1 : ∀ (d : Db) (t : Transaction),
      (insertTransaction d t).user_upgrades = d.user_upgrades := fun _ _ => rfl
  rw [h1, applyUpgradeEffect_user_upgrades]
  unfold raiseUpgrade
  split_ifs <;> rfl

theorem filter_raised (userId upgradeId : ℕ) (l : List UserUpgrade) :
    (l.map (fun r => if r.user_id = userId ∧ r.upgrade_id = upgradeId
        then { r with level := r.level + 1 } else r)).filter
      (fun r => decide (r.user_id = userId ∧ r.upgrade_id = upgradeId))
    = (l.filter (fun r => decide (r.user_id = userId ∧ r.upgrade_id = upgradeId))).map
        (fun r => { r with level := r.level + 1 }) := by
  induction l with
  | nil => rfl
  | cons r l ih =>
    by_cases hp : r.user_id = userId ∧ r.upgrade_id = upgradeId
    · simp only [List.map_cons, hp, and_self, if_true, List.filter_cons, decide_True] at ih ⊢
      rw [ih]
    · simp only [List.map_cons, hp, if_false, List.filter_cons, decide_False] at ih ⊢
      simp only [Bool.false_eq_true, if_false]
      rw [ih]

/-- The owned level read by the handler rises by exactly one with the committed
purchase; without an owned row the row of level 1 is created. -/
theorem upgradeLevel_raiseUpgrade (db : Db) (userId upgradeId : ℕ) :
    selectUserUpgrades
        (raiseUpgrade db userId upgradeId (selectUserUpgrades db userId upgradeId))
        userId upgradeId
      = match selectUserUpgrades db userId upgradeId with
        | [] => [{ user_id := userId, upgrade_id := upgradeId, level := 1 }]
        | r :: rs => { r with level := r.level + 1 } ::
            rs.map (fun r => { r with level := r.level + 1 }) := by
  unfold raiseUpgrade
  cases hrows : selectUserUpgrades db userId upgradeId with
  | nil =>
    simp only [List.length_nil, gt_iff_lt, lt_self_iff_false, if_false]
    unfold selectUserUpgrades at hrows ⊢
    simp only [List.filter_append, hrows, List.nil_append]
    simp
  | cons r rs =>
    simp only [List.length_cons, gt_iff_lt, Nat.zero_lt_succ, if_true]
    unfold selectUserUpgrades at hrows ⊢
    simp only
    rw [filter_raised, hrows]
    rfl

theorem selectUser_commitUpgradePurchase (db : Db) (userId upgradeId : ℕ) (upgrade : Upgrade)
    (rows : List UserUpgrade) (cost : ℤ) (user : User) (rest : List User)
    (hs : selectUser db userId = user :: rest) :
    (selectUser (commitUpgradePurchase db userId upgradeId upgrade rows cost) userId).head?
      = some (match upgrade.type with
          | .click_power => addClickPower upgrade.base_effect (debitCoins cost user)
          | .auto_income => addAutoIncome upgrade.base_effect (debitCoins cost user)
          | .other => debitCoins cost user) := by
  have hdebit : selectUser (raiseUpgrade (updateUser db userId (debitCoins cost)) userId
      upgradeId rows) userId = debitCoins cost user :: rest.map (debitCoins cost) := by
    rw [selectUser_congr (raiseUpgrade_users _ userId upgradeId rows),
      selectUser_updateUser_self db userId (debitCoins cost) (fun _ => rfl), hs]
    rfl
  unfold commitUpgradePurchase
  simp only
  rw [selectUser_insertTransaction]
  unfold applyUpgradeEffect
  cases upgrade.type with
  | click_power =>
    simp only
    rw [selectUser_updateUser_self _ userId (addClickPower upgrade.base_effect)
      (fun _ => rfl), hdebit]
    rfl
  | auto_income =>
    simp only
    rw [selectUser_updateUser_self _ userId (addAutoIncome upgrade.base_effect)
      (fun _ => rfl), hdebit]
    rfl
  | other =>
    simp only
    rw [hdebit]
    rfl

/-- C13: a successful `purchaseUpgrade` raises the owned level of the upgrade by exactly
one (without an owned row it creates the row of level 1), lowers the balance by exactly
the cost it answers, and adds `base_effect` once to `click_power` for an upgrade of type
`click_power`, once to `auto_income` for one of type `auto_income`, leaving the other
stat as it was (and both for an upgrade of another type). -/
theorem purchase_upgrade_effects (db : Db) (userId upgradeId : ℕ) (r : PurchaseResponse)
    (h : (purchaseUpgrade db userId upgradeId).result = .ok r) :
    ∃ upgrade others user rest stored,
      db.upgrades.filter (fun g => decide (g.id = upgradeId)) = upgrade :: others ∧
      selectUser db userId = user :: rest ∧
      (selectUser (purchaseUpgrade db userId upgradeId).db userId).head? = some stored ∧
      upgradeLevel (purchaseUpgrade db userId upgradeId).db userId upgradeId
        = upgradeLevel db userId upgradeId + 1 ∧
      r.newLevel = upgradeLevel db userId upgradeId + 1 ∧
      (selectUserUpgrades db userId upgradeId = [] →
        selectUserUpgrades (purchaseUpgrade db userId upgradeId).db userId upgradeId
          = [{ user_id := userId, upgrade_id := upgradeId, level := 1 }]) ∧
      r.cost = upgradeCost upgrade (upgradeLevel db userId upgradeId) ∧
      stored.coins = user.coins - r.cost ∧
      (upgrade.type = .click_power →
        stored.click_power = user.click_power + upgrade.base_effect ∧
        stored.auto_income = user.auto_income) ∧
      (upgrade.type = .auto_income →
        stored.auto_income = user.auto_income + upgrade.base_effect ∧
        stored.click_power = user.click_power) ∧
      (upgrade.type = .other →
        stored.click_power = user.click_power ∧ stored.auto_income = user.auto_income) := by
  obtain ⟨g, gs, user, rest, hg, -, hs, -, hr, hdb⟩ :=
    purchaseUpgrade_ok_inv db userId upgradeId r h
  have hrows : selectUserUpgrades (purchaseUpgrade db userId upgradeId).db userId upgradeId
      = selectUserUpgrades
          (raiseUpgrade db userId upgradeId (selectUserUpgrades db userId upgradeId))
          userId upgradeId := by
    unfold selectUserUpgrades
    rw [hdb, commitUpgradePurchase_user_upgrades]
    rfl
  have hlevel : upgradeLevel (purchaseUpgrade db userId upgradeId).db userId upgradeId
      = upgradeLevel db userId upgradeId + 1 := by
    unfold upgradeLevel
    rw [hrows, upgradeLevel_raiseUpgrade]
    cases selectUserUpgrades db userId upgradeId <;> rfl
  have hnew : selectUserUpgrades db userId upgradeId = [] →
      selectUserUpgrades (purchaseUpgrade db userId upgradeId).db userId upgradeId
        = [{ user_id := userId, upgrade_id := upgradeId, level := 1 }] := by
    intro h0
    rw [hrows, upgradeLevel_raiseUpgrade, h0]
  have hsel := selectUser_commitUpgradePurchase db userId upgradeId g
    (selectUserUpgrades db userId upgradeId)
    (upgradeCost g (upgradeLevel db userId upgradeId)) user rest hs
  rw [← hdb] at hsel
  refine ⟨g, gs, user, rest, _, hg, hs, hsel, hlevel, by rw [hr], hnew, by rw [hr], ?_, ?_,
    ?_, ?_⟩
  · rw [hr]
    cases g.type <;> rfl
  · intro ht
    rw [ht]
    exact ⟨rfl, rfl⟩
  · intro ht
    rw [ht]
    exact ⟨rfl, rfl⟩
  · intro ht
    rw [ht]
    exact ⟨rfl, rfl⟩

theorem purchase_upgrade_effects_witness :
    (purchaseUpgrade ownedDb 1 1).result
      = .ok { newLevel := 2, cost := 17, income := none, remainingCoins := 83 } ∧
    upgradeLevel ownedDb 1 1 = 1 ∧
    upgradeLevel (purchaseUpgrade ownedDb 1 1).db 1 1 = 2 ∧
    ∃ stored, (selectUser (purchaseUpgrade ownedDb 1 1).db 1).head? = some stored ∧
      stored.coins = 83 ∧ stored.click_power = 2 ∧ stored.auto_income = 0 := by
  have hl : upgradeLevel ownedDb 1 1 = 1 := by
    simp [upgradeLevel, selectUserUpgrades, ownedDb]
  have hg0 : ownedDb.upgrades.filter (fun g => decide (g.id = 1)) = [cursor] := by
    simp [ownedDb, sampleDb, cursor]
  have hs0 : selectUser ownedDb 1 = [alice] := by
    simp [selectUser, ownedDb, sampleDb, alice, bob]
  obtain ⟨g, gs, u, us, stored, hg, hs, hsel, hlevel, -, -, -, hcoins, hcp, -, -⟩ :=
    purchase_upgrade_effects ownedDb 1 1 _ purchaseUpgrade_owned
  have hgc : g = cursor := by
    rw [hg0] at hg
    exact (List.cons.inj hg).1.symm
  have hua : u = alice := by
    rw [hs0] at hs
    exact (List.cons.inj hs).1.symm
  subst hgc hua
  obtain ⟨h1, h2⟩ := hcp rfl
  refine ⟨purchaseUpgrade_owned, hl, by rw [hlevel, hl], stored, hsel, ?_, ?_, ?_⟩
  · rw [hcoins]
    norm_num [alice]
  · rw [h1]
    norm_num [alice, cursor]
  · rw [h2]
    rfl

/-! ## Rejected calls -/

theorem purchaseUpgrade_error_db (db : Db) (userId upgradeId : ℕ) (e : Err)
    (h : (purchaseUpgrade db userId upgradeId).result = .error e) :
    (purchaseUpgrade db userId upgradeId).db = db := by
  unfold purchaseUpgrade at h ⊢
  cases hg : db.upgrades.filter (fun g => decide (g.id = upgradeId)) with
  | nil => rfl
  | cons upgrade gs =>
    by_cases hm : maxLevelReached upgrade.max_level (upgradeLevel db userId upgradeId) = true
    · simp [hm]
    cases hs : selectUser db userId with
    | nil => simp [hm]
    | cons user rest =>
      by_cases hc : user.coins < upgradeCost upgrade (upgradeLevel db userId upgradeId)
      · simp [hm, hc]
      · simp [hg, hm, hs, hc] at h

theorem purchaseBusiness_error_db (db : Db) (userId businessId : ℕ) (d : ℤ) (e : Err)
    (h : (purchaseBusiness db userId businessId d).result = .error e) :
    (purchaseBusiness db userId businessId d).db = db := by
  unfold purchaseBusiness at h ⊢
  cases hg : db.businesses.filter (fun b => decide (b.id = businessId)) with
  | nil => rfl
  | cons business gs =>
    cases hs : selectUser db userId with
    | nil => rfl
    | cons user rest =>
      by_cases hl : user.level < business.unlock_level
      · simp [hl]
      by_cases hc : user.coins < businessCost business (businessLevel db userId businessId)
      · simp [hl, hc]
      · simp [hg, hs, hl, hc] at h

theorem transfer_error_db (db : Db) (userId recipientId : ℕ) (amount : ℚ) (e : Err)
    (h : (transfer db userId recipientId amount).result = .error e) :
    (transfer db userId recipientId amount).db = db := by
  by_cases h1 : recipientId = 0 ∨ amount = 0 ∨ amount ≤ 0
  · rw [transfer, if_pos h1]
  by_cases h2 : userId = recipientId
  · rw [transfer, if_neg h1, if_pos h2]
  rw [transfer, if_neg h1, if_neg h2] at h ⊢
  cases hs : selectUser db userId with
  | nil => rfl
  | cons sender rest =>
    by_cases h3 : sender.coins < amount
    · simp [h3]
    cases hrc : selectUser db recipientId with
    | nil => simp [h3]
    | cons recipient rest2 => simp [hs, h3, hrc] at h

theorem prestige_error_db (db : Db) (userId : ℕ) (e : Err)
    (h : (prestige db userId).result = .error e) : (prestige db userId).db = db := by
  unfold prestige at h ⊢
  cases hs : selectUser db userId with
  | nil => rfl
  | cons user rest =>
    by_cases hl : user.level < 50
    · simp [hl]
    · simp [hs, hl] at h

theorem collectBusiness_error_db (db : Db) (userId businessId : ℕ) (nowMs : ℤ) (e : Err)
    (h : (collectBusiness db userId businessId nowMs).result = .error e) :
    (collectBusiness db userId businessId nowMs).db = db := by
  cases hs : selectOwnedBusiness db userId businessId with
  | nil =>
    unfold collectBusiness
    simp only [hs]
  | cons p rest =>
    obtain ⟨ub, b⟩ := p
    rw [collectBusiness_of_rows db userId businessId nowMs ub b rest hs] at h ⊢
    by_cases ht : timeDiff nowMs ub.last_collected < b.income_time
    · rw [if_pos ht]
    · rw [if_neg ht] at h
      simp at h

/-- C16: when `purchaseUpgrade`, `purchaseBusiness`, `transfer`, `prestige` or
`collectBusinessIncome` answers an error, the database after the call is the database
before it: every table, the transaction log included, is as it was. -/
theorem rejected_call_leaves_state (db : Db) (userId itemId recipientId : ℕ) (amount : ℚ)
    (d nowMs : ℤ) (e : Err) :
    ((purchaseUpgrade db userId itemId).result = .error e →
      (purchaseUpgrade db userId itemId).db = db) ∧
    ((purchaseBusiness db userId itemId d).result = .error e →
      (purchaseBusiness db userId itemId d).db = db) ∧
    ((transfer db userId recipientId amount).result = .error e →
      (transfer db userId recipientId amount).db = db) ∧
    ((prestige db userId).result = .error e → (prestige db userId).db = db) ∧
    ((collectBusiness db userId itemId nowMs).result = .error e →
      (collectBusiness db userId itemId nowMs).db = db) :=
  ⟨purchaseUpgrade_error_db db userId itemId e,
    purchaseBusiness_error_db db userId itemId d e,
    transfer_error_db db userId recipientId amount e,
    prestige_error_db db userId e,
    collectBusiness_error_db db userId itemId nowMs e⟩

/-! ## Maximum level of an upgrade -/

theorem selectUserUpgrades_raiseUpgrade_other (db : Db) (userId upgradeId u g : ℕ)
    (rows : List UserUpgrade) (hne : ¬ (u = userId ∧ g = upgradeId)) :
    selectUserUpgrades (raiseUpgrade db u g rows) userId upgradeId
      = selectUserUpgrades db userId upgradeId := by
  unfold raiseUpgrade selectUserUpgrades
  split_ifs
  · simp only
    induction db.user_upgrades with
    | nil => rfl
    | cons r l ih =>
      by_cases hk : r.user_id = u ∧ r.upgrade_id = g
      · have hn : ¬ (r.user_id = userId ∧ r.upgrade_id = upgradeId) := by
          rintro ⟨a, b⟩
          exact hne ⟨hk.1.symm.trans a, hk.2.symm.trans b⟩
        simp only [List.map_cons, hk, and_self, if_true, List.filter_cons, hn, hne,
          decide_False, Bool.false_eq_true, if_false]
        exact ih
      · simp only [List.map_cons, hk, if_false, List.filter_cons]
        rw [ih]
  · simp only [List.filter_append]
    have : List.filter (fun r : UserUpgrade =>
        decide (r.user_id = userId ∧ r.upgrade_id = upgradeId))
        [{ user_id := u, upgrade_id := g, level := 1 }] = [] := by
      simp [List.filter_cons, hne]
    rw [this, List.append_nil]

theorem commitUpgradePurchase_upgrades (db : Db) (userId upgradeId : ℕ) (upgrade : Upgrade)
    (rows : List UserUpgrade) (cost : ℤ) :
    (commitUpgradePurchase db userId upgradeId upgrade rows cost).upgrades = db.upgrades := by
  unfold commitUpgradePurchase applyUpgradeEffect raiseUpgrade
  cases upgrade.type <;> simp only <;> split_ifs <;> rfl

theorem commitBusinessPurchase_upgrades (db : Db) (userId businessId : ℕ)
    (rows : List UserBusiness) (d : ℤ) (cost : ℤ) :
    (commitBusinessPurchase db userId businessId rows d cost).upgrades = db.upgrades ∧
    (commitBusinessPurchase db userId businessId rows d cost).user_upgrades
      = db.user_upgrades := by
  unfold commitBusinessPurchase raiseBusiness
  simp only
  split_ifs <;> exact ⟨rfl, rfl⟩

theorem run_upgrades (db : Db) (op : Op) : (op.run db).upgrades = db.upgrades := by
  cases op with
  | purchaseUpgrade u g =>
    rcases purchaseUpgrade_db db u g with h | ⟨_, _, _, -, -, h⟩
    · rw [Op.run, h]
    · rw [Op.run, h, commitUpgradePurchase_upgrades]
  | purchaseBusiness u b d =>
    rcases purchaseBusiness_db db u b d with h | ⟨_, _, _, -, -, h⟩
    · rw [Op.run, h]
    · rw [Op.run, h, (commitBusinessPurchase_upgrades db u b _ d _).1]
  | transfer u r a =>
    rcases transfer_db db u r a with h | ⟨_, _, -, -, -, h⟩
    · rw [Op.run, h]
    · rw [Op.run, h]; rfl
  | prestige u =>
    rcases prestige_db db u with h | ⟨_, _, -, h⟩
    · rw [Op.run, h]
    · rw [Op.run, h]; rfl

theorem selectUserUpgrades_congr {db db' : Db} (h : db'.user_upgrades = db.user_upgrades)
    (userId upgradeId : ℕ) :
    selectUserUpgrades db' userId upgradeId = selectUserUpgrades db userId upgradeId := by
  unfold selectUserUpgrades
  rw [h]

theorem upgradeLevel_congr {db db' : Db} (h : db'.user_upgrades = db.user_upgrades)
    (userId upgradeId : ℕ) :
    upgradeLevel db' userId upgradeId = upgradeLevel db userId upgradeId := by
  unfold upgradeLevel
  rw [selectUserUpgrades_congr h]

theorem upgradeLevel_commitUpgradePurchase (db : Db) (userId upgradeId : ℕ)
    (upgrade : Upgrade) (cost : ℤ) :
    upgradeLevel (commitUpgradePurchase db userId upgradeId upgrade
        (selectUserUpgrades db userId upgradeId) cost) userId upgradeId
      = upgradeLevel db userId upgradeId + 1 := by
  unfold upgradeLevel
  rw [selectUserUpgrades_congr
      (commitUpgradePurchase_user_upgrades db userId upgradeId upgrade _ cost),
    upgradeLevel_raiseUpgrade]
  cases selectUserUpgrades db userId upgradeId <;> rfl

theorem upgradeLevel_commitUpgradePurchase_other (db : Db) (userId upgradeId u g : ℕ)
    (upgrade : Upgrade) (rows : List UserUpgrade) (cost : ℤ)
    (hne : ¬ (u = userId ∧ g = upgradeId)) :
    upgradeLevel (commitUpgradePurchase db u g upgrade rows cost) userId upgradeId
      = upgradeLevel db userId upgradeId := by
  unfold upgradeLevel
  rw [selectUserUpgrades_congr (commitUpgradePurchase_user_upgrades db u g upgrade rows cost),
    selectUserUpgrades_raiseUpgrade_other db userId upgradeId u g rows hne]

theorem upgradeLevel_commitPrestige (db : Db) (userId upgradeId u : ℕ) (points : ℕ) :
    upgradeLevel (commitPrestige db u points) userId upgradeId
      ≤ upgradeLevel db userId upgradeId := by
  have hrows : selectUserUpgrades (commitPrestige db u points) userId upgradeId
      = if u = userId then [] else selectUserUpgrades db userId upgradeId := by
    unfold selectUserUpgrades commitPrestige
    simp only [insertTransaction, updateUser, List.filter_filter]
    by_cases hu : u = userId
    · rw [if_pos hu]
      apply List.filter_eq_nil_iff.mpr
      intro r _
      simp only [Bool.and_eq_true, decide_eq_true_eq, not_and]
      intro h1 h2
      exact absurd (h1.1.trans hu.symm) h2
    · rw [if_neg hu]
      apply List.filter_congr
      intro r _
      by_cases hr : r.user_id = userId ∧ r.upgrade_id = upgradeId
      · have : ¬ userId = u := fun h => hu h.symm
        simp [hr, this]
      · simp [hr]
  unfold upgradeLevel
  rw [hrows]
  by_cases hu : u = userId
  · rw [if_pos hu]
    exact Nat.zero_le _
  · rw [if_neg hu]

theorem maxLevelReached_false (M level : ℕ) (h1 : 1 ≤ M)
    (h : maxLevelReached (some M) level = false) : level < M := by
  unfold maxLevelReached at h
  simp only [decide_eq_false_iff_not, not_and, not_le, ne_eq, ge_iff_le] at h
  exact h (by omega)

theorem run_upgradeLevel_le (db : Db) (op : Op) (userId upgradeId : ℕ) (upgrade : Upgrade)
    (others : List Upgrade) (M : ℕ)
    (hg : db.upgrades.filter (fun g => decide (g.id = upgradeId)) = upgrade :: others)
    (hM : upgrade.max_level = some M) (h1 : 1 ≤ M)
    (hle : upgradeLevel db userId upgradeId ≤ M) :
    upgradeLevel (op.run db) userId upgradeId ≤ M := by
  cases op with
  | purchaseUpgrade u g =>
    rw [Op.run]
    cases hres : (purchaseUpgrade db u g).result with
    | error e => rw [purchaseUpgrade_error_db db u g e hres]; exact hle
    | ok r =>
      obtain ⟨g0, gs, user, rest, hg0, hm, -, -, -, hdb⟩ := purchaseUpgrade_ok_inv db u g r hres
      rw [hdb]
      by_cases hk : u = userId ∧ g = upgradeId
      · obtain ⟨rfl, rfl⟩ := hk
        rw [hg] at hg0
        have hgu : upgrade = g0 := (List.cons.inj hg0).1
        subst hgu
        rw [hM] at hm
        have := maxLevelReached_false M _ h1 hm
        rw [upgradeLevel_commitUpgradePurchase]
        omega
      · rw [upgradeLevel_commitUpgradePurchase_other db userId upgradeId u g g0 _ _ hk]
        exact hle
  | purchaseBusiness u b d =>
    rw [Op.run]
    rcases purchaseBusiness_db db u b d with h | ⟨_, _, _, -, -, h⟩
    · rw [h]; exact hle
    · rw [h, upgradeLevel_congr (commitBusinessPurchase_upgrades db u b _ d _).2]
      exact hle
  | transfer u r a =>
    rw [Op.run]
    rcases transfer_db db u r a with h | ⟨_, _, -, -, -, h⟩
    · rw [h]; exact hle
    · rw [h]
      exact hle
  | prestige u =>
    rw [Op.run]
    rcases prestige_db db u with h | ⟨_, _, -, h⟩
    · rw [h]; exact hle
    · rw [h]
      exact le_trans (upgradeLevel_commitPrestige db userId upgradeId u _) hle

theorem runOps_upgradeLevel_le (ops : List Op) (userId upgradeId : ℕ) (upgrade : Upgrade)
    (others : List Upgrade) (M : ℕ) (hM : upgrade.max_level = some M) (h1 : 1 ≤ M) :
    ∀ db : Db,
      db.upgrades.filter (fun g => decide (g.id = upgradeId)) = upgrade :: others →
      upgradeLevel db userId upgradeId ≤ M →
      upgradeLevel (runOps db ops) userId upgradeId ≤ M := by
  induction ops with
  | nil => intro db _ hle; exact hle
  | cons op ops ih =>
    intro db hg hle
    apply ih (op.run db)
    · rw [run_upgrades]; exact hg
    · exact run_upgradeLevel_le db op userId upgradeId upgrade others M hg hM h1 hle

/-- C14: for an upgrade of the catalog with a maximum level `M ≥ 1`, `purchaseUpgrade` is
rejected with `MaxLevelReached` whenever the owned level is `M` or more; hence from an
owned level `≤ M` no sequence of calls (purchases of any upgrade or business by any
account, transfers, prestiges) brings the owned level above `M`. -/
theorem max_level_caps_owned_level (db : Db) (userId upgradeId : ℕ) (upgrade : Upgrade)
    (others : List Upgrade) (M : ℕ)
    (hg : db.upgrades.filter (fun g => decide (g.id = upgradeId)) = upgrade :: others)
    (hM : upgrade.max_level = some M) (h1 : 1 ≤ M) :
    (M ≤ upgradeLevel db userId upgradeId →
      (purchaseUpgrade db userId upgradeId).result = .error .MaxLevelReached) ∧
    (upgradeLevel db userId upgradeId ≤ M →
      ∀ ops : List Op, upgradeLevel (runOps db ops) userId upgradeId ≤ M) := by
  constructor
  · intro hge
    have hm : maxLevelReached upgrade.max_level (upgradeLevel db userId upgradeId) = true := by
      rw [hM]
      unfold maxLevelReached
      simp only [decide_eq_true_eq]
      exact ⟨by omega, hge⟩
    unfold purchaseUpgrade
    simp only [hg, hm, if_true]
  · intro hle ops
    exact runOps_upgradeLevel_le ops userId upgradeId upgrade others M hM h1 db hg hle

theorem max_level_caps_owned_level_witness :
    cappedDb.upgrades.filter (fun g => decide (g.id = 1)) = [cappedCursor] ∧
    cappedCursor.max_level = some 2 ∧ upgradeLevel cappedDb 1 1 = 2 ∧
    (purchaseUpgrade cappedDb 1 1).result = .error .MaxLevelReached ∧
    upgradeLevel (runOps cappedDb
      [.purchaseUpgrade 1 1, .transfer 1 2 30, .purchaseUpgrade 1 1]) 1 1 ≤ 2 := by
  have hg : cappedDb.upgrades.filter (fun g => decide (g.id = 1)) = [cappedCursor] := by
    simp [cappedDb, cappedCursor, cursor]
  have hl : upgradeLevel cappedDb 1 1 = 2 := by
    simp [upgradeLevel, selectUserUpgrades, cappedDb]
  have h := max_level_caps_owned_level cappedDb 1 1 cappedCursor [] 2 hg rfl (by norm_num)
  exact ⟨hg, rfl, hl, h.1 (by rw [hl]), h.2 (by rw [hl]) _⟩

/-! ## Unlock level of a business -/

theorem mem_businessRows (db : Db) (userId userLevel : ℕ) (b : Business)
    (row : BusinessListing) (h : row ∈ businessRows db userId userLevel b) :
    row.business = b ∧ row.unlocked = decide (b.unlock_level ≤ userLevel) := by
  unfold businessRows at h
  split at h
  · simp only [List.mem_singleton] at h
    rw [h]
    exact ⟨rfl, rfl⟩
  · simp only [List.mem_map] at h
    obtain ⟨ub, -, rfl⟩ := h
    exact ⟨rfl, rfl⟩

theorem businessRows_ne_nil (db : Db) (userId userLevel : ℕ) (b : Business) :
    businessRows db userId userLevel b ≠ [] := by
  unfold businessRows
  split
  · simp
  · rename_i h
    simpa using h

theorem mem_listBusinesses (db : Db) (userId : ℕ) (user : User) (rest : List User)
    (hs : selectUser db userId = user :: rest) :
    ∃ rows, listBusinesses db userId = .ok rows ∧
      ∀ row, row ∈ rows ↔ ∃ b ∈ db.businesses, row ∈ businessRows db userId user.level b := by
  have hlist : listBusinesses db userId = .ok
      (((db.businesses.map (businessRows db userId user.level)).flatten).insertionSort
        (fun a b => a.business.unlock_level < b.business.unlock_level ∨
          (a.business.unlock_level = b.business.unlock_level ∧
            a.business.id ≤ b.business.id))) := by
    unfold listBusinesses
    simp only [hs]
  refine ⟨_, hlist, ?_⟩
  intro row
  rw [List.mem_insertionSort, List.mem_flatten]
  constructor
  · rintro ⟨l, hl, hrow⟩
    obtain ⟨b, hb, rfl⟩ := List.mem_map.mp hl
    exact ⟨b, hb, hrow⟩
  · rintro ⟨b, hb, hrow⟩
    exact ⟨_, List.mem_map.mpr ⟨b, hb, rfl⟩, hrow⟩

theorem purchaseBusiness_locked_iff (db : Db) (userId businessId : ℕ) (d : ℤ)
    (business : Business) (bs : List Business) (user : User) (rest : List User)
    (hb : db.businesses.filter (fun b => decide (b.id = businessId)) = business :: bs)
    (hs : selectUser db userId = user :: rest) (n : ℕ) :
    (purchaseBusiness db userId businessId d).result = .error (.LockedByLevel n) ↔
      (user.level < business.unlock_level ∧ n = business.unlock_level) := by
  unfold purchaseBusiness
  simp only [hb, hs]
  by_cases hl : user.level < business.unlock_level
  · simp only [hl, if_true, true_and]
    constructor
    · intro h
      injection h with h
      injection h with h
      exact h.symm
    · rintro rfl
      rfl
  · simp only [hl, if_false, false_and, iff_false]
    by_cases hc : user.coins < businessCost business (businessLevel db userId businessId)
    · simp [hc]
    · simp [hc]

/-- C15: for an existing account and a business of the catalog, `purchaseBusiness` is
rejected with `LockedByLevel` if and only if the unlock level of the business exceeds the
level of the account, and the error then carries that unlock level; the listing of
`listBusinesses` has a row for the business, and the `unlocked` flag of every such row is
true exactly when the purchase is not rejected with `LockedByLevel`. -/
theorem locked_by_level_iff (db : Db) (userId businessId : ℕ) (d : ℤ)
    (business : Business) (bs : List Business) (user : User) (rest : List User)
    (hb : db.businesses.filter (fun b => decide (b.id = businessId)) = business :: bs)
    (hs : selectUser db userId = user :: rest) :
    ((∃ n, (purchaseBusiness db userId businessId d).result = .error (.LockedByLevel n)) ↔
      user.level < business.unlock_level) ∧
    (user.level < business.unlock_level →
      (purchaseBusiness db userId businessId d).result
        = .error (.LockedByLevel business.unlock_level)) ∧
    ∃ rows, listBusinesses db userId = .ok rows ∧
      (∃ row ∈ rows, row.business = business) ∧
      ∀ row ∈ rows, row.business = business →
        (row.unlocked = true ↔
          ¬ ∃ n, (purchaseBusiness db userId businessId d).result
            = .error (.LockedByLevel n)) := by
  have hiff : (∃ n, (purchaseBusiness db userId businessId d).result
      = .error (.LockedByLevel n)) ↔ user.level < business.unlock_level := by
    constructor
    · rintro ⟨n, h⟩
      exact ((purchaseBusiness_locked_iff db userId businessId d business bs user rest hb hs
        n).mp h).1
    · intro h
      exact ⟨business.unlock_level,
        (purchaseBusiness_locked_iff db userId businessId d business bs user rest hb hs
          _).mpr ⟨h, rfl⟩⟩
  obtain ⟨rows, hrows, hmem⟩ := mem_listBusinesses db userId user rest hs
  have hin : business ∈ db.businesses := by
    have : business ∈ db.businesses.filter (fun b => decide (b.id = businessId)) := by
      rw [hb]; exact List.mem_cons_self _ _
    exact (List.mem_filter.mp this).1
  refine ⟨hiff, fun h => (purchaseBusiness_locked_iff db userId businessId d business bs
    user rest hb hs _).mpr ⟨h, rfl⟩, rows, hrows, ?_, ?_⟩
  · obtain ⟨row, rs, hr⟩ := List.exists_cons_of_ne_nil
      (businessRows_ne_nil db userId user.level business)
    have hrow : row ∈ businessRows db userId user.level business := by
      rw [hr]; exact List.mem_cons_self _ _
    exact ⟨row, (hmem row).mpr ⟨business, hin, hrow⟩,
      (mem_businessRows db userId user.level business row hrow).1⟩
  · intro row hrow hbus
    obtain ⟨b, -, hb'⟩ := (hmem row).mp hrow
    obtain ⟨h1, h2⟩ := mem_businessRows db userId user.level b row hb'
    rw [hiff, h2, ← h1, hbus]
    simp

theorem locked_by_level_iff_witness :
    lockedDb.businesses.filter (fun b => decide (b.id = 2)) = [factory] ∧
    selectUser lockedDb 1 = [alice] ∧
    (purchaseBusiness lockedDb 1 2 0).result = .error (.LockedByLevel 5) ∧
    ∃ rows, listBusinesses lockedDb 1 = .ok rows ∧
      (∃ row ∈ rows, row.business = factory) ∧
      ∀ row ∈ rows, row.business = factory → ¬ row.unlocked = true := by
  have hb : lockedDb.businesses.filter (fun b => decide (b.id = 2)) = [factory] := by
    simp [lockedDb, stand, factory]
  have hs : selectUser lockedDb 1 = [alice] := by
    simp [selectUser, lockedDb, sampleDb, alice, bob]
  have hl : alice.level < factory.unlock_level := by
    simp [alice, factory]
  obtain ⟨h1, h2, rows, h3, h4, h5⟩ := locked_by_level_iff lockedDb 1 2 0 factory [] alice []
    hb hs
  refine ⟨hb, hs, h2 hl, rows, h3, h4, ?_⟩
  intro row hrow hbus hun
  exact ((h5 row hrow hbus).mp hun) (h1.mpr hl)

theorem collectBusiness_shop_early :
    (collectBusiness shopDb 1 1 1800000).result = .error (.NotReady 1800) := by
  have ht : timeDiff 1800000 0 = 1800 := by
    rw [timeDiff_eq]
    norm_num
  rw [collectBusiness_of_rows shopDb 1 1 1800000 _ stand [] shopDb_rows]
  simp only [ht]
  norm_num [stand]

theorem transfer_sample_short :
    (transfer sampleDb 2 1 50).result = .error .InsufficientFunds := by
  simp [transfer, sampleDb, selectUser, alice, bob]
  norm_num

theorem prestige_sample_low :
    (prestige sampleDb 1).result = .error (.PrestigeIneligible 50) := by
  simp [prestige, sampleDb, selectUser, alice, bob]

theorem purchaseUpgrade_capped :
    (purchaseUpgrade cappedDb 1 1).result = .error .MaxLevelReached := by
  simp [purchaseUpgrade, cappedDb, cappedCursor, cursor, maxLevelReached, upgradeLevel,
    selectUserUpgrades]

theorem purchaseBusiness_locked :
    (purchaseBusiness lockedDb 1 2 0).result = .error (.LockedByLevel 5) := by
  simp [purchaseBusiness, lockedDb, sampleDb, selectUser, alice, bob, stand, factory]

theorem rejected_call_leaves_state_witness :
    (transfer sampleDb 2 1 50).result = .error .InsufficientFunds ∧
    (transfer sampleDb 2 1 50).db = sampleDb ∧
    (prestige sampleDb 1).result = .error (.PrestigeIneligible 50) ∧
    (prestige sampleDb 1).db = sampleDb ∧
    (purchaseUpgrade cappedDb 1 1).result = .error .MaxLevelReached ∧
    (purchaseUpgrade cappedDb 1 1).db = cappedDb ∧
    (purchaseBusiness lockedDb 1 2 0).result = .error (.LockedByLevel 5) ∧
    (purchaseBusiness lockedDb 1 2 0).db = lockedDb ∧
    (collectBusiness shopDb 1 1 1800000).result = .error (.NotReady 1800) ∧
    (collectBusiness shopDb 1 1 1800000).db = shopDb :=
  ⟨transfer_sample_short,
    (rejected_call_leaves_state sampleDb 2 0 1 50 0 0 .InsufficientFunds).2.2.1
      transfer_sample_short,
    prestige_sample_low,
    (rejected_call_leaves_state sampleDb 1 0 0 0 0 0 (.PrestigeIneligible 50)).2.2.2.1
      prestige_sample_low,
    purchaseUpgrade_capped,
    (rejected_call_leaves_state cappedDb 1 1 0 0 0 0 .MaxLevelReached).1 purchaseUpgrade_capped,
    purchaseBusiness_locked,
    (rejected_call_leaves_state lockedDb 1 2 0 0 0 0 (.LockedByLevel 5)).2.1
      purchaseBusiness_locked,
    collectBusiness_shop_early,
    (rejected_call_leaves_state shopDb 1 1 0 0 0 1800000 (.NotReady 1800)).2.2.2.2
      collectBusiness_shop_early⟩

/-! ## Prestige -/

theorem prestige_of_level (db : Db) (userId : ℕ) (user : User) (rest : List User)
    (hs : selectUser db userId = user :: rest) :
    prestige db userId =
      if user.level < 50 then ⟨db, .error (.PrestigeIneligible 50)⟩
      else
        ⟨commitPrestige db userId (user.level / 10), .ok
          { prestigeLevel := user.prestige_level + 1
            prestigePoints := none
            bonuses :=
              { clickPower := 1 + ((user.prestige_level + 1) * 2 : ℕ)
                autoIncome := ((user.prestige_level + 1) * 5 : ℕ)
                startingCoins := 1000 } }⟩ := by
  unfold prestige
  simp only [hs]

theorem selectUser_commitPrestige (db : Db) (userId : ℕ) (points : ℕ) :
    selectUser (commitPrestige db userId points) userId
      = (selectUser db userId).map (prestigeUpdate points) := by
  have h : selectUser (commitPrestige db userId points) userId
      = selectUser (updateUser db userId (prestigeUpdate points)) userId := rfl
  rw [h, selectUser_updateUser_self db userId (prestigeUpdate points) (fun _ => rfl)]

/-- C17: for an existing account, `prestige` succeeds if and only if the level of the
account is at least 50, and with a level below 50 it fails with
`PrestigeIneligible(50)`. -/
theorem prestige_iff_level_50 (db : Db) (userId : ℕ) (user : User) (rest : List User)
    (hs : selectUser db userId = user :: rest) :
    ((∃ r, (prestige db userId).result = .ok r) ↔ 50 ≤ user.level) ∧
    (user.level < 50 → (prestige db userId).result = .error (.PrestigeIneligible 50)) := by
  have hp := prestige_of_level db userId user rest hs
  constructor
  · constructor
    · rintro ⟨r, h⟩
      by_contra hl
      rw [hp, if_pos (not_le.mp hl)] at h
      simp at h
    · intro hl
      rw [hp, if_neg (not_lt.mpr hl)]
      exact ⟨_, rfl⟩
  · intro hl
    rw [hp, if_pos hl]

theorem championDb_select : selectUser championDb 5 = [champion] := by
  simp [selectUser, championDb, alice, champion]

theorem prestige_iff_level_50_witness :
    selectUser championDb 5 = [champion] ∧ champion.level = 50 ∧
    (∃ r, (prestige championDb 5).result = .ok r) ∧
    selectUser championDb 1 = [alice] ∧ alice.level = 1 ∧
    (prestige championDb 1).result = .error (.PrestigeIneligible 50) := by
  have hs1 : selectUser championDb 1 = [alice] := by
    simp [selectUser, championDb, alice, champion]
  exact ⟨championDb_select, rfl,
    (prestige_iff_level_50 championDb 5 champion [] championDb_select).1.mpr
      (by simp [champion]),
    hs1, rfl,
    (prestige_iff_level_50 championDb 1 alice [] hs1).2 (by simp [alice])⟩

theorem commitPrestige_tables (db : Db) (userId : ℕ) (points : ℕ) :
    (commitPrestige db userId points).user_upgrades
      = db.user_upgrades.filter (fun r => decide (r.user_id ≠ userId)) ∧
    (commitPrestige db userId points).user_businesses
      = db.user_businesses.filter (fun r => decide (r.user_id ≠ userId)) ∧
    (commitPrestige db userId points).transactions
      = db.transactions ++
        [{ from_user_id := none, to_user_id := some userId, amount := 1000,
           type := .reward }] :=
  ⟨rfl, rfl, rfl⟩

/-- C18: for an account of level at least 50, `prestige` succeeds and leaves the account
with level 1, experience 0, 1000 coins, its prestige level raised by one and its prestige
points raised by `floor(level / 10)` of the level it had; no owned upgrade and no owned
business of the account is left, those of other accounts are kept, and the transaction
log gains exactly one record, a reward of 1000 to the account. -/
theorem prestige_resets_account (db : Db) (userId : ℕ) (user : User) (rest : List User)
    (hs : selectUser db userId = user :: rest) (hl : 50 ≤ user.level) :
    ∃ r stored,
      (prestige db userId).result = .ok r ∧
      (selectUser (prestige db userId).db userId).head? = some stored ∧
      stored.level = 1 ∧ stored.experience = 0 ∧ stored.coins = 1000 ∧
      stored.prestige_level = user.prestige_level + 1 ∧
      stored.prestige_points = user.prestige_points + user.level / 10 ∧
      (∀ row ∈ (prestige db userId).db.user_upgrades, row.user_id ≠ userId) ∧
      (∀ row ∈ (prestige db userId).db.user_businesses, row.user_id ≠ userId) ∧
      (∀ row ∈ db.user_upgrades, row.user_id ≠ userId →
        row ∈ (prestige db userId).db.user_upgrades) ∧
      (∀ row ∈ db.user_businesses, row.user_id ≠ userId →
        row ∈ (prestige db userId).db.user_businesses) ∧
      (prestige db userId).db.transactions = db.transactions ++
        [{ from_user_id := none, to_user_id := some userId, amount := 1000,
           type := .reward }] := by
  have hp := prestige_of_level db userId user rest hs
  rw [if_neg (not_lt.mpr hl)] at hp
  obtain ⟨h1, h2, h3⟩ := commitPrestige_tables db userId (user.level / 10)
  refine ⟨_, prestigeUpdate (user.level / 10) user, by rw [hp], ?_, rfl, rfl, rfl, rfl, rfl,
    ?_, ?_, ?_, ?_, ?_⟩
  · rw [hp, selectUser_commitPrestige, hs]
    rfl
  · intro row hrow
    rw [hp, h1] at hrow
    simpa using (List.mem_filter.mp hrow).2
  · intro row hrow
    rw [hp, h2] at hrow
    simpa using (List.mem_filter.mp hrow).2
  · intro row hrow hne
    rw [hp, h1]
    exact List.mem_filter.mpr ⟨hrow, by simpa using hne⟩
  · intro row hrow hne
    rw [hp, h2]
    exact List.mem_filter.mpr ⟨hrow, by simpa using hne⟩
  · rw [hp, h3]

theorem prestige_resets_account_witness :
    selectUser championDb 5 = [champion] ∧ 50 ≤ champion.level ∧
    ∃ r stored,
      (prestige championDb 5).result = .ok r ∧
      (selectUser (prestige championDb 5).db 5).head? = some stored ∧
      stored.level = 1 ∧ stored.experience = 0 ∧ stored.coins = 1000 ∧
      stored.prestige_level = 1 ∧ stored.prestige_points = 5 ∧
      (prestige championDb 5).db.user_upgrades
        = [{ user_id := 1, upgrade_id := 1, level := 1 }] ∧
      (prestige championDb 5).db.user_businesses = [] ∧
      (prestige championDb 5).db.transactions
        = [{ from_user_id := none, to_user_id := some 5, amount := 1000,
             type := .reward }] := by
  have hl : 50 ≤ champion.level := by simp [champion]
  obtain ⟨r, stored, h1, h2, h3, h4, h5, h6, h7, -, -, -, -, h8⟩ :=
    prestige_resets_account championDb 5 champion [] championDb_select hl
  have hp := prestige_of_level championDb 5 champion [] championDb_select
  rw [if_neg (not_lt.mpr hl)] at hp
  refine ⟨championDb_select, hl, r, stored, h1, h2, h3, h4, h5, by rw [h6]; rfl,
    by rw [h7]; rfl, ?_, ?_, by rw [h8]; rfl⟩
  · rw [hp, (commitPrestige_tables championDb 5 _).1]
    simp [championDb]
  · rw [hp, (commitPrestige_tables championDb 5 _).2.1]
    simp [championDb]

/-- C19, evaluated where it fails: an account of level 50 and prestige level 0 prestiges.
Its new prestige level is 1, and the answer of the call announces the bonuses
`clickPower = 3` and `autoIncome = 5` computed from that new level, but the stored
`click_power` is 1 and the stored `auto_income` is 0: the `UPDATE` computes them from the
prestige level of before the increment. -/
theorem prestige_stores_stats_of_old_prestige_level :
    (prestige championDb 5).result = .ok
      { prestigeLevel := 1, prestigePoints := none,
        bonuses := { clickPower := 3, autoIncome := 5, startingCoins := 1000 } } ∧
    ∃ stored, (selectUser (prestige championDb 5).db 5).head? = some stored ∧
      stored.prestige_level = 1 ∧ stored.click_power = 1 ∧ stored.auto_income = 0 ∧
      stored.click_power ≠ 1 + 2 * (stored.prestige_level : ℚ) ∧
      stored.auto_income ≠ 5 * (stored.prestige_level : ℚ) := by
  have hl : ¬ champion.level < 50 := by simp [champion]
  have hp := prestige_of_level championDb 5 champion [] championDb_select
  rw [if_neg hl] at hp
  refine ⟨?_, prestigeUpdate (champion.level / 10) champion, ?_, rfl, ?_, ?_, ?_, ?_⟩
  · rw [hp]
    simp [champion]
    norm_num
  · rw [hp, selectUser_commitPrestige, championDb_select]
    rfl
  · simp [prestigeUpdate, champion]
  · simp [prestigeUpdate, champion]
  · simp [prestigeUpdate, champion]
  · simp [prestigeUpdate, champion]

/-- The stored stats after a prestige, for every account: `click_power = 1 + 2 * p` and
`auto_income = 5 * p` with `p` the prestige level of before the call. -/
theorem prestige_stored_stats (db : Db) (userId : ℕ) (user : User) (rest : List User)
    (hs : selectUser db userId = user :: rest) (hl : 50 ≤ user.level) :
    ∃ stored, (selectUser (prestige db userId).db userId).head? = some stored ∧
      stored.prestige_level = user.prestige_level + 1 ∧
      stored.click_power = 1 + 2 * (user.prestige_level : ℚ) ∧
      stored.auto_income = 5 * (user.prestige_level : ℚ) := by
  have hp := prestige_of_level db userId user rest hs
  rw [if_neg (not_lt.mpr hl)] at hp
  refine ⟨prestigeUpdate (user.level / 10) user, ?_, rfl, ?_, ?_⟩
  · rw [hp, selectUser_commitPrestige, hs]
    rfl
  · simp [prestigeUpdate, mul_comm]
  · simp [prestigeUpdate, mul_comm]

/-! ## Coins leaderboard -/

/-- C20, evaluated where it fails: the coins leaderboard is ordered by `coins` alone, with
no secondary key. Two accounts with the same 100 coins come out in the order in which they
are stored: with `alice` stored first she is first with rank 1, with `carol` stored first
`alice` is second with rank 2, for the same set of accounts. -/
theorem coins_leaderboard_depends_on_storage_order :
    tieDb.users.Perm tieDbSwapped.users ∧
    coinsLeaderboard tieDb 1 50 =
      { leaderboard :=
          [{ id := 1, coins := 100, level := 1, prestige_level := 0, rank := 1 },
           { id := 6, coins := 100, level := 1, prestige_level := 0, rank := 2 }]
        userRank := some 1 } ∧
    coinsLeaderboard tieDbSwapped 1 50 =
      { leaderboard :=
          [{ id := 6, coins := 100, level := 1, prestige_level := 0, rank := 1 },
           { id := 1, coins := 100, level := 1, prestige_level := 0, rank := 2 }]
        userRank := some 2 } ∧
    coinsLeaderboard tieDb 1 50 ≠ coinsLeaderboard tieDbSwapped 1 50 := by
  have h1 : coinsLeaderboard tieDb 1 50 =
      { leaderboard :=
          [{ id := 1, coins := 100, level := 1, prestige_level := 0, rank := 1 },
           { id := 6, coins := 100, level := 1, prestige_level := 0, rank := 2 }]
        userRank := some 1 } := by
    simp [coinsLeaderboard, rankedByCoins, tieDb, alice, carol, List.enum, List.enumFrom]
  have h2 : coinsLeaderboard tieDbSwapped 1 50 =
      { leaderboard :=
          [{ id := 6, coins := 100, level := 1, prestige_level := 0, rank := 1 },
           { id := 1, coins := 100, level := 1, prestige_level := 0, rank := 2 }]
        userRank := some 2 } := by
    simp [coinsLeaderboard, rankedByCoins, tieDbSwapped, alice, carol, List.enum,
      List.enumFrom]
  refine ⟨List.Perm.swap _ _ _, h1, h2, ?_⟩
  rw [h1, h2]
  simp

theorem sorted_by_coins_unique (l1 l2 : List User) (hp : l1.Perm l2)
    (hd : (l1.map (fun u => u.coins)).Nodup) :
    l1.insertionSort (fun a b => a.coins ≥ b.coins)
      = l2.insertionSort (fun a b => a.coins ≥ b.coins) := by
  haveI : IsTotal User (fun a b => a.coins ≥ b.coins) := ⟨fun a b => le_total b.coins a.coins⟩
  haveI : IsTrans User (fun a b => a.coins ≥ b.coins) :=
    ⟨fun a b c hab hbc => le_trans hbc hab⟩
  haveI : IsAntisymm User (fun a b => a.coins > b.coins) :=
    ⟨fun a b hab hba => absurd hab (not_lt.mpr (le_of_lt hba))⟩
  have strict : ∀ l : List User, (l.map (fun u => u.coins)).Nodup →
      List.Sorted (fun a b : User => a.coins > b.coins)
        (l.insertionSort (fun a b => a.coins ≥ b.coins)) := by
    intro l hl
    have hs := List.sorted_insertionSort (fun a b : User => a.coins ≥ b.coins) l
    have hn : ((l.insertionSort (fun a b => a.coins ≥ b.coins)).map
        (fun u => u.coins)).Nodup :=
      (((List.perm_insertionSort (fun a b : User => a.coins ≥ b.coins) l).map
        (fun u => u.coins)).nodup_iff).mpr hl
    have hne : List.Pairwise (fun a b : User => a.coins ≠ b.coins)
        (l.insertionSort (fun a b => a.coins ≥ b.coins)) := List.pairwise_map.mp hn
    exact (List.Pairwise.and hs hne).imp (fun h => lt_of_le_of_ne h.1 (Ne.symm h.2))
  have hd2 : (l2.map (fun u => u.coins)).Nodup := ((hp.map (fun u => u.coins)).nodup_iff).mp hd
  apply List.eq_of_perm_of_sorted _ (strict l1 hd) (strict l2 hd2)
  exact ((List.perm_insertionSort _ l1).trans hp).trans (List.perm_insertionSort _ l2).symm

theorem rankedByCoins_perm (db1 db2 : Db) (hp : db1.users.Perm db2.users)
    (hd : (db1.users.map (fun u => u.coins)).Nodup) :
    rankedByCoins db1 = rankedByCoins db2 := by
  unfold rankedByCoins
  rw [sorted_by_coins_unique _ _ (hp.filter _)
    (((List.filter_sublist db1.users).map (fun u => u.coins)).nodup hd)]

/-- Where no two accounts have equal balances the order of storage plays no part: the
coins leaderboard and the rank of the requesting account are the same for every storage
order of the same accounts. -/
theorem coins_leaderboard_of_distinct_balances (db1 db2 : Db) (userId limit : ℕ)
    (hp : db1.users.Perm db2.users)
    (hd : (db1.users.map (fun u => u.coins)).Nodup) :
    coinsLeaderboard db1 userId limit = coinsLeaderboard db2 userId limit := by
  unfold coinsLeaderboard
  rw [rankedByCoins_perm db1 db2 hp hd]

theorem coins_leaderboard_of_distinct_balances_witness :
    sampleDb.users.Perm sampleDbSwapped.users ∧
    (sampleDb.users.map (fun u => u.coins)).Nodup ∧
    coinsLeaderboard sampleDb 2 50 = coinsLeaderboard sampleDbSwapped 2 50 ∧
    coinsLeaderboard sampleDbSwapped 2 50 =
      { leaderboard :=
          [{ id := 1, coins := 100, level := 1, prestige_level := 0, rank := 1 },
           { id := 2, coins := 5, level := 1, prestige_level := 0, rank := 2 }]
        userRank := some 2 } := by
  have hp : sampleDb.users.Perm sampleDbSwapped.users := List.Perm.swap _ _ _
  have hd : (sampleDb.users.map (fun u => u.coins)).Nodup := by
    simp [sampleDb, alice, bob]
  refine ⟨hp, hd, coins_leaderboard_of_distinct_balances sampleDb sampleDbSwapped 2 50 hp hd,
    ?_⟩
  simp [coinsLeaderboard, rankedByCoins, sampleDbSwapped, alice, bob, List.enum,
    List.enumFrom]
  norm_num

/-- The coins leaderboard is in descending order of `coins`, for every storage order. -/
theorem coins_leaderboard_descending (db : Db) (userId limit : ℕ) :
    (coinsLeaderboard db userId limit).leaderboard.Sorted (fun a b => a.coins ≥ b.coins) := by
  haveI : IsTotal LeaderboardRow (fun a b => a.coins ≥ b.coins) :=
    ⟨fun a b => le_total b.coins a.coins⟩
  haveI : IsTrans LeaderboardRow (fun a b => a.coins ≥ b.coins) :=
    ⟨fun a b c hab hbc => le_trans hbc hab⟩
  unfold coinsLeaderboard
  exact (List.sorted_insertionSort (fun a b : LeaderboardRow => a.coins ≥ b.coins) _).sublist
    (List.take_sublist _ _)

/-! ## Monotonicity of the cost curve -/

theorem jsRound_mono {x y : ℚ} (h : x ≤ y) : jsRound x ≤ jsRound y := by
  unfold jsRound
  exact Int.floor_le_floor (by linarith)

theorem curve_mono (base mult : ℚ) (L : ℕ) (hb : 0 ≤ base) (hm : 1 ≤ mult) :
    base * mult ^ L ≤ base * mult ^ (L + 1) := by
  have h0 : (0 : ℚ) ≤ mult ^ L := pow_nonneg (by linarith) L
  have h1 : mult ^ L ≤ mult ^ (L + 1) := by
    rw [pow_succ]
    nlinarith
  exact mul_le_mul_of_nonneg_left h1 hb

/-- C30: for a base cost `≥ 0` and a cost multiplier `≥ 1` the cost charged by a purchase,
`Math.round(base_cost * cost_multiplier ^ L)`, does not decrease from level `L` to level
`L + 1`, for an upgrade and for a business. -/
theorem purchase_cost_nondecreasing (base mult : ℚ) (L : ℕ) (hb : 0 ≤ base)
    (hm : 1 ≤ mult) :
    jsRound (base * mult ^ L) ≤ jsRound (base * mult ^ (L + 1)) ∧
    (∀ upgrade : Upgrade, upgrade.base_cost = base → upgrade.cost_multiplier = mult →
      upgradeCost upgrade L ≤ upgradeCost upgrade (L + 1)) ∧
    (∀ business : Business, business.base_cost = base → business.cost_multiplier = mult →
      businessCost business L ≤ businessCost business (L + 1)) := by
  refine ⟨jsRound_mono (curve_mono base mult L hb hm), ?_, ?_⟩
  · intro g h1 h2
    unfold upgradeCost
    rw [h1, h2]
    exact jsRound_mono (costProduct_mono base mult L hb hm)
  · intro b h1 h2
    unfold businessCost
    rw [h1, h2]
    exact jsRound_mono (costProduct_mono base mult L hb hm)

theorem purchase_cost_nondecreasing_witness :
    (0 : ℚ) ≤ cursor.base_cost ∧ (1 : ℚ) ≤ cursor.cost_multiplier ∧
    upgradeCost cursor 1 ≤ upgradeCost cursor 2 ∧
    businessCost stand 1 ≤ businessCost stand 2 := by
  have hb : (0 : ℚ) ≤ 15 := by norm_num
  have hm : (1 : ℚ) ≤ 23 / 20 := by norm_num
  have h := purchase_cost_nondecreasing 15 (23 / 20) 1 hb hm
  exact ⟨hb, hm, h.2.1 cursor rfl rfl, h.2.2 stand rfl rfl⟩

/-! ## A click and the idle settlement -/

theorem collectAuto_same_instant (db : Db) (userId : ℕ) (nowMs : ℤ) (user : User)
    (rest : List User) (hs : selectUser db userId = user :: rest)
    (ht : user.last_active = sqlNow nowMs) :
    (collectAuto db userId nowMs).db = db ∧
    ∃ resp, (collectAuto db userId nowMs).result = .ok resp ∧ resp.earned = 0 := by
  by_cases hr : 0 < user.auto_income
  · rw [collectAuto_of_pos db userId nowMs user rest hs hr, ht, autoEarned_same_instant]
    exact ⟨by simp, _, rfl, rfl⟩
  · rw [collectAuto_of_nonpos db userId nowMs user rest hs (not_lt.mp hr)]
    exact ⟨rfl, _, rfl, rfl⟩

/-- C29: a click sets `last_active` of the account to the instant of the click; it logs
and credits the click income (and the rewards of achievements) only, no idle income; an
idle settlement at that same instant then answers `earned = 0` and changes nothing,
whatever `last_active` and `auto_income` the account had before the click. -/
theorem click_resets_idle_accrual (db : Db) (userId : ℕ) (n nowMs : ℤ) (user : User)
    (rest : List User) (hs : selectUser db userId = user :: rest)
    (hx : 0 ≤ user.experience + n) :
    ∃ (stored : User) (L : ℕ),
      (selectUser (click db userId n nowMs).db userId).head? = some stored ∧
      stored.last_active = sqlNow nowMs ∧
      stored.auto_income = user.auto_income ∧
      stored.coins = user.coins + user.click_power * n +
        rewardCoins (pendingAchievements db userId)
          { clicks := user.total_clicks + n, coins := user.coins + user.click_power * n,
            level := L } ∧
      (click db userId n nowMs).db.transactions = db.transactions ++
        [{ from_user_id := none, to_user_id := some userId,
           amount := user.click_power * n, type := .click_income }] ∧
      (collectAuto (click db userId n nowMs).db userId nowMs).db
        = (click db userId n nowMs).db ∧
      ∃ resp, (collectAuto (click db userId n nowMs).db userId nowMs).result = .ok resp ∧
        resp.earned = 0 := by
  obtain ⟨L, hL, -, -, -⟩ := levelOfExperience_spec (user.experience + n) hx
  have hsel := selectUser_click db userId n nowMs user rest L hs hL
  have hclick := click_of_level db userId n nowMs user rest L hs hL
  obtain ⟨rest', hs'⟩ : ∃ rest', selectUser (click db userId n nowMs).db userId = _ :: rest' := by
    cases hc : selectUser (click db userId n nowMs).db userId with
    | nil => rw [hc] at hsel; simp at hsel
    | cons a l =>
      rw [hc] at hsel
      simp only [List.head?_cons, Option.some.injEq] at hsel
      exact ⟨l, by rw [hsel]⟩
  have hidle := collectAuto_same_instant (click db userId n nowMs).db userId nowMs _ rest' hs' rfl
  refine ⟨_, L, hsel, rfl, rfl, rfl, ?_, hidle.1, hidle.2⟩
  rw [hclick]
  simp only [checkAchievements]
  rw [foldl_award_transactions]
  rfl

theorem idleDb_select : selectUser idleDb 4 = [investor] := by
  simp [selectUser, idleDb, investor, alice]

theorem click_resets_idle_accrual_witness :
    selectUser idleDb 4 = [investor] ∧ investor.last_active = 0 ∧
    investor.auto_income = 7 / 2 ∧
    ∃ stored, (selectUser (click idleDb 4 1 3600000000).db 4).head? = some stored ∧
      stored.last_active = 3600000 ∧
      ∃ resp, (collectAuto (click idleDb 4 1 3600000000).db 4 3600000000).result = .ok resp ∧
        resp.earned = 0 := by
  obtain ⟨stored, L, h1, h2, -, -, -, -, h3⟩ :=
    click_resets_idle_accrual idleDb 4 1 3600000000 investor [] idleDb_select
      (by simp [investor, alice])
  refine ⟨idleDb_select, rfl, rfl, stored, h1, ?_, h3⟩
  rw [h2]
  simp [sqlNow]

/-! ## Values a click answers and stores -/

theorem levelOfExperience_9800 : levelOfExperience 9800 = some 10 := by
  have h1 : ¬ ((9800 : ℚ) / 100 < 0) := by norm_num
  have h2 : ⌊(9800 : ℚ) / 100⌋ = 98 := by
    rw [Int.floor_eq_iff]
    norm_num
  have h3 : Nat.sqrt 98 = 9 := (Nat.eq_sqrt.mpr ⟨by norm_num, by norm_num⟩).symm
  simp [levelOfExperience, jsFloorSqrt, h1, h2, h3]

theorem veteranDb_select : selectUser veteranDb 3 = [veteran] := by
  simp [selectUser, veteranDb, veteran, alice]

theorem veteranDb_pending : pendingAchievements veteranDb 3 = [] := by
  simp [pendingAchievements, veteranDb]

/-- C24, evaluated where it fails: a click request that carries the click count `-100` is
accepted for an account with 9900 experience, 0 total clicks and 0 total earned; after it
the account has 9800 experience, -100 total clicks and -100 total earned, each less than
before. -/
theorem negative_click_count_lowers_totals :
    selectUser veteranDb 3 = [veteran] ∧
    veteran.experience = 9900 ∧ veteran.total_clicks = 0 ∧ veteran.total_earned = 0 ∧
    (click veteranDb 3 (-100) 0).result = .ok
      { earnedCoins := -100, newLevel := some 10, totalCoins := 0, experience := 9800,
        level := 10 } ∧
    ∃ stored, (selectUser (click veteranDb 3 (-100) 0).db 3).head? = some stored ∧
      stored.experience = 9800 ∧ stored.total_clicks = -100 ∧ stored.total_earned = -100 ∧
      stored.experience < veteran.experience ∧ stored.total_clicks < veteran.total_clicks ∧
      stored.total_earned < veteran.total_earned := by
  have hL : levelOfExperience (veteran.experience + -100) = some 10 := by
    have : veteran.experience + -100 = 9800 := by simp [veteran, alice]
    rw [this]
    exact levelOfExperience_9800
  have hsel := selectUser_click veteranDb 3 (-100) 0 veteran [] 10 veteranDb_select hL
  have hclick := click_of_level veteranDb 3 (-100) 0 veteran [] 10 veteranDb_select hL
  refine ⟨veteranDb_select, rfl, rfl, rfl, ?_, _, hsel, ?_, ?_, ?_, ?_, ?_, ?_⟩
  · rw [hclick]
    simp [veteran, alice]
  all_goals simp [addReward, veteran, alice]

/-- For a click count `n ≥ 0` and a click power `≥ 0` the totals and the experience do
not decrease. -/
theorem click_totals_monotone_of_nonneg (db : Db) (userId : ℕ) (n nowMs : ℤ) (user : User)
    (rest : List User) (hs : selectUser db userId = user :: rest) (hn : 0 ≤ n)
    (hx : 0 ≤ user.experience) (hp : 0 ≤ user.click_power) :
    ∃ stored, (selectUser (click db userId n nowMs).db userId).head? = some stored ∧
      user.experience ≤ stored.experience ∧ user.total_clicks ≤ stored.total_clicks ∧
      user.total_earned ≤ stored.total_earned := by
  obtain ⟨L, hL, -, -, -⟩ := levelOfExperience_spec (user.experience + n) (by omega)
  refine ⟨_, selectUser_click db userId n nowMs user rest L hs hL, ?_, ?_, ?_⟩
  · show user.experience ≤ user.experience + n
    omega
  · show user.total_clicks ≤ user.total_clicks + n
    omega
  · show user.total_earned ≤ user.total_earned + user.click_power * n
    have : (0 : ℚ) ≤ (n : ℚ) := by exact_mod_cast hn
    nlinarith [mul_nonneg hp this]

theorem levelOfExperience_one : levelOfExperience 1 = some 1 := by
  have h1 : ¬ ((1 : ℚ) / 100 < 0) := by norm_num
  have h2 : ⌊(100 : ℚ)⁻¹⌋ = 0 := by
    rw [Int.floor_eq_iff]
    norm_num
  simp [levelOfExperience, jsFloorSqrt, h2]

theorem rewardDb_select : selectUser rewardDb 1 = [alice] := by
  simp [selectUser, rewardDb, alice]

theorem rewardDb_pending : pendingAchievements rewardDb 1 = [firstClick] := by
  simp [pendingAchievements, rewardDb]

theorem rewardDb_rewards :
    rewardCoins [firstClick] { clicks := 1, coins := 101, level := 1 } = 50 ∧
    rewardGems [firstClick] { clicks := 1, coins := 101, level := 1 } = 1 := by
  have h : rewarded firstClick { clicks := 1, coins := 101, level := 1 } = true := by
    simp [rewarded, achievementEarned, firstClick]
  constructor
  · simp only [rewardCoins, List.filter_cons, h, if_true, List.filter_nil, List.map_cons,
      List.map_nil, List.sum_cons, List.sum_nil]
    simp [firstClick]
  · simp only [rewardGems, List.filter_cons, h, if_true, List.filter_nil, List.map_cons,
      List.map_nil, List.sum_cons, List.sum_nil]
    simp [firstClick]

theorem click_rewardDb_stored :
    (selectUser (click rewardDb 1 1 0).db 1).head? = some
      { alice with coins := 151, gems := 1, experience := 1, level := 1, total_clicks := 1,
                   total_earned := 1, last_active := 0 } := by
  have hL : levelOfExperience (alice.experience + 1) = some 1 := levelOfExperience_one
  rw [selectUser_click rewardDb 1 1 0 alice [] 1 rewardDb_select hL, rewardDb_pending]
  have h1 : alice.total_clicks + 1 = 1 := rfl
  have h2 : alice.coins + alice.click_power * ((1 : ℤ) : ℚ) = 101 := by
    norm_num [alice]
  rw [h1, h2, rewardDb_rewards.1, rewardDb_rewards.2]
  simp [addReward, alice, sqlNow]
  norm_num

theorem click_rewardDb_result :
    (click rewardDb 1 1 0).result = .ok
      { earnedCoins := 1, newLevel := none, totalCoins := 101, experience := 1, level := 1 } := by
  have hL : levelOfExperience (alice.experience + 1) = some 1 := levelOfExperience_one
  rw [click_of_level rewardDb 1 1 0 alice [] 1 rewardDb_select hL]
  simp [alice]
  norm_num

theorem click_rewardDb_transactions :
    (click rewardDb 1 1 0).db.transactions
      = [{ from_user_id := none, to_user_id := some 1, amount := 1, type := .click_income }] := by
  have hL : levelOfExperience (alice.experience + 1) = some 1 := levelOfExperience_one
  rw [click_of_level rewardDb 1 1 0 alice [] 1 rewardDb_select hL]
  simp only [checkAchievements]
  rw [foldl_award_transactions]
  simp [insertTransaction, clickUpdate, updateUser, rewardDb, alice]

/-- C27, evaluated where it fails: `alice` has 100 coins and click power 1, and her first
click earns the achievement rewarded with 50 coins. The click answers
`totalCoins = 101`; the balance stored when the call has completed is 151. -/
theorem click_total_coins_omits_rewards :
    coinsOf rewardDb 1 = some 100 ∧
    (click rewardDb 1 1 0).result = .ok
      { earnedCoins := 1, newLevel := none, totalCoins := 101, experience := 1, level := 1 } ∧
    coinsOf (click rewardDb 1 1 0).db 1 = some 151 := by
  refine ⟨by simp [coinsOf, rewardDb_select, alice], click_rewardDb_result, ?_⟩
  unfold coinsOf
  rw [click_rewardDb_stored]
  rfl

/-! ## Transaction records -/

theorem awardAchievement_user_achievements (userId : ℕ) (stats : Stats) (db : Db)
    (a : Achievement) :
    (awardAchievement userId stats db a).user_achievements
      = db.user_achievements ++
        (if achievementEarned a stats then [{ user_id := userId, achievement_id := a.id }]
         else []) := by
  unfold awardAchievement
  by_cases he : achievementEarned a stats = true
  · simp only [he, if_true]
    split_ifs <;> rfl
  · simp only [he, if_false]
    simp

theorem awardAchievement_achievements (userId : ℕ) (stats : Stats) (db : Db)
    (a : Achievement) :
    (awardAchievement userId stats db a).achievements = db.achievements := by
  unfold awardAchievement
  split_ifs <;> rfl

theorem foldl_award_achievements (userId : ℕ) (stats : Stats) (as : List Achievement) :
    ∀ db : Db, (as.foldl (awardAchievement userId stats) db).achievements = db.achievements := by
  induction as with
  | nil => intro db; rfl
  | cons a as ih =>
    intro db
    rw [List.foldl_cons, ih, awardAchievement_achievements]

/-- The rows the achievement check adds to `user_achievements`: one for each achievement
of the list whose metric is met, in the order of the list. -/
theorem foldl_award_user_achievements (userId : ℕ) (stats : Stats) (as : List Achievement) :
    ∀ db : Db, (as.foldl (awardAchievement userId stats) db).user_achievements
      = db.user_achievements ++
        (as.filter (fun a => achievementEarned a stats)).map
          (fun a => { user_id := userId, achievement_id := a.id }) := by
  induction as with
  | nil => intro db; simp
  | cons a as ih =>
    intro db
    rw [List.foldl_cons, ih, awardAchievement_user_achievements]
    by_cases he : achievementEarned a stats = true
    · simp [he, List.filter_cons]
    · simp [he, List.filter_cons]

theorem click_user_achievements (db : Db) (userId : ℕ) (n nowMs : ℤ) (user : User)
    (rest : List User) (L : ℕ) (hs : selectUser db userId = user :: rest)
    (hL : levelOfExperience (user.experience + n) = some L) :
    (click db userId n nowMs).db.user_achievements
      = db.user_achievements ++
        ((pendingAchievements db userId).filter (fun a => achievementEarned a
          { clicks := user.total_clicks + n, coins := user.coins + user.click_power * n,
            level := L })).map
          (fun a => { user_id := userId, achievement_id := a.id }) := by
  rw [click_of_level db userId n nowMs user rest L hs hL]
  simp only [checkAchievements]
  rw [foldl_award_user_achievements]
  rfl

/-- C21, evaluated where it fails: the first click of `alice` credits 1 coin of click
income and the 50 coins of the achievement it earns, so the balance goes from 100 to 151
and the achievement is recorded; the transaction log gains the single record of the click
income of 1, and no record for the reward credit of 50. -/
theorem achievement_reward_appends_no_transaction :
    coinsOf rewardDb 1 = some 100 ∧
    coinsOf (click rewardDb 1 1 0).db 1 = some 151 ∧
    (click rewardDb 1 1 0).db.user_achievements = [{ user_id := 1, achievement_id := 1 }] ∧
    rewardDb.transactions = [] ∧
    (click rewardDb 1 1 0).db.transactions
      = [{ from_user_id := none, to_user_id := some 1, amount := 1, type := .click_income }] := by
  have hL : levelOfExperience (alice.experience + 1) = some 1 := levelOfExperience_one
  refine ⟨by simp [coinsOf, rewardDb_select, alice], ?_, ?_, rfl, click_rewardDb_transactions⟩
  · unfold coinsOf
    rw [click_rewardDb_stored]
    rfl
  · rw [click_user_achievements rewardDb 1 1 0 alice [] 1 rewardDb_select hL, rewardDb_pending]
    have he : achievementEarned firstClick
        { clicks := alice.total_clicks + 1, coins := alice.coins + alice.click_power * ((1 : ℤ) : ℚ),
          level := 1 } = true := by
      simp [achievementEarned, firstClick, alice]
    simp only [List.filter_cons, he, if_true, List.filter_nil, List.map_cons, List.map_nil]
    simp [rewardDb, firstClick]

theorem commitUpgradePurchase_transactions (db : Db) (userId upgradeId : ℕ)
    (upgrade : Upgrade) (rows : List UserUpgrade) (cost : ℤ) :
    (commitUpgradePurchase db userId upgradeId upgrade rows cost).transactions
      = db.transactions ++
        [{ from_user_id := some userId, to_user_id := none, amount := cost,
           type := .purchase }] := by
  unfold commitUpgradePurchase applyUpgradeEffect raiseUpgrade
  cases upgrade.type <;> simp only <;> split_ifs <;> rfl

theorem commitBusinessPurchase_transactions (db : Db) (userId businessId : ℕ)
    (rows : List UserBusiness) (d : ℤ) (cost : ℤ) :
    (commitBusinessPurchase db userId businessId rows d cost).transactions
      = db.transactions ++
        [{ from_user_id := some userId, to_user_id := none, amount := cost,
           type := .purchase }] := by
  unfold commitBusinessPurchase raiseBusiness
  simp only
  split_ifs <;> rfl

/-- The handlers themselves append exactly one record when they succeed: the purchases,
the transfer (one record that names both accounts), the prestige, the collection of
business income, and the idle settlement when `earned > 0`. -/
theorem successful_calls_append_one_record (db : Db) (userId itemId recipientId : ℕ)
    (amount : ℚ) (d nowMs : ℤ) :
    (∀ r, (purchaseUpgrade db userId itemId).result = .ok r →
      (purchaseUpgrade db userId itemId).db.transactions = db.transactions ++
        [{ from_user_id := some userId, to_user_id := none, amount := r.cost,
           type := .purchase }]) ∧
    (∀ r, (purchaseBusiness db userId itemId d).result = .ok r →
      (purchaseBusiness db userId itemId d).db.transactions = db.transactions ++
        [{ from_user_id := some userId, to_user_id := none, amount := r.cost,
           type := .purchase }]) ∧
    (∀ r, (transfer db userId recipientId amount).result = .ok r →
      (transfer db userId recipientId amount).db.transactions = db.transactions ++
        [{ from_user_id := some userId, to_user_id := some recipientId, amount := amount,
           type := .transfer }]) ∧
    (∀ r, (prestige db userId).result = .ok r →
      (prestige db userId).db.transactions = db.transactions ++
        [{ from_user_id := none, to_user_id := some userId, amount := 1000,
           type := .reward }]) ∧
    (∀ r, (collectBusiness db userId itemId nowMs).result = .ok r →
      (collectBusiness db userId itemId nowMs).db.transactions = db.transactions ++
        [{ from_user_id := none, to_user_id := some userId, amount := r.income,
           type := .business_income }]) ∧
    (∀ r, (collectAuto db userId nowMs).result = .ok r →
      (collectAuto db userId nowMs).db.transactions =
        if r.earned > 0 then
          db.transactions ++
            [{ from_user_id := none, to_user_id := some userId, amount := r.earned,
               type := .business_income }]
        else db.transactions) := by
  refine ⟨?_, ?_, ?_, ?_, ?_, ?_⟩
  · intro r h
    obtain ⟨g, gs, u, us, -, -, -, -, hr, hdb⟩ := purchaseUpgrade_ok_inv db userId itemId r h
    rw [hdb, commitUpgradePurchase_transactions, hr]
  · intro r h
    obtain ⟨b, bs, u, us, -, -, -, -, hr, hdb⟩ := purchaseBusiness_ok_inv db userId itemId d r h
    rw [hdb, commitBusinessPurchase_transactions, hr]
  · intro r h
    obtain ⟨-, -, -, -, -, hdb⟩ := transfer_ok_inv db userId recipientId amount r h
    rw [hdb]
    rfl
  · intro r h
    cases hs : selectUser db userId with
    | nil =>
      unfold prestige at h
      simp [hs] at h
    | cons user rest =>
      have hp := prestige_of_level db userId user rest hs
      by_cases hl : user.level < 50
      · rw [hp, if_pos hl] at h
        simp at h
      · rw [hp, if_neg hl]
        rfl
  · intro r h
    cases hs : selectOwnedBusiness db userId itemId with
    | nil =>
      unfold collectBusiness at h
      simp [hs] at h
    | cons p rest =>
      obtain ⟨ub, b⟩ := p
      have hc := collectBusiness_of_rows db userId itemId nowMs ub b rest hs
      by_cases ht : timeDiff nowMs ub.last_collected < b.income_time
      · rw [hc, if_pos ht] at h
        simp at h
      · rw [hc, if_neg ht] at h ⊢
        simp only [Except.ok.injEq] at h
        rw [← h]
        rfl
  · intro r h
    cases hs : selectUser db userId with
    | nil =>
      unfold collectAuto at h
      simp [hs] at h
    | cons user rest =>
      by_cases hr : 0 < user.auto_income
      · rw [collectAuto_of_pos db userId nowMs user rest hs hr] at h ⊢
        simp only [Except.ok.injEq] at h
        rw [← h]
        by_cases he : autoEarned user.auto_income nowMs user.last_active > 0
        · simp only [he, if_true]
          rfl
        · simp only [he, if_false]
      · rw [collectAuto_of_nonpos db userId nowMs user rest hs (not_lt.mp hr)] at h ⊢
        simp only [Except.ok.injEq] at h
        rw [← h]
        simp

/-- C28, evaluated where it fails: an account of level 50, prestige level 0 and 0
prestige points prestiges. The answer carries `prestigeLevel = 1`, a `prestigePoints` that
is `NaN` (the handler never selected `prestige_points`) and the bonuses `clickPower = 3`,
`autoIncome = 5`; the stored account has prestige level 1, 5 prestige points,
`click_power = 1` and `auto_income = 0`. -/
theorem prestige_response_disagrees_with_stored_account :
    (prestige championDb 5).result = .ok
      { prestigeLevel := 1, prestigePoints := none,
        bonuses := { clickPower := 3, autoIncome := 5, startingCoins := 1000 } } ∧
    ∃ stored, (selectUser (prestige championDb 5).db 5).head? = some stored ∧
      stored.prestige_level = 1 ∧ stored.prestige_points = 5 ∧
      stored.click_power = 1 ∧ stored.auto_income = 0 := by
  have hl : ¬ champion.level < 50 := by simp [champion]
  have hp := prestige_of_level championDb 5 champion [] championDb_select
  rw [if_neg hl] at hp
  refine ⟨?_, prestigeUpdate (champion.level / 10) champion, ?_, rfl, ?_, ?_, ?_⟩
  · rw [hp]
    simp [champion]
    norm_num
  · rw [hp, selectUser_commitPrestige, championDb_select]
    rfl
  · norm_num [prestigeUpdate, champion]
  · simp [prestigeUpdate, champion]
  · simp [prestigeUpdate, champion]

/-! ## The achievement check run twice -/

theorem foldl_award_of_none_earned (userId : ℕ) (stats : Stats) (as : List Achievement)
    (h : ∀ a ∈ as, achievementEarned a stats = false) (db : Db) :
    as.foldl (awardAchievement userId stats) db = db := by
  induction as with
  | nil => rfl
  | cons a as ih =>
    have ha : achievementEarned a stats = false := h a (List.mem_cons_self _ _)
    have hstep : awardAchievement userId stats db a = db := by
      unfold awardAchievement
      simp [ha]
    rw [List.foldl_cons, hstep]
    exact ih (fun b hb => h b (List.mem_cons_of_mem _ hb))

theorem mem_pendingAchievements (db : Db) (userId : ℕ) (a : Achievement) :
    a ∈ pendingAchievements db userId ↔
      a ∈ db.achievements ∧
      ∀ ua ∈ db.user_achievements, ¬ (a.id = ua.achievement_id ∧ ua.user_id = userId) := by
  unfold pendingAchievements
  rw [List.mem_filter, List.isEmpty_iff, List.filter_eq_nil_iff]
  simp only [decide_eq_true_eq]

theorem checkAchievements_tables (db : Db) (userId : ℕ) (stats : Stats) :
    (checkAchievements db userId stats).achievements = db.achievements ∧
    (checkAchievements db userId stats).user_achievements
      = db.user_achievements ++
        ((pendingAchievements db userId).filter (fun a => achievementEarned a stats)).map
          (fun a => { user_id := userId, achievement_id := a.id }) := by
  unfold checkAchievements
  exact ⟨foldl_award_achievements userId stats _ db,
    foldl_award_user_achievements userId stats _ db⟩

theorem pending_after_check_not_earned (db : Db) (userId : ℕ) (stats : Stats) :
    ∀ a ∈ pendingAchievements (checkAchievements db userId stats) userId,
      achievementEarned a stats = false := by
  intro a ha
  obtain ⟨h1, h2⟩ := checkAchievements_tables db userId stats
  rw [mem_pendingAchievements, h1, h2] at ha
  obtain ⟨hmem, hnone⟩ := ha
  by_contra he
  have he' : achievementEarned a stats = true := by simpa using he
  have hpend : a ∈ pendingAchievements db userId := by
    rw [mem_pendingAchievements]
    exact ⟨hmem, fun ua hua => hnone ua (List.mem_append_left _ hua)⟩
  have hrow : ({ user_id := userId, achievement_id := a.id } : UserAchievement) ∈
      ((pendingAchievements db userId).filter (fun a => achievementEarned a stats)).map
        (fun a => { user_id := userId, achievement_id := a.id }) :=
    List.mem_map.mpr ⟨a, List.mem_filter.mpr ⟨hpend, he'⟩, rfl⟩
  exact hnone _ (List.mem_append_right _ hrow) ⟨rfl, rfl⟩

theorem selectUser_checkAchievements (db : Db) (userId : ℕ) (stats : Stats) :
    selectUser (checkAchievements db userId stats) userId
      = (selectUser db userId).map
          (addReward (rewardCoins (pendingAchievements db userId) stats)
            (rewardGems (pendingAchievements db userId) stats)) := by
  unfold checkAchievements
  exact selectUser_foldl_award userId stats _ db

theorem checkAchievements_nodup (db : Db) (userId : ℕ) (stats : Stats)
    (hkey : (db.achievements.map (fun a => a.id)).Nodup)
    (hrows : db.user_achievements.Nodup) :
    (checkAchievements db userId stats).user_achievements.Nodup := by
  rw [(checkAchievements_tables db userId stats).2, List.nodup_append]
  refine ⟨hrows, ?_, ?_⟩
  · have hsub : ((pendingAchievements db userId).filter
        (fun a => achievementEarned a stats)).Sublist db.achievements :=
      (List.filter_sublist _).trans (List.filter_sublist _)
    have hids : (((pendingAchievements db userId).filter
        (fun a => achievementEarned a stats)).map (fun a => a.id)).Nodup :=
      (hsub.map (fun a => a.id)).nodup hkey
    have hinj : Function.Injective
        (fun i : ℕ => ({ user_id := userId, achievement_id := i } : UserAchievement)) := by
      intro i j hij
      exact congrArg UserAchievement.achievement_id hij
    have := hids.map hinj
    rwa [List.map_map] at this
  · intro row hold hnew
    obtain ⟨a, ha, rfl⟩ := List.mem_map.mp hnew
    have hpend := (List.mem_filter.mp ha).1
    exact ((mem_pendingAchievements db userId a).mp hpend).2 _ hold ⟨rfl, rfl⟩

/-- C22: the achievement check considers only the achievements for which the account has
no row in `user_achievements`: the rows it adds and the rewards it credits are those of
such achievements whose metric is met. Run a second time with the same stats it changes
nothing (no row, no credit). When the achievement ids are unique (the primary key) and
the earned rows are without duplicates, they are without duplicates after the check. -/
theorem achievement_check_idempotent (db : Db) (userId : ℕ) (stats : Stats) :
    (∀ a ∈ pendingAchievements db userId,
      ∀ ua ∈ db.user_achievements, ¬ (ua.user_id = userId ∧ ua.achievement_id = a.id)) ∧
    (checkAchievements db userId stats).user_achievements
      = db.user_achievements ++
        ((pendingAchievements db userId).filter (fun a => achievementEarned a stats)).map
          (fun a => { user_id := userId, achievement_id := a.id }) ∧
    selectUser (checkAchievements db userId stats) userId
      = (selectUser db userId).map
          (addReward (rewardCoins (pendingAchievements db userId) stats)
            (rewardGems (pendingAchievements db userId) stats)) ∧
    checkAchievements (checkAchievements db userId stats) userId stats
      = checkAchievements db userId stats ∧
    ((db.achievements.map (fun a => a.id)).Nodup → db.user_achievements.Nodup →
      (checkAchievements db userId stats).user_achievements.Nodup) := by
  refine ⟨?_, (checkAchievements_tables db userId stats).2,
    selectUser_checkAchievements db userId stats, ?_,
    checkAchievements_nodup db userId stats⟩
  · intro a ha ua hua h
    exact ((mem_pendingAchievements db userId a).mp ha).2 ua hua ⟨h.2.symm, h.1⟩
  · have h := foldl_award_of_none_earned userId stats
      (pendingAchievements (checkAchievements db userId stats) userId)
      (pending_after_check_not_earned db userId stats) (checkAchievements db userId stats)
    exact h

theorem achievement_check_idempotent_witness :
    (checkAchievements rewardDb 1 { clicks := 1, coins := 101, level := 1 }).user_achievements
      = [{ user_id := 1, achievement_id := 1 }] ∧
    coinsOf (checkAchievements rewardDb 1 { clicks := 1, coins := 101, level := 1 }) 1
      = some 150 ∧
    checkAchievements (checkAchievements rewardDb 1 { clicks := 1, coins := 101, level := 1 })
        1 { clicks := 1, coins := 101, level := 1 }
      = checkAchievements rewardDb 1 { clicks := 1, coins := 101, level := 1 } ∧
    (checkAchievements rewardDb 1
      { clicks := 1, coins := 101, level := 1 }).user_achievements.Nodup := by
  obtain ⟨-, h2, h3, h4, h5⟩ :=
    achievement_check_idempotent rewardDb 1 { clicks := 1, coins := 101, level := 1 }
  have he : achievementEarned firstClick { clicks := 1, coins := 101, level := 1 } = true := by
    simp [achievementEarned, firstClick]
  have hrows : (checkAchievements rewardDb 1
      { clicks := 1, coins := 101, level := 1 }).user_achievements
      = [{ user_id := 1, achievement_id := 1 }] := by
    rw [h2, rewardDb_pending]
    simp only [List.filter_cons, he, if_true, List.filter_nil, List.map_cons, List.map_nil]
    simp [rewardDb, firstClick]
  refine ⟨hrows, ?_, h4, h5 (by simp [rewardDb]) (by simp [rewardDb])⟩
  unfold coinsOf
  rw [h3, rewardDb_select, rewardDb_pending, rewardDb_rewards.1, rewardDb_rewards.2]
  simp [addReward, alice]
  norm_num

/-! ## Achievements after an operation -/

theorem spenderDb_select : selectUser spenderDb 7 = [spender] := by
  simp [selectUser, spenderDb, spender, champion]

theorem chainDb_select : selectUser chainDb 1 = [alice] := by
  simp [selectUser, chainDb, rewardDb, alice]

theorem chainDb_pending : pendingAchievements chainDb 1 = [firstClick, rich] := by
  simp [pendingAchievements, chainDb, rewardDb]

theorem chainDb_earned :
    achievementEarned firstClick { clicks := 1, coins := 101, level := 1 } = true ∧
    achievementEarned rich { clicks := 1, coins := 101, level := 1 } = false := by
  constructor
  · simp [achievementEarned, firstClick]
  · simp [achievementEarned, rich]
    norm_num

/-- C23, as stated, fails. Only the click evaluates achievements, and it evaluates them
once, on the balance of before the rewards. A prestige brings an account from 10 to 1000
coins: the achievement for 1000 coins is met by the account after the call and is not in
its earned set. A click brings `alice` to 151 coins, 50 of them the reward of her first
click: the achievement for 150 coins is met by the account after the call and is not in
her earned set. -/
theorem met_achievements_left_unrecorded :
    ((∃ r, (prestige spenderDb 7).result = .ok r) ∧
      coinsOf spenderDb 7 = some 10 ∧
      coinsOf (prestige spenderDb 7).db 7 = some 1000 ∧
      thousandCoins ∈ (prestige spenderDb 7).db.achievements ∧
      achievementEarned thousandCoins { clicks := 240100, coins := 1000, level := 1 } = true ∧
      (prestige spenderDb 7).db.user_achievements = []) ∧
    ((∃ r, (click chainDb 1 1 0).result = .ok r) ∧
      coinsOf (click chainDb 1 1 0).db 1 = some 151 ∧
      rich ∈ (click chainDb 1 1 0).db.achievements ∧
      achievementEarned rich { clicks := 1, coins := 151, level := 1 } = true ∧
      (click chainDb 1 1 0).db.user_achievements
        = [{ user_id := 1, achievement_id := 1 }]) := by
  have hl : ¬ spender.level < 50 := by simp [spender, champion]
  have hp := prestige_of_level spenderDb 7 spender [] spenderDb_select
  rw [if_neg hl] at hp
  have hL : levelOfExperience (alice.experience + 1) = some 1 := levelOfExperience_one
  have hclick := click_of_level chainDb 1 1 0 alice [] 1 chainDb_select hL
  have hsel := selectUser_click chainDb 1 1 0 alice [] 1 chainDb_select hL
  have hua := click_user_achievements chainDb 1 1 0 alice [] 1 chainDb_select hL
  have h1 : alice.total_clicks + 1 = 1 := rfl
  have h2 : alice.coins + alice.click_power * ((1 : ℤ) : ℚ) = 101 := by norm_num [alice]
  rw [chainDb_pending, h1, h2] at hsel hua
  refine ⟨⟨⟨_, by rw [hp]⟩, ?_, ?_, ?_, ?_, ?_⟩, ⟨⟨_, by rw [hclick]⟩, ?_, ?_, ?_, ?_⟩⟩
  · simp [coinsOf, spenderDb_select, spender]
  · unfold coinsOf
    rw [hp, selectUser_commitPrestige, spenderDb_select]
    rfl
  · rw [hp]
    exact List.mem_singleton.mpr rfl
  · simp [achievementEarned, thousandCoins]
  · rw [hp]
    rfl
  · unfold coinsOf
    rw [hsel]
    have hr : rewardCoins [firstClick, rich] { clicks := 1, coins := 101, level := 1 } = 50 := by
      have e1 : rewarded firstClick { clicks := 1, coins := 101, level := 1 } = true := by
        simp only [rewarded, chainDb_earned.1]
        simp [firstClick]
      have e2 : rewarded rich { clicks := 1, coins := 101, level := 1 } = false := by
        simp [rewarded, chainDb_earned.2]
      simp only [rewardCoins, List.filter_cons, e1, e2, if_true, List.filter_nil, List.map_cons,
        List.map_nil, List.sum_cons, List.sum_nil, Bool.false_eq_true, if_false]
      simp [firstClick]
    rw [hr]
    simp [addReward, alice]
    norm_num
  · rw [hclick]
    simp only [checkAchievements]
    rw [foldl_award_achievements]
    simp [insertTransaction, clickUpdate, updateUser, chainDb]
  · simp [achievementEarned, rich]
    norm_num
  · rw [hua]
    simp only [List.filter_cons, chainDb_earned.1, chainDb_earned.2, if_true, List.filter_nil,
      List.map_cons, List.map_nil, Bool.false_eq_true, if_false]
    simp [chainDb, rewardDb, firstClick]

theorem reward_sums_of_nonneg (as : List Achievement) (stats : Stats)
    (h : ∀ a ∈ as, 0 ≤ a.reward_coins ∧ 0 ≤ a.reward_gems) :
    rewardCoins as stats
      = ((as.filter (fun a => achievementEarned a stats)).map (fun a => a.reward_coins)).sum ∧
    rewardGems as stats
      = ((as.filter (fun a => achievementEarned a stats)).map (fun a => a.reward_gems)).sum := by
  induction as with
  | nil => exact ⟨rfl, rfl⟩
  | cons a as ih =>
    obtain ⟨ihc, ihg⟩ := ih (fun b hb => h b (List.mem_cons_of_mem a hb))
    obtain ⟨hc, hg⟩ := h a (List.mem_cons_self a as)
    simp only [rewardCoins, rewardGems] at ihc ihg ⊢
    cases he : achievementEarned a stats with
    | false =>
      have hr : rewarded a stats = false := by simp [rewarded, he]
      simp only [List.filter_cons, he, hr, Bool.false_eq_true, if_false]
      exact ⟨ihc, ihg⟩
    | true =>
      by_cases hd : a.reward_coins > 0 ∨ a.reward_gems > 0
      · have hr : rewarded a stats = true := by simp [rewarded, he, hd]
        simp only [List.filter_cons, he, hr, if_true, List.map_cons, List.sum_cons]
        exact ⟨by rw [ihc], by rw [ihg]⟩
      · have hr : rewarded a stats = false := by simp [rewarded, he, hd]
        have hc0 : a.reward_coins = 0 := by
          have : ¬ a.reward_coins > 0 := fun hp => hd (Or.inl hp)
          exact le_antisymm (not_lt.mp this) hc
        have hg0 : a.reward_gems = 0 := by
          have : ¬ a.reward_gems > 0 := fun hp => hd (Or.inr hp)
          exact le_antisymm (not_lt.mp this) hg
        simp only [List.filter_cons, he, hr, if_true, Bool.false_eq_true, if_false,
          List.map_cons, List.sum_cons, hc0, hg0, zero_add]
        exact ⟨ihc, ihg⟩

theorem commitUpgradePurchase_user_achievements (db : Db) (userId upgradeId : ℕ)
    (upgrade : Upgrade) (rows : List UserUpgrade) (cost : ℤ) :
    (commitUpgradePurchase db userId upgradeId upgrade rows cost).user_achievements
      = db.user_achievements := by
  unfold commitUpgradePurchase applyUpgradeEffect raiseUpgrade
  cases upgrade.type <;> simp only <;> split_ifs <;> rfl

theorem commitBusinessPurchase_user_achievements (db : Db) (userId businessId : ℕ)
    (rows : List UserBusiness) (d : ℤ) (cost : ℤ) :
    (commitBusinessPurchase db userId businessId rows d cost).user_achievements
      = db.user_achievements := by
  unfold commitBusinessPurchase raiseBusiness
  simp only
  split_ifs <;> rfl

theorem purchases_and_prestige_keep_earned_set (db : Db) (userId : ℕ) :
    (∀ upgradeId, (purchaseUpgrade db userId upgradeId).db.user_achievements
      = db.user_achievements) ∧
    (∀ businessId d, (purchaseBusiness db userId businessId d).db.user_achievements
      = db.user_achievements) ∧
    (prestige db userId).db.user_achievements = db.user_achievements := by
  refine ⟨fun upgradeId => ?_, fun businessId d => ?_, ?_⟩
  · rcases purchaseUpgrade_db db userId upgradeId with h | ⟨upgrade, user, rest, -, -, h⟩
    · rw [h]
    · rw [h, commitUpgradePurchase_user_achievements]
  · rcases purchaseBusiness_db db userId businessId d with h | ⟨business, user, rest, -, -, h⟩
    · rw [h]
    · rw [h, commitBusinessPurchase_user_achievements]
  · rcases prestige_db db userId with h | ⟨user, rest, -, h⟩
    · rw [h]
    · rw [h]
      rfl

/-- C23, amended to what the code does. Of the stat-changing operations only the click
evaluates achievements, and it evaluates them on the stats of the click: the total clicks
after the click, the balance after the click income and before any reward, and the new
level. After a click on an existing account, every achievement definition that these stats
meet is in the earned set of the account; the rows added are those of the definitions not
earned before that the stats meet, one row each; and, rewards being non-negative, the
stored balance is the old one plus the click income plus the reward coins of the newly
recorded achievements, each counted once, and the stored gems are the old ones plus their
reward gems. A purchase of an upgrade or of a business and a prestige leave the earned set
as it was. -/
theorem click_records_achievements_met_by_click_stats (db : Db) (userId : ℕ) (n nowMs : ℤ)
    (user : User) (rest : List User) (L : ℕ) (hs : selectUser db userId = user :: rest)
    (hL : levelOfExperience (user.experience + n) = some L)
    (hr : ∀ a ∈ db.achievements, 0 ≤ a.reward_coins ∧ 0 ≤ a.reward_gems) :
    (∀ a ∈ db.achievements,
      achievementEarned a
        { clicks := user.total_clicks + n, coins := user.coins + user.click_power * n,
          level := L } = true →
      ∃ ua ∈ (click db userId n nowMs).db.user_achievements,
        ua.achievement_id = a.id ∧ ua.user_id = userId) ∧
    (click db userId n nowMs).db.user_achievements
      = db.user_achievements ++
        ((pendingAchievements db userId).filter (fun a => achievementEarned a
          { clicks := user.total_clicks + n, coins := user.coins + user.click_power * n,
            level := L })).map
          (fun a => { user_id := userId, achievement_id := a.id }) ∧
    (∃ stored, (selectUser (click db userId n nowMs).db userId).head? = some stored ∧
      stored.coins = user.coins + user.click_power * n +
        (((pendingAchievements db userId).filter (fun a => achievementEarned a
          { clicks := user.total_clicks + n, coins := user.coins + user.click_power * n,
            level := L })).map (fun a => a.reward_coins)).sum ∧
      stored.gems = user.gems +
        (((pendingAchievements db userId).filter (fun a => achievementEarned a
          { clicks := user.total_clicks + n, coins := user.coins + user.click_power * n,
            level := L })).map (fun a => a.reward_gems)).sum) ∧
    (∀ upgradeId, (purchaseUpgrade db userId upgradeId).db.user_achievements
      = db.user_achievements) ∧
    (∀ businessId d, (purchaseBusiness db userId businessId d).db.user_achievements
      = db.user_achievements) ∧
    (prestige db userId).db.user_achievements = db.user_achievements := by
  have hua := click_user_achievements db userId n nowMs user rest L hs hL
  have hsel := selectUser_click db userId n nowMs user rest L hs hL
  have hpend : ∀ a ∈ pendingAchievements db userId,
      0 ≤ a.reward_coins ∧ 0 ≤ a.reward_gems :=
    fun a ha => hr a ((mem_pendingAchievements db userId a).mp ha).1
  obtain ⟨hc, hg⟩ := reward_sums_of_nonneg (pendingAchievements db userId)
    { clicks := user.total_clicks + n, coins := user.coins + user.click_power * n,
      level := L } hpend
  obtain ⟨k1, k2, k3⟩ := purchases_and_prestige_keep_earned_set db userId
  refine ⟨fun a ha he => ?_, hua, ⟨_, hsel, ?_, ?_⟩, k1, k2, k3⟩
  · rw [hua]
    by_cases hp : a ∈ pendingAchievements db userId
    · refine ⟨{ user_id := userId, achievement_id := a.id }, ?_, rfl, rfl⟩
      apply List.mem_append_right
      exact List.mem_map.mpr ⟨a, List.mem_filter.mpr ⟨hp, he⟩, rfl⟩
    · have hex : ∃ ua ∈ db.user_achievements,
          a.id = ua.achievement_id ∧ ua.user_id = userId := by
        by_contra hne
        push_neg at hne
        exact hp ((mem_pendingAchievements db userId a).mpr
          ⟨ha, fun ua hu hh => hne ua hu hh.1 hh.2⟩)
      obtain ⟨ua, hu, h1, h2⟩ := hex
      exact ⟨ua, List.mem_append_left _ hu, h1.symm, h2⟩
  · rw [← hc]
    rfl
  · rw [← hg]
    rfl

theorem click_records_achievements_met_by_click_stats_witness :
    selectUser chainDb 1 = [alice] ∧
    (click chainDb 1 1 0).db.user_achievements
      = chainDb.user_achievements ++
        ((pendingAchievements chainDb 1).filter (fun a => achievementEarned a
          { clicks := alice.total_clicks + 1, coins := alice.coins + alice.click_power * (1 : ℤ),
            level := 1 })).map
          (fun a => { user_id := 1, achievement_id := a.id }) ∧
    (prestige chainDb 1).db.user_achievements = chainDb.user_achievements :=
  have h := click_records_achievements_met_by_click_stats chainDb 1 1 0 alice [] 1
    chainDb_select levelOfExperience_one
    (by
      intro a ha
      have hm : a = firstClick ∨ a = rich := by
        simpa [chainDb, rewardDb] using ha
      rcases hm with rfl | rfl
      · constructor <;> simp [firstClick]
      · constructor <;> simp [rich])
  ⟨chainDb_select, h.2.1, h.2.2.2.2.2⟩

/-! ## Level and experience over every request -/

theorem levelOfExperience_zero : levelOfExperience 0 = some 1 := by
  simp [levelOfExperience, jsFloorSqrt]

theorem levelsOk_of_users_eq {db db1 : Db} (h : db1.users = db.users) (hok : LevelsOk db) :
    LevelsOk db1 := by
  intro u hu
  rw [h] at hu
  exact hok u hu

theorem levelsOk_updateUser (db : Db) (userId : ℕ) (f : User → User)
    (hf : ∀ u, (0 ≤ u.experience ∧ levelOfExperience u.experience = some u.level) →
      (0 ≤ (f u).experience ∧ levelOfExperience (f u).experience = some (f u).level))
    (hok : LevelsOk db) : LevelsOk (updateUser db userId f) := by
  intro u hu
  simp only [updateUser, List.mem_map] at hu
  obtain ⟨v, hv, rfl⟩ := hu
  by_cases hid : v.id = userId
  · rw [if_pos hid]
    exact hf v (hok v hv)
  · rw [if_neg hid]
    exact hok v hv

theorem levelsOk_awardAchievement (userId : ℕ) (stats : Stats) (db : Db) (a : Achievement)
    (hok : LevelsOk db) : LevelsOk (awardAchievement userId stats db a) := by
  unfold awardAchievement
  split_ifs
  · exact levelsOk_updateUser _ userId _ (fun u hu => hu) (levelsOk_of_users_eq rfl hok)
  · exact levelsOk_of_users_eq rfl hok
  · exact hok

theorem levelsOk_foldl_award (userId : ℕ) (stats : Stats) (as : List Achievement) :
    ∀ db : Db, LevelsOk db → LevelsOk (as.foldl (awardAchievement userId stats) db) := by
  induction as with
  | nil => intro db h; exact h
  | cons a as ih =>
    intro db h
    exact ih _ (levelsOk_awardAchievement userId stats db a h)

theorem levelsOk_click (db : Db) (userId : ℕ) (n nowMs : ℤ) (hn : 0 < n)
    (hok : LevelsOk db) : LevelsOk (click db userId n nowMs).db := by
  cases hs : selectUser db userId with
  | nil =>
    unfold click
    simp only [hs]
    exact hok
  | cons user rest =>
    have hmem : user ∈ db.users := by
      have : user ∈ selectUser db userId := by rw [hs]; exact List.mem_cons_self _ _
      exact (List.mem_filter.mp this).1
    have hx : 0 ≤ user.experience + n := by
      have := (hok user hmem).1
      omega
    obtain ⟨L, hL, -, -, -⟩ := levelOfExperience_spec _ hx
    rw [click_of_level db userId n nowMs user rest L hs hL]
    simp only [checkAchievements]
    apply levelsOk_foldl_award
    apply @levelsOk_of_users_eq (clickUpdate db userId (user.click_power * n)
      (user.experience + n) L (user.total_clicks + n)
      (user.total_earned + user.click_power * n) nowMs) _ rfl
    unfold clickUpdate
    exact levelsOk_updateUser db userId _ (fun u _ => ⟨hx, hL⟩) hok

theorem levelsOk_collectAuto (db : Db) (userId : ℕ) (nowMs : ℤ) (hok : LevelsOk db) :
    LevelsOk (collectAuto db userId nowMs).db := by
  cases hs : selectUser db userId with
  | nil =>
    unfold collectAuto
    simp only [hs]
    exact hok
  | cons user rest =>
    by_cases hr : user.auto_income ≤ 0
    · rw [collectAuto_of_nonpos db userId nowMs user rest hs hr]
      exact hok
    · rw [collectAuto_of_pos db userId nowMs user rest hs (not_le.mp hr)]
      simp only
      split_ifs
      · exact levelsOk_of_users_eq rfl
          (levelsOk_updateUser db userId _ (fun u hu => hu) hok)
      · exact hok

theorem levelsOk_collectBusiness (db : Db) (userId businessId : ℕ) (nowMs : ℤ)
    (hok : LevelsOk db) : LevelsOk (collectBusiness db userId businessId nowMs).db := by
  cases hs : selectOwnedBusiness db userId businessId with
  | nil =>
    unfold collectBusiness
    simp only [hs]
    exact hok
  | cons p rest =>
    obtain ⟨ub, b⟩ := p
    rw [collectBusiness_of_rows db userId businessId nowMs ub b rest hs]
    split_ifs
    · exact hok
    · exact @levelsOk_of_users_eq (updateUser db userId
        (creditCoins (b.base_income * ub.level))) _ rfl
        (levelsOk_updateUser db userId _ (fun u hu => hu) hok)

theorem levelsOk_applyUpgradeEffect (db : Db) (userId : ℕ) (upgrade : Upgrade)
    (hok : LevelsOk db) : LevelsOk (applyUpgradeEffect db userId upgrade) := by
  unfold applyUpgradeEffect
  split
  · exact levelsOk_updateUser db userId _ (fun u hu => hu) hok
  · exact levelsOk_updateUser db userId _ (fun u hu => hu) hok
  · exact hok

theorem levelsOk_run (db : Db) (r : Request) (hr : r.PositiveClicks) (hok : LevelsOk db) :
    LevelsOk (r.run db) := by
  cases r with
  | click userId n nowMs => exact levelsOk_click db userId n nowMs hr hok
  | purchaseUpgrade userId upgradeId =>
    rcases purchaseUpgrade_db db userId upgradeId with h | ⟨g, user, rest, -, -, h⟩
    · exact levelsOk_of_users_eq (by rw [Request.run, h]) hok
    · rw [Request.run, h]
      unfold commitUpgradePurchase
      apply @levelsOk_of_users_eq (applyUpgradeEffect _ userId g) _ rfl
      apply levelsOk_applyUpgradeEffect
      exact levelsOk_of_users_eq (raiseUpgrade_users _ userId upgradeId _)
        (levelsOk_updateUser db userId _ (fun u hu => hu) hok)
  | purchaseBusiness userId businessId d =>
    rcases purchaseBusiness_db db userId businessId d with h | ⟨b, user, rest, -, -, h⟩
    · exact levelsOk_of_users_eq (by rw [Request.run, h]) hok
    · rw [Request.run, h]
      unfold commitBusinessPurchase
      apply @levelsOk_of_users_eq (raiseBusiness _ userId businessId _ d) _ rfl
      exact levelsOk_of_users_eq (raiseBusiness_users _ userId businessId _ d)
        (levelsOk_updateUser db userId _ (fun u hu => hu) hok)
  | collectAuto userId nowMs => exact levelsOk_collectAuto db userId nowMs hok
  | collectBusiness userId businessId nowMs =>
    exact levelsOk_collectBusiness db userId businessId nowMs hok
  | transfer userId recipientId amount =>
    rcases transfer_db db userId recipientId amount with h | ⟨sender, rest, -, -, -, h⟩
    · exact levelsOk_of_users_eq (by rw [Request.run, h]) hok
    · rw [Request.run, h]
      unfold commitTransfer
      apply @levelsOk_of_users_eq (updateUser (updateUser db userId (debitCoins amount))
        recipientId (creditCoins amount)) _ rfl
      exact levelsOk_updateUser _ recipientId _ (fun u hu => hu)
        (levelsOk_updateUser db userId _ (fun u hu => hu) hok)
  | prestige userId =>
    rcases prestige_db db userId with h | ⟨user, rest, -, h⟩
    · exact levelsOk_of_users_eq (by rw [Request.run, h]) hok
    · rw [Request.run, h]
      apply @levelsOk_of_users_eq (updateUser db userId (prestigeUpdate (user.level / 10))) _
        rfl
      exact levelsOk_updateUser db userId _
        (fun u _ => ⟨le_refl 0, levelOfExperience_zero⟩) hok

theorem levelsOk_runRequests (rs : List Request) :
    ∀ db : Db, (∀ r ∈ rs, r.PositiveClicks) → LevelsOk db → LevelsOk (runRequests db rs) := by
  induction rs with
  | nil => intro db _ h; exact h
  | cons r rs ih =>
    intro db hp h
    exact ih (r.run db) (fun q hq => hp q (List.mem_cons_of_mem r hq))
      (levelsOk_run db r (hp r (List.mem_cons_self r rs)) h)

/-- C25: from a state in which every account is new (level 1, experience 0), every
sequence of requests to the handlers that write (clicks with positive integer click
counts, purchases of upgrades and of businesses, idle and business collections, transfers
and prestiges, each one accepted or rejected) ends in a state in which the stored level of
every account is `floor(sqrt(experience / 100)) + 1` of its stored experience and is at
least 1, the experience being non-negative. -/
theorem level_follows_experience_in_reachable_states (db : Db) (rs : List Request)
    (hnew : ∀ u ∈ db.users, u.level = 1 ∧ u.experience = 0)
    (hpos : ∀ r ∈ rs, r.PositiveClicks) :
    LevelsFollowExperience (runRequests db rs) ∧
    ∀ u ∈ (runRequests db rs).users,
      0 ≤ u.experience ∧ 1 ≤ u.level ∧
      u.level = Nat.sqrt ⌊(u.experience : ℚ) / 100⌋.toNat + 1 := by
  have h0 : LevelsOk db := by
    intro u hu
    obtain ⟨h1, h2⟩ := hnew u hu
    rw [h1, h2]
    exact ⟨le_refl 0, levelOfExperience_zero⟩
  have hok := levelsOk_runRequests rs db hpos h0
  refine ⟨fun u hu => (hok u hu).2, fun u hu => ?_⟩
  obtain ⟨hx, hl⟩ := hok u hu
  have hq : ¬ ((u.experience : ℚ) / 100 < 0) := by
    have : (0 : ℚ) ≤ (u.experience : ℚ) := by exact_mod_cast hx
    have : (0 : ℚ) ≤ (u.experience : ℚ) / 100 := by positivity
    linarith
  simp only [levelOfExperience, jsFloorSqrt, if_neg hq, Option.map, Option.some.injEq] at hl
  exact ⟨hx, by omega, hl.symm⟩

theorem level_follows_experience_in_reachable_states_witness :
    (∀ u ∈ sampleDb.users, u.level = 1 ∧ u.experience = 0) ∧
    LevelsFollowExperience (runRequests sampleDb
      [.click 1 250 0, .purchaseUpgrade 1 1, .transfer 1 2 30, .collectAuto 1 1000,
       .purchaseBusiness 2 1 0, .collectBusiness 2 1 90000000, .click 2 1 5, .prestige 1]) :=
  have hnew : ∀ u ∈ sampleDb.users, u.level = 1 ∧ u.experience = 0 := by
    intro u hu
    simp only [sampleDb, List.mem_cons, List.mem_singleton, List.not_mem_nil, or_false] at hu
    rcases hu with rfl | rfl <;> simp [alice, bob]
  ⟨hnew, (level_follows_experience_in_reachable_states sampleDb _ hnew
    (by simp [Request.PositiveClicks])).1⟩

/-! ## Two transfers served at the same time -/

/-- A request served with no other one in between goes through the handler `transfer`:
three steps take it from the start to its answer. -/
theorem transfer_served_alone (req other : TransferRequest) (db : Db) :
    runSchedule req other db [false, false, false]
      = { db := (transfer db req.userId req.recipientId req.amount).db
          first := .done (transfer db req.userId req.recipientId req.amount).result
          second := .start } := by
  simp only [runSchedule, List.foldl_cons, List.foldl_nil, Race.step, Bool.false_eq_true,
    if_false]
  unfold transfer
  by_cases h1 : req.recipientId = 0 ∨ req.amount = 0 ∨ req.amount ≤ 0
  · simp only [TransferTask.step, if_pos h1]
  by_cases h2 : req.userId = req.recipientId
  · simp only [TransferTask.step, if_neg h1, if_pos h2]
  cases hs : selectUser db req.userId with
  | nil => simp only [TransferTask.step, if_neg h1, if_neg h2, hs]
  | cons sender rest =>
    by_cases h3 : sender.coins < req.amount
    · simp only [TransferTask.step, if_neg h1, if_neg h2, hs, if_pos h3]
    · cases hr : selectUser db req.recipientId with
      | nil => simp only [TransferTask.step, if_neg h1, if_neg h2, hs, if_neg h3, hr]
      | cons recipient rest2 =>
        simp only [TransferTask.step, if_neg h1, if_neg h2, hs, if_neg h3, hr]

theorem sampleDb_select_alice : selectUser sampleDb 1 = [alice] := by
  simp [selectUser, sampleDb, alice, bob]

theorem sampleDb_select_bob : selectUser sampleDb 2 = [bob] := by
  simp [selectUser, sampleDb, alice, bob]

theorem step_start_sample :
    TransferTask.step ⟨1, 2, 80⟩ sampleDb .start = (sampleDb, .senderRead 100) := by
  have h1 : ¬ ((2 : ℕ) = 0 ∨ (80 : ℚ) = 0 ∨ (80 : ℚ) ≤ 0) := by norm_num
  have h2 : ¬ ((1 : ℕ) = 2) := by norm_num
  have h3 : ¬ (alice.coins < 80) := by norm_num [alice]
  simp only [TransferTask.step, if_neg h1, if_neg h2, sampleDb_select_alice, if_neg h3]
  rfl

theorem step_senderRead_sample (c : ℚ) :
    TransferTask.step ⟨1, 2, 80⟩ sampleDb (.senderRead c) = (sampleDb, .recipientRead c) := by
  simp only [TransferTask.step, sampleDb_select_bob]

theorem race_after_reads :
    runSchedule ⟨1, 2, 80⟩ ⟨1, 2, 80⟩ sampleDb [false, true, false, true]
      = { db := sampleDb, first := .recipientRead 100, second := .recipientRead 100 } := by
  have e1 : Race.step ⟨1, 2, 80⟩ ⟨1, 2, 80⟩
      { db := sampleDb, first := .start, second := .start } false
      = { db := sampleDb, first := .senderRead 100, second := .start } := by
    simp only [Race.step, Bool.false_eq_true, if_false, step_start_sample]
  have e2 : Race.step ⟨1, 2, 80⟩ ⟨1, 2, 80⟩
      { db := sampleDb, first := .senderRead 100, second := .start } true
      = { db := sampleDb, first := .senderRead 100, second := .senderRead 100 } := by
    simp only [Race.step, if_true, step_start_sample]
  have e3 : Race.step ⟨1, 2, 80⟩ ⟨1, 2, 80⟩
      { db := sampleDb, first := .senderRead 100, second := .senderRead 100 } false
      = { db := sampleDb, first := .recipientRead 100, second := .senderRead 100 } := by
    simp only [Race.step, Bool.false_eq_true, if_false, step_senderRead_sample]
  have e4 : Race.step ⟨1, 2, 80⟩ ⟨1, 2, 80⟩
      { db := sampleDb, first := .recipientRead 100, second := .senderRead 100 } true
      = { db := sampleDb, first := .recipientRead 100, second := .recipientRead 100 } := by
    simp only [Race.step, if_true, step_senderRead_sample]
  simp only [runSchedule, List.foldl_cons, List.foldl_nil, e1, e2, e3, e4]

/-- C26, evaluated where it fails. The account `alice` holds 100 coins and two requests
ask to transfer 80 coins from it. Served one after the other, the first succeeds and the
second is rejected with `InsufficientFunds`. Served at the same time, each request reads
the balance before the other writes: both observe 100 coins, both succeed and answer 20
remaining coins, and the stored balance ends at -60. Nothing between the read of the
balance and the debit asks the storage for the balance again, and the debit is not made
conditional on it. -/
theorem concurrent_transfers_both_succeed :
    coinsOf sampleDb 1 = some 100 ∧
    (transfer sampleDb 1 2 80).result = .ok { remainingCoins := 20 } ∧
    (transfer (transfer sampleDb 1 2 80).db 1 2 80).result = .error .InsufficientFunds ∧
    (runSchedule ⟨1, 2, 80⟩ ⟨1, 2, 80⟩ sampleDb
        [false, true, false, true, false, true]).first.result?
      = some (.ok { remainingCoins := 20 }) ∧
    (runSchedule ⟨1, 2, 80⟩ ⟨1, 2, 80⟩ sampleDb
        [false, true, false, true, false, true]).second.result?
      = some (.ok { remainingCoins := 20 }) ∧
    coinsOf (runSchedule ⟨1, 2, 80⟩ ⟨1, 2, 80⟩ sampleDb
        [false, true, false, true, false, true]).db 1 = some (-60) := by
  have hrun : runSchedule ⟨1, 2, 80⟩ ⟨1, 2, 80⟩ sampleDb
      [false, true, false, true, false, true]
      = { db := commitTransfer (commitTransfer sampleDb 1 2 80) 1 2 80
          first := .done (.ok { remainingCoins := 100 - 80 })
          second := .done (.ok { remainingCoins := 100 - 80 }) } := by
    have h := race_after_reads
    simp only [runSchedule, List.foldl_cons, List.foldl_nil] at h ⊢
    rw [h]
    simp only [Race.step, Bool.false_eq_true, if_false, if_true, TransferTask.step]
  have h1 : ¬ ((2 : ℕ) = 0 ∨ (80 : ℚ) = 0 ∨ (80 : ℚ) ≤ 0) := by norm_num
  have h2 : ¬ ((1 : ℕ) = 2) := by norm_num
  have h3 : ¬ (alice.coins < 80) := by norm_num [alice]
  have ht : transfer sampleDb 1 2 80
      = ⟨commitTransfer sampleDb 1 2 80, .ok { remainingCoins := alice.coins - 80 }⟩ := by
    unfold transfer
    simp only [if_neg h1, if_neg h2, sampleDb_select_alice, sampleDb_select_bob, if_neg h3]
  have hsel : selectUser (commitTransfer sampleDb 1 2 80) 1 = [debitCoins 80 alice] := by
    simp [selectUser, commitTransfer, insertTransaction, updateUser, sampleDb, alice, bob,
      debitCoins, creditCoins]
  have hsel2 : selectUser (commitTransfer (commitTransfer sampleDb 1 2 80) 1 2 80) 1
      = [debitCoins 80 (debitCoins 80 alice)] := by
    simp [selectUser, commitTransfer, insertTransaction, updateUser, sampleDb, alice, bob,
      debitCoins, creditCoins]
  have h4 : (debitCoins 80 alice).coins < 80 := by norm_num [debitCoins, alice]
  refine ⟨?_, ?_, ?_, ?_, ?_, ?_⟩
  · simp [coinsOf, sampleDb_select_alice, alice]
  · rw [ht]
    norm_num [alice]
  · rw [ht]
    unfold transfer
    simp only [if_neg h1, if_neg h2, hsel, if_pos h4]
  · rw [hrun]
    norm_num [TransferTask.result?]
  · rw [hrun]
    norm_num [TransferTask.result?]
  · rw [hrun]
    simp only [coinsOf, hsel2]
    norm_num [debitCoins, alice]

end Economy
